import Mathlib

/-!
AZ editor: the document / edit engine of `az.c`.

A shallow embedding of the editing core of `src/az.c`.

* The doubly linked list of `Line` nodes hanging off `first_line` is a
  `List Line`; a node pointer (`current_line`, the result of `get_line_at`)
  is the position of the node in that list, and any position past the end
  stands for `NULL`.
* A line's `data` is the C string it holds (the bytes before the terminator);
  `len` and `capacity` are the recorded fields, updated by the same
  arithmetic as in the source, so that a disagreement between `len` and the
  actual string length, or between `len` and `capacity`, is visible.
* C `int` and `size_t` values are natural numbers; every subtraction in the
  modelled code is guarded in the source by the comparison that makes it
  non-negative on well-formed states.
* The `static int last_was_space` of `insert_char` is a field of the state.
* The interactive prompts of `replace_text` are parameters: the query, the
  replacement and the key pressed at the final question.
* A mouse event is the screen cell and the bits of `bstate` that
  `handle_mouse` tests; `draw_screen` is represented by what it changes in
  the state and by the cell at which it places the cursor.
* The definitions are the C program on the states where the C program stays
  inside its objects: node pointers that are not `NULL`, columns within the
  line, strings that fit the buffer they are copied into, a pointer into a
  buffer used before that buffer is reallocated. Outside these bounds C
  defines no result, and what a definition returns there says nothing about
  the program. A theorem about an input that crosses the bounds states only
  what shows the crossing: `get_line_at` returning `none`, a string longer
  than the `capacity` of its node, a `capacity` changed by `realloc`.
-/

namespace AzEditor

set_option linter.unnecessarySeqFocus false

/-- The bound `MAX_UNDO` on the number of undo snapshots. -/
def MAX_UNDO : Nat := 100

/-- The constant `TAB_SIZE`. -/
def TAB_SIZE : Nat := 4

/-- The constant `LINE_NUMBER_WIDTH`. -/
def LINE_NUMBER_WIDTH : Nat := 5

/-- The `Line` structure: the string held in `data`, and the recorded `len`
and `capacity` fields (`next` and `prev` are the position in the list). -/
structure Line where
  data : List Char
  len : Nat
  capacity : Nat
deriving DecidableEq

/-- The `SyntaxError` structure. -/
structure SyntaxError where
  line : Nat
  col_start : Nat
  col_end : Nat
  msg : String
deriving DecidableEq

/-- One entry of `undo_stack`: the duplicated line strings, the recorded
number of lines and the cursor. -/
structure Snapshot where
  lines : List (List Char)
  num_lines : Nat
  cursor_x : Nat
  cursor_y : Nat
deriving DecidableEq

/-- The `Editor` structure. `clipboard_lines`, `cut_buffer_lines` and
`undo_count` are the lengths of `clipboard`, `cut_buffer` and `undo_stack`;
`undo_stack` is in array order (index 0, the oldest snapshot, first). -/
structure Editor where
  lines : List Line
  current_line : Nat
  cursor_x : Nat
  cursor_y : Nat
  preferred_x : Nat
  offset_y : Nat
  screen_width : Nat
  screen_height : Nat
  edit_width : Nat
  edit_height : Nat
  filename : Option (List Char)
  modified : Bool
  total_lines : Nat
  message : String
  message_timeout : Nat
  syntax_error : SyntaxError
  sel_active : Bool
  sel_start_y : Nat
  sel_start_x : Nat
  sel_end_y : Nat
  sel_end_x : Nat
  mouse_pressed : Bool
  clipboard : List (List Char)
  cut_buffer : List (List Char)
  undo_stack : List Snapshot
  last_was_space : Bool

/-- The node a pointer refers to. Dereferencing `NULL` is undefined in C; the
model reads an empty line there. On the well-formed states the theorems are
stated for (see `Core`, `SelRows`, `ValidPos`) no such read occurs. -/
def deref (ls : List Line) (p : Nat) : Line :=
  ls.getD p { data := [], len := 0, capacity := 0 }

/-- `get_line_at`: walk `y` links from `first_line`; `none` is `NULL`. -/
def get_line_at (ed : Editor) (y : Nat) : Option Line :=
  ed.lines[y]?

/-- `set_message`: copy the text and arm the timeout. -/
def set_message (ed : Editor) (msg : String) : Editor :=
  { ed with message := msg, message_timeout := 4 }

/-- The loop `while (need >= capacity) capacity *= 2`, run for at most
`fuel` rounds. -/
def grow_loop : Nat → Nat → Nat → Nat
  | 0, _, cap => cap
  | fuel + 1, need, cap => if need ≥ cap then grow_loop fuel need (cap * 2) else cap

/-- The capacity after the doubling loop `while (need >= capacity)
capacity *= 2`. `need + 1` rounds are enough for every positive capacity
(a zero capacity, which no allocation of the program produces, would loop
for ever in C). -/
def grow_capacity (need cap : Nat) : Nat :=
  grow_loop (need + 1) need cap

/-- The snapshot `save_undo` stores: `total_lines` as `num_lines`, the
cursor, and a `strdup` of each of the first `total_lines` lines. -/
def snapshot_of (ed : Editor) : Snapshot :=
  { lines := (ed.lines.take ed.total_lines).map Line.data
    num_lines := ed.total_lines
    cursor_x := ed.cursor_x
    cursor_y := ed.cursor_y }

/-- `save_undo`: on a full stack drop entry 0 and shift the rest down, then
store the current state on top. -/
def save_undo (ed : Editor) : Editor :=
  let stack := if MAX_UNDO ≤ ed.undo_stack.length then ed.undo_stack.drop 1 else ed.undo_stack
  { ed with undo_stack := stack ++ [snapshot_of ed] }

/-- The line `perform_undo` rebuilds from a saved string. -/
def restore_line (s : List Char) : Line :=
  { data := s, len := s.length, capacity := s.length + 128 }

/-- `perform_undo`. -/
def perform_undo (ed : Editor) : Editor :=
  match ed.undo_stack.getLast? with
  | none => set_message ed "Undo: Nothing to undo"
  | some snap =>
    let stack := ed.undo_stack.dropLast
    set_message
      { ed with
        undo_stack := stack
        total_lines := snap.num_lines
        cursor_x := snap.cursor_x
        cursor_y := snap.cursor_y
        preferred_x := snap.cursor_x
        lines := (snap.lines.take snap.num_lines).map restore_line
        current_line := snap.cursor_y
        modified := true }
      ("Undo: " ++ toString stack.length ++ " ta orqaga")

/-- The normalisation block shared by `delete_selection` and
`copy_selection`: swap the two endpoints when the start lies after the end. -/
def normalize (sy sx ey ex : Nat) : (Nat × Nat) × (Nat × Nat) :=
  if sy > ey ∨ (sy = ey ∧ sx > ex) then ((ey, ex), (sy, sx)) else ((sy, sx), (ey, ex))

/-- The body of `delete_selection` on the normalised endpoints `(sy, sx)`
and `(ey, ex)`: on one row the span is cut out of the line; otherwise the
start line is truncated at `sx`, receives the end line's text from `ex` on,
and the nodes after the start line up to and including the end line are
freed, each one decrementing `total_lines`. This is the C code when both
endpoints are valid positions (`ValidPos`). For a row that is not in the
list `get_line_at` returns `NULL` and C dereferences it, and for a column
beyond the line the size `len - ex + 1` of the `memmove` wraps around as a
`size_t`; the definition has no counterpart of either. -/
def delete_span (ed : Editor) (sy sx ey ex : Nat) : Editor :=
  let start_line := deref ed.lines sy
  let end_line := deref ed.lines ey
  let ed1 : Editor :=
    if sy = ey then
      { ed with
        lines := ed.lines.set sy
          { start_line with
            data := start_line.data.take sx ++ start_line.data.drop ex
            len := start_line.len - (ex - sx) } }
    else
      let suffix := end_line.data.drop ex
      let merged : Line :=
        { data := start_line.data.take sx ++ suffix
          len := sx + suffix.length
          capacity := grow_capacity (sx + suffix.length + 1) start_line.capacity }
      let freed := (ed.lines.drop (sy + 1)).take (ey - sy)
      { ed with
        lines := (ed.lines.set sy merged).take (sy + 1) ++ ed.lines.drop (ey + 1)
        total_lines := ed.total_lines - freed.length }
  { ed1 with
    current_line := sy
    cursor_y := sy
    cursor_x := sx
    preferred_x := sx
    sel_active := false
    modified := true }

/-- `delete_selection`. -/
def delete_selection (ed : Editor) : Editor :=
  if ed.sel_active = false then ed else
  let n := normalize ed.sel_start_y ed.sel_start_x ed.sel_end_y ed.sel_end_x
  delete_span ed n.1.1 n.1.2 n.2.1 n.2.2

/-- The checkpoint step at the head of `insert_char`: a snapshot is taken
when the boundary flag is set or the stack is empty, and the flag is set
again by a space or a tab. -/
def insert_char_checkpoint (ed : Editor) (c : Char) : Editor :=
  let ed1 : Editor :=
    if ed.last_was_space = true ∨ ed.undo_stack.length = 0 then
      { save_undo ed with last_was_space := false }
    else ed
  if c = Char.ofNat 32 ∨ c = Char.ofNat 9 then { ed1 with last_was_space := true } else ed1

/-- The buffer growth step of `insert_char`, applied to the line that was
current when the function was entered. -/
def insert_char_expand (ed : Editor) (k : Nat) : Editor :=
  let line := deref ed.lines k
  if line.len + 2 ≥ line.capacity then
    { ed with lines := ed.lines.set k { line with capacity := line.capacity * 2 } }
  else ed

/-- The final step of `insert_char`: shift the tail of the current line by
one and store the character at the cursor. This is the C code when
`cursor_x` is at most the length of the line; beyond it the size
`len - cursor_x + 1` of the `memmove` wraps around as a `size_t`. -/
def insert_char_put (ed : Editor) (c : Char) : Editor :=
  let line := deref ed.lines ed.current_line
  { ed with
    lines := ed.lines.set ed.current_line
      { line with
        data := line.data.take ed.cursor_x ++ c :: line.data.drop ed.cursor_x
        len := line.len + 1 }
    cursor_x := ed.cursor_x + 1
    preferred_x := ed.cursor_x + 1
    modified := true
    sel_active := false }

/-- `insert_char`. -/
def insert_char (ed : Editor) (c : Char) : Editor :=
  let k := ed.current_line
  let ed1 := insert_char_checkpoint ed c
  let ed2 := insert_char_expand ed1 k
  let ed3 := if ed2.sel_active = true then delete_selection ed2 else ed2
  insert_char_put ed3 c

/-- The loop `for (char *p = s; *p; p++) insert_char(ed, *p)` of
`paste_clipboard` and `uncut_text`. -/
def insert_chars (ed : Editor) : List Char → Editor
  | [] => ed
  | c :: rest => insert_chars (insert_char ed c) rest

/-- The editing part of `backspace_char`, after the snapshot and the
selection test. -/
def backspace_edit (ed : Editor) : Editor :=
  if ed.cursor_x > 0 then
    let line := deref ed.lines ed.current_line
    { ed with
      lines := ed.lines.set ed.current_line
        { line with
          data := line.data.take (ed.cursor_x - 1) ++ line.data.drop ed.cursor_x
          len := line.len - 1 }
      cursor_x := ed.cursor_x - 1
      preferred_x := ed.cursor_x - 1
      modified := true }
  else if ed.cursor_y > 0 then
    let k := ed.current_line
    let cur := deref ed.lines k
    let prev := deref ed.lines (k - 1)
    let merged : Line :=
      { data := prev.data ++ cur.data
        len := prev.len + cur.len
        capacity := grow_capacity (prev.len + cur.len + 1) prev.capacity }
    { ed with
      lines := (ed.lines.set (k - 1) merged).eraseIdx k
      current_line := k - 1
      cursor_y := ed.cursor_y - 1
      cursor_x := prev.len
      preferred_x := prev.len
      total_lines := ed.total_lines - 1
      modified := true }
  else ed

/-- `backspace_char`. -/
def backspace_char (ed : Editor) : Editor :=
  let ed1 := save_undo ed
  if ed1.sel_active = true then delete_selection ed1 else backspace_edit ed1

/-- The editing part of `delete_char`, after the snapshot and the selection
test. -/
def delete_edit (ed : Editor) : Editor :=
  let k := ed.current_line
  let line := deref ed.lines k
  if ed.cursor_x < line.len then
    { ed with
      lines := ed.lines.set k
        { line with
          data := line.data.take ed.cursor_x ++ line.data.drop (ed.cursor_x + 1)
          len := line.len - 1 }
      modified := true }
  else if k + 1 < ed.lines.length then
    let next := deref ed.lines (k + 1)
    let merged : Line :=
      { data := line.data ++ next.data
        len := line.len + next.len
        capacity := grow_capacity (line.len + next.len + 1) line.capacity }
    { ed with
      lines := (ed.lines.set k merged).eraseIdx (k + 1)
      total_lines := ed.total_lines - 1
      modified := true }
  else ed

/-- `delete_char`. -/
def delete_char (ed : Editor) : Editor :=
  let ed1 := save_undo ed
  if ed1.sel_active = true then delete_selection ed1 else delete_edit ed1

/-- The split performed by `insert_newline` once the snapshot is taken and
an active selection is deleted: the new node has capacity 128, receives the
text from the cursor on and is linked in after the current line. The
`strcpy` into the new node is not preceded by any test of the length: the
definition records the copied text whole and the capacity 128 next to it.
With fewer than 128 characters after the cursor this is the C code; with
128 or more the copy runs past the end of the `malloc(128)` block, which
shows in the definition as a node whose string, with its terminator, is
longer than its `capacity`, and C defines no result from there on. -/
def newline_split (ed : Editor) : Editor :=
  let k := ed.current_line
  let line := deref ed.lines k
  let new_line : Line :=
    { data := line.data.drop ed.cursor_x
      len := line.len - ed.cursor_x
      capacity := 128 }
  let old_line : Line :=
    { line with data := line.data.take ed.cursor_x, len := ed.cursor_x }
  { ed with
    lines := (ed.lines.set k old_line).take (k + 1) ++ new_line :: ed.lines.drop (k + 1)
    current_line := k + 1
    cursor_y := ed.cursor_y + 1
    cursor_x := 0
    preferred_x := 0
    total_lines := ed.total_lines + 1
    modified := true }

/-- `insert_newline`: the snapshot, the deletion of an active selection
(within the bounds of `delete_span`), then the split (within the 128 bytes
of `newline_split`). -/
def insert_newline (ed : Editor) : Editor :=
  let ed1 := save_undo ed
  let ed2 := if ed1.sel_active = true then delete_selection ed1 else ed1
  newline_split ed2

/-- `select_all`: the walk to the last node ends at position
`length - 1`. -/
def select_all (ed : Editor) : Editor :=
  let last_y := ed.lines.length - 1
  set_message
    { ed with
      sel_active := true
      sel_start_y := 0
      sel_start_x := 0
      sel_end_y := last_y
      sel_end_x := (deref ed.lines last_y).len }
    "All selected"

/-- The text `copy_selection` stores for the `i`-th line of the span: on a
single row `safe_strndup(&data[sx], ex - sx)`, otherwise the tail of the
first line, the head of the last line, and whole lines in between. -/
def copy_fragment (sy sx ey ex n i : Nat) (line : Line) : List Char :=
  if sy = ey then (line.data.drop sx).take (ex - sx)
  else if i = 0 then line.data.drop sx
  else if i = n - 1 then line.data.take ex
  else line.data

/-- The loop `for (i = 0; i < clipboard_lines && line; i++)` of
`copy_selection`, walking the list from the start line. -/
def copy_loop (sy sx ey ex n : Nat) : Nat → List Line → List (List Char)
  | _, [] => []
  | i, line :: rest =>
    if i < n then copy_fragment sy sx ey ex n i line :: copy_loop sy sx ey ex n (i + 1) rest
    else []

/-- `copy_selection`. -/
def copy_selection (ed : Editor) : Editor :=
  if ed.sel_active = false then set_message ed "Select text first" else
  let n := normalize ed.sel_start_y ed.sel_start_x ed.sel_end_y ed.sel_end_x
  let sy := n.1.1
  let sx := n.1.2
  let ey := n.2.1
  let ex := n.2.2
  let count := ey - sy + 1
  set_message
    { ed with clipboard := copy_loop sy sx ey ex count 0 (ed.lines.drop sy) }
    ("Nusxalandi: " ++ toString count ++ " qator")

/-- `cut_selection`. -/
def cut_selection (ed : Editor) : Editor :=
  delete_selection (copy_selection ed)

/-- The single-fragment branch of `paste_clipboard`: splice the fragment
into the current line at the cursor. -/
def paste_single (ed : Editor) (frag : List Char) : Editor :=
  let k := ed.current_line
  let line := deref ed.lines k
  let paste_len := frag.length
  { ed with
    lines := ed.lines.set k
      { data := line.data.take ed.cursor_x ++ frag ++ line.data.drop ed.cursor_x
        len := line.len + paste_len
        capacity := grow_capacity (line.len + paste_len + 1) line.capacity }
    cursor_x := ed.cursor_x + paste_len
    preferred_x := ed.cursor_x + paste_len }

/-- The multi-fragment loop of `paste_clipboard`: a newline before every
fragment but the first, then the fragment typed character by character. -/
def paste_loop (ed : Editor) : Nat → List (List Char) → Editor
  | _, [] => ed
  | i, frag :: rest =>
    paste_loop (insert_chars (if i > 0 then insert_newline ed else ed) frag) (i + 1) rest

/-- `paste_clipboard`. -/
def paste_clipboard (ed : Editor) : Editor :=
  if ed.clipboard.length = 0 then set_message ed "Clipboard empty" else
  let ed1 := if ed.sel_active = true then delete_selection ed else ed
  let ed2 :=
    if ed1.clipboard.length = 1 then paste_single ed1 (ed1.clipboard.headD [])
    else paste_loop ed1 0 ed1.clipboard
  set_message { ed2 with modified := true } "Pasted"

/-- `cut_line`. -/
def cut_line (ed : Editor) : Editor :=
  let k := ed.current_line
  let line := deref ed.lines k
  let line1 : Line := { line with data := line.data.take ed.cursor_x, len := ed.cursor_x }
  let ed1 : Editor :=
    { ed with
      cut_buffer := ed.cut_buffer ++ [line.data.drop ed.cursor_x]
      lines := ed.lines.set k line1 }
  let ed2 : Editor :=
    if line1.len = 0 ∧ k + 1 < ed.lines.length then
      { ed1 with
        lines := ed1.lines.eraseIdx k
        current_line := if k > 0 then k - 1 else 0
        total_lines := ed1.total_lines - 1
        cursor_x := 0
        cursor_y := if ed1.cursor_y > 0 then ed1.cursor_y - 1 else 0 }
    else ed1
  set_message { ed2 with preferred_x := ed2.cursor_x, modified := true }
    "Line cut (Ctrl+U to paste)"

/-- The loop of `uncut_text`: every fragment typed character by character,
and a newline after every fragment but the last. -/
def uncut_loop (ed : Editor) : List (List Char) → Editor
  | [] => ed
  | frag :: rest =>
    let ed1 := insert_chars ed frag
    match rest with
    | [] => ed1
    | _ :: _ => uncut_loop (insert_newline ed1) rest

/-- `uncut_text`. -/
def uncut_text (ed : Editor) : Editor :=
  if ed.cut_buffer.length = 0 then set_message ed "Cut buffer empty" else
  set_message { uncut_loop ed ed.cut_buffer with cut_buffer := [] } "Pasted"

/-- The C library `strstr` on strings: the offset of the first occurrence of
`needle` in `hay`, `none` for `NULL`. -/
def strstr : List Char → List Char → Option Nat
  | [], needle => if needle = [] then some 0 else none
  | c :: rest, needle =>
    if needle.isPrefixOf (c :: rest) then some 0
    else (strstr rest needle).map (fun i => i + 1)

/-- The counting loop of `replace_text` on one line: `ptr = strstr(ptr,
query)`, count, `ptr++`, for at most `fuel` matches. -/
def count_loop : Nat → List Char → List Char → Nat
  | 0, _, _ => 0
  | fuel + 1, s, query =>
    match strstr s query with
    | none => 0
    | some i => 1 + count_loop fuel (s.drop (i + 1)) query

/-- The number of occurrences `replace_text` counts over all lines before it
asks what to do. A line of length `n` has at most `n + 1` match starts. -/
def count_occurrences (ls : List Line) (query : List Char) : Nat :=
  (ls.map (fun l => count_loop (l.data.length + 1) l.data query)).sum

/-- One splice of `replace_text`: the occurrence at offset `off` is replaced,
the recorded length becomes `len - query_len + repl_len`, and the buffer is
reallocated to `new_len + 128` when `new_len + 1 >= capacity`. The text is
what `memmove` and `memcpy` through `pos` leave when the buffer is not
reallocated, that is when `new_len + 1 < capacity`. When it is, `pos` was
computed before the `realloc` and is not recomputed from `offset`, so the
two calls write through a pointer into the block that `realloc` may have
released; C defines no result there, and the changed `capacity` is what
tells such a splice from one in place. -/
def replace_splice (line : Line) (off : Nat) (query replacement : List Char) : Line :=
  let new_len := line.len - query.length + replacement.length
  { data := line.data.take off ++ replacement ++ line.data.drop (off + query.length)
    len := new_len
    capacity := if new_len + 1 ≥ line.capacity then new_len + 128 else line.capacity }

/-- The inner loop of replace-all on one line,
`while ((pos = strstr(line->data, query)) != NULL)`: every round searches
from the start of the line. `none` when `fuel` rounds do not finish it. -/
def replace_all_line : Nat → List Char → List Char → Line → Nat → Option (Line × Nat)
  | 0, _, _, _, _ => none
  | fuel + 1, query, replacement, line, replaced =>
    match strstr line.data query with
    | none => some (line, replaced)
    | some off =>
      replace_all_line fuel query replacement (replace_splice line off query replacement)
        (replaced + 1)

/-- The outer loop of replace-all over the list of lines, threading the
counter `replaced`; each line's inner loop gets `fuel` rounds. -/
def replace_all_lines (fuel : Nat) (query replacement : List Char) :
    List Line → Nat → Option (List Line × Nat)
  | [], replaced => some ([], replaced)
  | line :: rest, replaced =>
    match replace_all_line fuel query replacement line replaced with
    | none => none
    | some (line1, replaced1) =>
      match replace_all_lines fuel query replacement rest replaced1 with
      | none => none
      | some (rest1, replaced2) => some (line1 :: rest1, replaced2)

/-- `replace_text` after its prompts: `query` and `replacement` are the two
strings entered, `choice` the key code read at the final question (97 or 65
for all, 49 for one, 27 to cancel). `none` when a replace-all inner loop
does not finish within `fuel` rounds. -/
def replace_text (fuel : Nat) (ed : Editor) (query replacement : List Char) (choice : Nat) :
    Option Editor :=
  if query.length = 0 then some (set_message ed "Bekor qilindi") else
  if count_occurrences ed.lines query = 0 then some (set_message ed "Not found") else
  if choice = 27 then some (set_message ed "Bekor qilindi") else
  let ed1 := save_undo ed
  if choice = 97 ∨ choice = 65 then
    match replace_all_lines fuel query replacement ed1.lines 0 with
    | none => none
    | some (ls, replaced) =>
      some { set_message { ed1 with lines := ls }
               ("Almashtirildi: " ++ toString replaced ++ " ta") with modified := true }
  else if choice = 49 then
    let k := ed1.current_line
    let line := deref ed1.lines k
    match strstr (line.data.drop ed1.cursor_x) query with
    | none => some ed1
    | some i =>
      let off := ed1.cursor_x + i
      some (set_message
        { ed1 with
          lines := ed1.lines.set k (replace_splice line off query replacement)
          cursor_x := off + replacement.length
          preferred_x := off + replacement.length
          modified := true }
        "Almashtirildi: 1 ta")
  else some ed1

/-- A state to evaluate the operations on: the given lines (each in a buffer
of `length + 128` bytes, as `load_file` allocates them), the cursor at
`(y, x)`, no selection, empty clipboard, cut buffer and undo stack, and the
boundary flag in its initial state. -/
def mk_editor (texts : List (List Char)) (y x : Nat) : Editor :=
  { lines := texts.map restore_line
    current_line := y
    cursor_x := x
    cursor_y := y
    preferred_x := x
    offset_y := 0
    screen_width := 80
    screen_height := 24
    edit_width := 74
    edit_height := 22
    filename := none
    modified := false
    total_lines := texts.length
    message := ""
    message_timeout := 0
    syntax_error := { line := 0, col_start := 0, col_end := 0, msg := "" }
    sel_active := false
    sel_start_y := 0
    sel_start_x := 0
    sel_end_y := 0
    sel_end_x := 0
    mouse_pressed := false
    clipboard := []
    cut_buffer := []
    undo_stack := []
    last_was_space := true }

/-- The line texts of a state, in order. -/
def texts (ed : Editor) : List (List Char) :=
  ed.lines.map Line.data

/-- A saved snapshot is well formed: it holds as many strings as it
records lines, at least one, and its cursor row is one of them. -/
def SnapshotOK (s : Snapshot) : Prop :=
  s.lines.length = s.num_lines ∧ 1 ≤ s.num_lines ∧ s.cursor_y < s.num_lines

/-- The line-count invariant: the list has at least one line and
`total_lines` is its length. -/
def LinesOK (ed : Editor) : Prop :=
  ed.lines ≠ [] ∧ ed.total_lines = ed.lines.length

instance (ed : Editor) : Decidable (LinesOK ed) := by
  unfold LinesOK
  infer_instance

/-- Structural well-formedness of a state: the list is non-empty and counted
by `total_lines`, `current_line` is the node at row `cursor_y`, which
exists, and the undo stack holds at most `MAX_UNDO` well-formed
snapshots. -/
structure Core (ed : Editor) : Prop where
  nonempty : ed.lines ≠ []
  total : ed.total_lines = ed.lines.length
  current : ed.current_line = ed.cursor_y
  row : ed.cursor_y < ed.lines.length
  undo_bound : ed.undo_stack.length ≤ MAX_UNDO
  undo_ok : ∀ s ∈ ed.undo_stack, SnapshotOK s

/-- An active selection has both endpoint rows inside the document. -/
def SelRows (ed : Editor) : Prop :=
  ed.sel_active = true → ed.sel_start_y < ed.lines.length ∧ ed.sel_end_y < ed.lines.length

/-- The cursor invariant: the cursor row is a line of the document and the
cursor column is at most the recorded length of that line. -/
def CursorOK (ed : Editor) : Prop :=
  ed.cursor_y < ed.lines.length ∧ ed.cursor_x ≤ (deref ed.lines ed.cursor_y).len

instance (ed : Editor) : Decidable (CursorOK ed) := by
  unfold CursorOK
  infer_instance

/-- Every line's recorded length is the length of the string it holds. -/
def LensOK (ed : Editor) : Prop :=
  ∀ l ∈ ed.lines, l.len = l.data.length

instance (ed : Editor) : Decidable (LensOK ed) := by
  unfold LensOK
  infer_instance

/-- A valid buffer coordinate: the row is a line of the document and the
column is at most the length of that line. -/
def ValidPos (ed : Editor) (y x : Nat) : Prop :=
  y < ed.lines.length ∧ x ≤ (deref ed.lines y).len

instance (ed : Editor) (y x : Nat) : Decidable (ValidPos ed y x) := by
  unfold ValidPos
  infer_instance

/-- The text and the recorded length of every line, in order. -/
def contents (ed : Editor) : List (List Char × Nat) :=
  ed.lines.map (fun l => (l.data, l.len))

/-- The same selection made the other way round: anchor and active point
exchanged. -/
def swap_selection (ed : Editor) : Editor :=
  { ed with
    sel_start_y := ed.sel_end_y
    sel_start_x := ed.sel_end_x
    sel_end_y := ed.sel_start_y
    sel_end_x := ed.sel_start_x }

/-- The three edits that call `save_undo` unconditionally on entry. -/
inductive CheckpointEdit where
  | backspace
  | delete
  | newline
deriving DecidableEq

/-- Run one checkpointing edit. -/
def apply_edit (ed : Editor) : CheckpointEdit → Editor
  | CheckpointEdit.backspace => backspace_char ed
  | CheckpointEdit.delete => delete_char ed
  | CheckpointEdit.newline => insert_newline ed

/-- Run a sequence of checkpointing edits, first to last. -/
def apply_edits (ed : Editor) : List CheckpointEdit → Editor
  | [] => ed
  | e :: rest => apply_edits (apply_edit ed e) rest

/-- Call `perform_undo` the given number of times. -/
def undo_times : Nat → Editor → Editor
  | 0, ed => ed
  | n + 1, ed => undo_times n (perform_undo ed)

/-- A two-line document with the cursor on the second line and an active
selection from (0, 1) to (1, 2). -/
def sample_selected : Editor :=
  { mk_editor ["hello".toList, "world".toList] 1 2 with
    sel_active := true
    sel_start_y := 0
    sel_start_x := 1
    sel_end_y := 1
    sel_end_x := 2
    clipboard := ["x".toList, "yz".toList]
    cut_buffer := ["k".toList, "l".toList] }

/-- A state whose undo stack is full: one hundred snapshots, numbered by
their `cursor_x`. -/
def full_stack_editor : Editor :=
  { mk_editor ["abc".toList] 0 1 with
    undo_stack := (List.range 100).map
      (fun i => { lines := [[]], num_lines := 1, cursor_x := i, cursor_y := 0 }) }

/-! ## Search -/

/-- The first line of the list, front to back, in which `strstr` finds the
query: its offset in the list and the column of the match. This is the walk
`while (line) { pos = strstr(line->data, query); ... line = line->next; }`
of `search_text`. -/
def find_in_lines (query : List Char) : List Line → Option (Nat × Nat)
  | [] => none
  | l :: rest =>
    match strstr l.data query with
    | some col => some (0, col)
    | none => (find_in_lines query rest).map (fun p => (p.1 + 1, p.2))

/-- Where `search_text` finds its match, as (node, row, column): first the
current line from one column after the cursor, then the nodes after the
current one (rows counted up from `cursor_y + 1`), then the nodes from
`first_line` while the row number is below `cursor_y`. When the cursor
stands at the end of its line, `&line->data[cursor_x + 1]` points one byte
past the terminator, where C reads whatever bytes the buffer holds; the
definition reads the empty string there, so it is the C code only with the
cursor before the end of its line, which the theorems on the result of a
search assume. -/
def search_locate (ed : Editor) (query : List Char) : Option (Nat × Nat × Nat) :=
  let line := deref ed.lines ed.current_line
  match strstr (line.data.drop (ed.cursor_x + 1)) query with
  | some i => some (ed.current_line, ed.cursor_y, ed.cursor_x + 1 + i)
  | none =>
    match find_in_lines query (ed.lines.drop (ed.current_line + 1)) with
    | some (j, col) => some (ed.current_line + 1 + j, ed.cursor_y + 1 + j, col)
    | none =>
      match find_in_lines query (ed.lines.take ed.cursor_y) with
      | some (j, col) => some (j, j, col)
      | none => none

/-- The assignments every successful branch of `search_text` makes: the
cursor goes to the start of the match and the selection spans the match. -/
def search_found (ed : Editor) (node row col : Nat) (query : List Char) : Editor :=
  { ed with
    current_line := node
    cursor_y := row
    cursor_x := col
    preferred_x := col
    sel_start_y := row
    sel_start_x := col
    sel_end_y := row
    sel_end_x := col + query.length
    sel_active := true }

/-- `search_text` after its prompt: `query` is the string entered. An empty
query and a query that occurs nowhere only set the message. -/
def search_text (ed : Editor) (query : List Char) : Editor :=
  if query.length = 0 then set_message ed "Bekor qilindi" else
  let count := count_occurrences ed.lines query
  if count = 0 then set_message ed "Not found" else
  let ed1 := set_message ed ("Topildi: " ++ toString count ++ " ta")
  match search_locate ed1 query with
  | some (node, row, col) => search_found ed1 node row col query
  | none => ed1

/-- The selection of a state: active flag, start and end coordinates. -/
def selection (ed : Editor) : Bool × (Nat × Nat) × (Nat × Nat) :=
  (ed.sel_active, (ed.sel_start_y, ed.sel_start_x), (ed.sel_end_y, ed.sel_end_x))

/-- The query occurs in the string at the given column. -/
def OccursAt (s query : List Char) (col : Nat) : Prop :=
  (s.drop col).take query.length = query ∧ col + query.length ≤ s.length

instance (s query : List Char) (col : Nat) : Decidable (OccursAt s query col) := by
  unfold OccursAt
  infer_instance

/-- Column `col` is the first column at or after `lo` where the query occurs
in the string. -/
def FirstOccFrom (s query : List Char) (lo col : Nat) : Prop :=
  lo ≤ col ∧ OccursAt s query col ∧ ∀ c, lo ≤ c → c < col → ¬ OccursAt s query c

/-- The query occurs nowhere in the string at or after column `lo`. -/
def NoOccFrom (s query : List Char) (lo : Nat) : Prop :=
  ∀ c, lo ≤ c → ¬ OccursAt s query c

/-! ## The syntax balance checker -/

/-- The double quote character. -/
def ch_quote : Char := Char.ofNat 34

/-- The backslash character. -/
def ch_backslash : Char := Char.ofNat 92

/-- The opening brace. -/
def ch_lbrace : Char := Char.ofNat 123

/-- The closing brace. -/
def ch_rbrace : Char := Char.ofNat 125

/-- The opening square bracket. -/
def ch_lbracket : Char := Char.ofNat 91

/-- The closing square bracket. -/
def ch_rbracket : Char := Char.ofNat 93

/-- The slash. -/
def ch_slash : Char := Char.ofNat 47

/-- The asterisk. -/
def ch_star : Char := Char.ofNat 42

/-- The tab character. -/
def ch_tab : Char := Char.ofNat 9

/-- The space character. -/
def ch_space : Char := Char.ofNat 32

/-- The less-than sign. -/
def ch_lt : Char := Char.ofNat 60

/-- The exclamation mark. -/
def ch_bang : Char := Char.ofNat 33

/-- The question mark. -/
def ch_question : Char := Char.ofNat 63

/-- The dot. -/
def ch_dot : Char := Char.ofNat 46

/-- The characters `data[0]` to `data[len - 1]` that the loops
`for (i = 0; i < line->len; i++)` of the checker visit. -/
def line_chars (l : Line) : List Char :=
  l.data.take l.len

/-- The C library `strrchr`: the tail of the string from the last occurrence
of the character on, `none` for `NULL`. -/
def strrchr : List Char → Char → Option (List Char)
  | [], _ => none
  | x :: rest, c =>
    match strrchr rest c with
    | some t => some t
    | none => if x = c then some (x :: rest) else none

/-- The cleared diagnostic: line 0 means that there is none. -/
def no_error : SyntaxError :=
  { line := 0, col_start := 0, col_end := 0, msg := "" }

/-- The counters of the JSON scan. -/
structure JsonState where
  brace_count : Int
  bracket_count : Int
  in_string : Bool
deriving DecidableEq

/-- One round of the inner loop of the JSON scan, on character `c` at column
`i` with `prev` the character before it on the same line. -/
def json_char (line_num i : Nat) (prev : Option Char) (c : Char) (st : JsonState) :
    Except SyntaxError JsonState :=
  let in_string :=
    if c = ch_quote ∧ (i = 0 ∨ prev ≠ some ch_backslash) then !st.in_string else st.in_string
  if in_string = true then Except.ok { st with in_string := in_string }
  else
    let brace := if c = ch_lbrace then st.brace_count + 1 else st.brace_count
    let brace1 := if c = ch_rbrace then brace - 1 else brace
    if c = ch_rbrace ∧ brace1 < 0 then
      Except.error
        { line := line_num, col_start := i, col_end := i + 1
          msg := "Extra \x27\x7d\x27 - no opening brace" }
    else
      let bracket := if c = ch_lbracket then st.bracket_count + 1 else st.bracket_count
      let bracket1 := if c = ch_rbracket then bracket - 1 else bracket
      if c = ch_rbracket ∧ bracket1 < 0 then
        Except.error
          { line := line_num, col_start := i, col_end := i + 1
            msg := "Extra \x27]\x27 - no opening bracket" }
      else
        Except.ok { brace_count := brace1, bracket_count := bracket1, in_string := in_string }

/-- The inner loop of the JSON scan over the rest of a line, from column
`i`. -/
def json_chars (line_num : Nat) : Nat → Option Char → List Char → JsonState →
    Except SyntaxError JsonState
  | _, _, [], st => Except.ok st
  | i, prev, c :: rest, st =>
    match json_char line_num i prev c st with
    | Except.error d => Except.error d
    | Except.ok st1 => json_chars line_num (i + 1) (some c) rest st1

/-- The outer loop of the JSON scan; the result carries the final
`line_num`. -/
def json_lines : Nat → List Line → JsonState → Except SyntaxError (Nat × JsonState)
  | line_num, [], st => Except.ok (line_num, st)
  | line_num, l :: rest, st =>
    match json_chars line_num 0 none (line_chars l) st with
    | Except.error d => Except.error d
    | Except.ok st1 => json_lines (line_num + 1) rest st1

/-- The JSON block of `check_syntax_error`. -/
def check_json (ls : List Line) : SyntaxError :=
  match json_lines 1 ls { brace_count := 0, bracket_count := 0, in_string := false } with
  | Except.error d => d
  | Except.ok (line_num, st) =>
    if st.brace_count ≠ 0 then
      { line := line_num - 1, col_start := 0, col_end := 0
        msg := "Unclosed \x27\x7b\x27 - " ++ toString st.brace_count ++ " open brace(s)" }
    else if st.bracket_count ≠ 0 then
      { line := line_num - 1, col_start := 0, col_end := 0
        msg := "Unclosed \x27[\x27 - " ++ toString st.bracket_count ++ " open bracket(s)" }
    else no_error

/-- The first loop of the YAML block on one line: the column of the first
tab. -/
def yaml_tab : Nat → List Char → Option Nat
  | _, [] => none
  | i, c :: rest => if c = ch_tab then some i else yaml_tab (i + 1) rest

/-- The second loop of the YAML block on one line, with the two per-line
counters: the column where a counter goes negative, or the final
counters. -/
def yaml_balance : Nat → List Char → Int → Int → Except Nat (Int × Int)
  | _, [], brace, bracket => Except.ok (brace, bracket)
  | i, c :: rest, brace, bracket =>
    let brace1 := if c = ch_lbrace then brace + 1 else brace
    let brace2 := if c = ch_rbrace then brace1 - 1 else brace1
    let bracket1 := if c = ch_lbracket then bracket + 1 else bracket
    let bracket2 := if c = ch_rbracket then bracket1 - 1 else bracket1
    if brace2 < 0 ∨ bracket2 < 0 then Except.error i
    else yaml_balance (i + 1) rest brace2 bracket2

/-- The YAML block of `check_syntax_error`, from line number `line_num`. -/
def check_yaml : Nat → List Line → SyntaxError
  | _, [] => no_error
  | line_num, l :: rest =>
    match yaml_tab 0 (line_chars l) with
    | some i =>
      { line := line_num, col_start := i, col_end := i + 1
        msg := "YAML: TAB not allowed - use spaces" }
    | none =>
      match yaml_balance 0 (line_chars l) 0 0 with
      | Except.error i =>
        { line := line_num, col_start := i, col_end := i + 1, msg := "Bracket balance broken" }
      | Except.ok (brace, bracket) =>
        if brace ≠ 0 ∨ bracket ≠ 0 then
          { line := line_num, col_start := 0, col_end := l.len, msg := "Bracket not closed" }
        else check_yaml (line_num + 1) rest

/-- The indentation loop of the Python block on one line: the columns of the
first tab and of the first space in the leading run of spaces and tabs
(`none` for the initial -1). -/
def python_indent : Nat → List Char → Option Nat → Option Nat → Option Nat × Option Nat
  | _, [], first_tab, first_space => (first_tab, first_space)
  | i, c :: rest, first_tab, first_space =>
    if c = ch_space ∨ c = ch_tab then
      let first_tab1 := if c = ch_tab ∧ first_tab = none then some i else first_tab
      let first_space1 := if c = ch_space ∧ first_space = none then some i else first_space
      python_indent (i + 1) rest first_tab1 first_space1
    else (first_tab, first_space)

/-- The Python block of `check_syntax_error`, from line number `line_num`. -/
def check_python : Nat → List Line → SyntaxError
  | _, [] => no_error
  | line_num, l :: rest =>
    match python_indent 0 (line_chars l) none none with
    | (some first_tab, some first_space) =>
      let error_pos := if first_tab > first_space then first_tab else first_space
      { line := line_num, col_start := error_pos, col_end := error_pos + 1
        msg := "Mixed TAB and spaces - use one" }
    | _ => check_python (line_num + 1) rest

/-- The inner loop of the HTML/XML block over the rest of a line: the column
of a closing tag met at depth 0, or the depth at the end of the line. -/
def html_chars : Nat → List Char → Int → Except Nat Int
  | _, [], depth => Except.ok depth
  | i, c :: rest, depth =>
    match rest with
    | [] => Except.ok depth
    | next :: _ =>
      if c = ch_lt then
        if next ≠ ch_slash ∧ next ≠ ch_bang ∧ next ≠ ch_question then
          html_chars (i + 1) rest (depth + 1)
        else if next = ch_slash then
          if depth - 1 < 0 then Except.error i else html_chars (i + 1) rest (depth - 1)
        else html_chars (i + 1) rest depth
      else html_chars (i + 1) rest depth

/-- The outer loop of the HTML/XML block. -/
def html_lines : Nat → List Line → Int → Except SyntaxError (Nat × Int)
  | line_num, [], depth => Except.ok (line_num, depth)
  | line_num, l :: rest, depth =>
    match html_chars 0 (line_chars l) depth with
    | Except.error i =>
      Except.error
        { line := line_num, col_start := i, col_end := i + 2
          msg := "Extra closing tag - no opening tag" }
    | Except.ok depth1 => html_lines (line_num + 1) rest depth1

/-- The HTML/XML block of `check_syntax_error`. -/
def check_html (ls : List Line) : SyntaxError :=
  match html_lines 1 ls 0 with
  | Except.error d => d
  | Except.ok (line_num, depth) =>
    if depth ≠ 0 then
      { line := line_num - 1, col_start := 0, col_end := 0
        msg := "Unclosed tag - " ++ toString depth ++ " open tag(s)" }
    else no_error

/-- The counters of the Java/C/C++/Go scan. -/
structure BraceState where
  brace_count : Int
  in_string : Bool
  in_comment : Bool
deriving DecidableEq

/-- What one round of the inner loop of the Java/C/C++/Go scan does: report
a diagnostic, leave the line (`break` at a line comment), or go on. -/
inductive BraceStep where
  | report (d : SyntaxError)
  | leave (st : BraceState)
  | next (st : BraceState)

/-- One round of the inner loop of the Java/C/C++/Go scan, on character `c`
at column `i`; `prev` is the character before it and `ahead` the character
after it on the same line (`none` when `i + 1 < line->len` fails). -/
def brace_char (line_num i : Nat) (prev : Option Char) (c : Char) (ahead : Option Char)
    (st : BraceState) : BraceStep :=
  let in_string :=
    if c = ch_quote ∧ (i = 0 ∨ prev ≠ some ch_backslash) then !st.in_string else st.in_string
  if in_string = true then BraceStep.next { st with in_string := in_string }
  else if c = ch_slash ∧ ahead = some ch_slash then
    BraceStep.leave { st with in_string := in_string }
  else
    let in_comment1 := if c = ch_slash ∧ ahead = some ch_star then true else st.in_comment
    let in_comment2 := if c = ch_star ∧ ahead = some ch_slash then false else in_comment1
    if in_comment2 = true then
      BraceStep.next { st with in_string := in_string, in_comment := in_comment2 }
    else
      let brace := if c = ch_lbrace then st.brace_count + 1 else st.brace_count
      let brace1 := if c = ch_rbrace then brace - 1 else brace
      if c = ch_rbrace ∧ brace1 < 0 then
        BraceStep.report
          { line := line_num, col_start := i, col_end := i + 1
            msg := "Ortiqcha \x27\x7d\x27 - ochilmagan jingalak qavs" }
      else
        BraceStep.next { brace_count := brace1, in_string := in_string, in_comment := in_comment2 }

/-- The inner loop of the Java/C/C++/Go scan over the rest of a line, from
column `i`. -/
def brace_chars (line_num : Nat) : Nat → Option Char → List Char → BraceState →
    Except SyntaxError BraceState
  | _, _, [], st => Except.ok st
  | i, prev, c :: rest, st =>
    match brace_char line_num i prev c rest.head? st with
    | BraceStep.report d => Except.error d
    | BraceStep.leave st1 => Except.ok st1
    | BraceStep.next st1 => brace_chars line_num (i + 1) (some c) rest st1

/-- The outer loop of the Java/C/C++/Go scan. -/
def brace_lines : Nat → List Line → BraceState → Except SyntaxError (Nat × BraceState)
  | line_num, [], st => Except.ok (line_num, st)
  | line_num, l :: rest, st =>
    match brace_chars line_num 0 none (line_chars l) st with
    | Except.error d => Except.error d
    | Except.ok st1 => brace_lines (line_num + 1) rest st1

/-- The Java/C/C++/Go block of `check_syntax_error`. -/
def check_braces (ls : List Line) : SyntaxError :=
  match brace_lines 1 ls { brace_count := 0, in_string := false, in_comment := false } with
  | Except.error d => d
  | Except.ok (line_num, st) =>
    if st.brace_count ≠ 0 then
      { line := line_num - 1, col_start := 0, col_end := 0
        msg := "Unclosed \x27\x7b\x27 - " ++ toString st.brace_count ++ " open brace(s)" }
    else no_error

/-- The extensions of the Java/C/C++/Go block. -/
def brace_extensions : List (List Char) :=
  [".java".toList, ".c".toList, ".cpp".toList, ".go".toList, ".h".toList, ".hpp".toList]

/-- The diagnostic `check_syntax_error` computes: none without a file name
or without a dot in it, otherwise the result of the block selected by
`strcmp` on the extension (at most one block matches). -/
def syntax_diagnostic (ed : Editor) : SyntaxError :=
  match ed.filename with
  | none => no_error
  | some name =>
    match strrchr name ch_dot with
    | none => no_error
    | some ext =>
      if ext = ".json".toList then check_json ed.lines
      else if ext = ".yml".toList ∨ ext = ".yaml".toList then check_yaml 1 ed.lines
      else if ext = ".py".toList then check_python 1 ed.lines
      else if ext = ".html".toList ∨ ext = ".xml".toList ∨ ext = ".htm".toList then
        check_html ed.lines
      else if ext ∈ brace_extensions then check_braces ed.lines
      else no_error

/-- `check_syntax_error`. -/
def check_syntax_error (ed : Editor) : Editor :=
  { ed with syntax_error := syntax_diagnostic ed }

/-- A state holding the given lines under the given file name, cursor at
(0, 0). -/
def mk_file (name : String) (ts : List String) : Editor :=
  { mk_editor (ts.map String.toList) 0 0 with filename := some name.toList }

/-- The replace-all of the specification on one string, written from its
words: scan left to right, replace each occurrence of the query met and
resume immediately after the inserted replacement, so that replaced text is
never matched again; the result is the new string and the number of
occurrences replaced. `fuel` bounds the number of scan steps. -/
def spec_replace_scan (query replacement : List Char) : Nat → List Char → List Char × Nat
  | 0, s => (s, 0)
  | _ + 1, [] => ([], 0)
  | fuel + 1, c :: rest =>
    if query.isPrefixOf (c :: rest) then
      let res := spec_replace_scan query replacement fuel ((c :: rest).drop query.length)
      (replacement ++ res.1, res.2 + 1)
    else
      let res := spec_replace_scan query replacement fuel rest
      (c :: res.1, res.2)

/-- The replace-all of the specification on one string; a string of length
`n` needs at most `n` scan steps when the query is not empty. -/
def spec_replace_all (query replacement s : List Char) : List Char × Nat :=
  spec_replace_scan query replacement (s.length + 1) s

/-! ## Specification of the balance diagnostics -/

/-- The depth counter of one kind of bracket after a text: openers minus
closers. -/
def depth (o c : Char) (s : List Char) : Int :=
  (s.count o : Int) - (s.count c : Int)

/-- The text that precedes column `col` of row `r` in a document: all
earlier rows, then the first `col` characters of row `r`. -/
def text_before (ts : List (List Char)) (r col : Nat) : List Char :=
  (ts.take r).flatten ++ (ts.getD r []).take col

/-- The character `x`, met after the text `P`, is a closer whose own depth
counter is 0: a closing brace with brace depth 0, or, for JSON, a closing
square bracket with bracket depth 0. -/
def IsExtra (json : Bool) (P : List Char) (x : Option Char) : Prop :=
  (x = some ch_rbrace ∧ depth ch_lbrace ch_rbrace P = 0) ∨
  (json = true ∧ x = some ch_rbracket ∧ depth ch_lbracket ch_rbracket P = 0)

instance (json : Bool) (P : List Char) (x : Option Char) : Decidable (IsExtra json P x) := by
  unfold IsExtra
  infer_instance

/-- A closer occurs at row `r`, column `col` while its own depth counter
is 0. -/
def ExtraCloser (json : Bool) (ts : List (List Char)) (r col : Nat) : Prop :=
  IsExtra json (text_before ts r col) ((ts.getD r [])[col]?)

instance (json : Bool) (ts : List (List Char)) (r col : Nat) :
    Decidable (ExtraCloser json ts r col) := by
  unfold ExtraCloser
  infer_instance

/-- Position `(r1, c1)` comes before `(r, c)` in reading order. -/
def Earlier (r1 c1 r c : Nat) : Prop :=
  r1 < r ∨ (r1 = r ∧ c1 < c)

/-- Position `(r, col)` holds the first closer, in reading order, that
occurs while its own depth counter is 0. -/
def FirstExtraCloser (json : Bool) (ts : List (List Char)) (r col : Nat) : Prop :=
  ExtraCloser json ts r col ∧
  ∀ r1 c1, Earlier r1 c1 r col → ¬ ExtraCloser json ts r1 c1

/-- What the claim says about the diagnostic `d` of a brace-language file
with the line texts `ts` (`json` tells whether square brackets are tracked
too): at the first closer met at depth 0 if there is one; otherwise on the
last line with the number of unclosed openers when a counter is not 0 at
the end of the file (braces first); otherwise none. -/
def BalanceSpec (json : Bool) (ts : List (List Char)) (d : SyntaxError) : Prop :=
  (∀ r col, FirstExtraCloser json ts r col →
    d.line = r + 1 ∧ d.col_start = col ∧ d.col_end = col + 1) ∧
  ((∀ r col, ¬ ExtraCloser json ts r col) →
    (depth ch_lbrace ch_rbrace ts.flatten ≠ 0 →
      d = { line := ts.length, col_start := 0, col_end := 0
            msg := "Unclosed \x27\x7b\x27 - " ++
              toString (depth ch_lbrace ch_rbrace ts.flatten) ++ " open brace(s)" }) ∧
    (json = true → depth ch_lbrace ch_rbrace ts.flatten = 0 →
      depth ch_lbracket ch_rbracket ts.flatten ≠ 0 →
      d = { line := ts.length, col_start := 0, col_end := 0
            msg := "Unclosed \x27[\x27 - " ++
              toString (depth ch_lbracket ch_rbracket ts.flatten) ++ " open bracket(s)" }) ∧
    (depth ch_lbrace ch_rbrace ts.flatten = 0 →
      (json = true → depth ch_lbracket ch_rbracket ts.flatten = 0) →
      d = no_error))

/-- No line of the document contains a double quote. -/
def NoQuotes (ts : List (List Char)) : Prop :=
  ∀ t ∈ ts, ch_quote ∉ t

instance (ts : List (List Char)) : Decidable (NoQuotes ts) := by
  unfold NoQuotes
  infer_instance

/-- The string contains none of the comment markers: no slash followed by
a slash or an asterisk, no asterisk followed by a slash. -/
def no_markers : List Char → Bool
  | [] => true
  | c :: rest =>
    !(decide (c = ch_slash ∧ rest.head? = some ch_slash)) &&
    !(decide (c = ch_slash ∧ rest.head? = some ch_star)) &&
    !(decide (c = ch_star ∧ rest.head? = some ch_slash)) &&
    no_markers rest

/-- No line of the document contains a comment marker. -/
def NoCommentMarkers (ts : List (List Char)) : Prop :=
  ∀ t ∈ ts, no_markers t = true

instance (ts : List (List Char)) : Decidable (NoCommentMarkers ts) := by
  unfold NoCommentMarkers
  infer_instance

/-- For each character of a JSON line, whether it belongs to a double-quoted
string, written from the claim's words: a string runs from a quote to the
next quote that is not escaped, and inside a string a backslash escapes the
character after it, so that an escaped quote does not end the string and an
escaped backslash does not escape the quote after it. The two arguments are
the state before the first character: inside a string, and after an
unconsumed backslash. The delimiting quotes count as part of the string. -/
def spec_in_string : Bool → Bool → List Char → List Bool
  | _, _, [] => []
  | false, _, c :: rest =>
    if c = ch_quote then true :: spec_in_string true false rest
    else false :: spec_in_string false false rest
  | true, true, _ :: rest => true :: spec_in_string true false rest
  | true, false, c :: rest =>
    if c = ch_backslash then true :: spec_in_string true true rest
    else if c = ch_quote then true :: spec_in_string false false rest
    else true :: spec_in_string true false rest

/-- The characters of a JSON line that lie outside every string, by the
claim's reading of strings. -/
def spec_outside_strings (s : List Char) : List Char :=
  ((s.zip (spec_in_string false false s)).filter (fun p => !p.2)).map (fun p => p.1)

/-! ## Cursor movement and scrolling -/

/-- The loop `while (ed->cursor_y - ed->offset_y >= ed->edit_height)
ed->offset_y++`, run for at most `fuel` rounds; the result is the final
`offset_y`. -/
def scroll_loop : Nat → Nat → Nat → Nat → Nat
  | 0, _, _, offset_y => offset_y
  | fuel + 1, cursor_y, edit_height, offset_y =>
    if offset_y + edit_height ≤ cursor_y then
      scroll_loop fuel cursor_y edit_height (offset_y + 1)
    else offset_y

/-- The scroll adjustment `if (cursor_y < offset_y) offset_y = cursor_y`. -/
def scroll_up (ed : Editor) : Editor :=
  if ed.cursor_y < ed.offset_y then { ed with offset_y := ed.cursor_y } else ed

/-- The scroll adjustment `while (cursor_y - offset_y >= edit_height)
offset_y++`. The loop makes at most `cursor_y + 1` rounds, since every round
needs `offset_y <= cursor_y`. -/
def scroll_down (ed : Editor) : Editor :=
  { ed with offset_y := scroll_loop (ed.cursor_y + 1) ed.cursor_y ed.edit_height ed.offset_y }

/-- The assignments `cursor_x = preferred_x; if (cursor_x >
current_line->len) cursor_x = current_line->len`. -/
def clamp_cursor_x (ed : Editor) : Editor :=
  let len := (deref ed.lines ed.current_line).len
  { ed with cursor_x := if ed.preferred_x > len then len else ed.preferred_x }

/-- The first statement of `move_cursor`: the vertical step. -/
def move_vertical (ed : Editor) (dy : Int) : Editor :=
  if dy < 0 ∧ ed.cursor_y > 0 then
    clamp_cursor_x { ed with current_line := ed.current_line - 1, cursor_y := ed.cursor_y - 1 }
  else if dy > 0 ∧ ed.current_line + 1 < ed.lines.length then
    clamp_cursor_x { ed with current_line := ed.current_line + 1, cursor_y := ed.cursor_y + 1 }
  else ed

/-- The second statement of `move_cursor`: the step to the left. -/
def move_left (ed : Editor) (dx : Int) : Editor :=
  if dx < 0 ∧ ed.cursor_x > 0 then
    { ed with cursor_x := ed.cursor_x - 1, preferred_x := ed.cursor_x - 1 }
  else if dx < 0 ∧ ed.cursor_y > 0 then
    let k := ed.current_line - 1
    { ed with
      current_line := k
      cursor_y := ed.cursor_y - 1
      cursor_x := (deref ed.lines k).len
      preferred_x := (deref ed.lines k).len }
  else ed

/-- The third statement of `move_cursor`: the step to the right. -/
def move_right (ed : Editor) (dx : Int) : Editor :=
  if dx > 0 ∧ ed.cursor_x < (deref ed.lines ed.current_line).len then
    { ed with cursor_x := ed.cursor_x + 1, preferred_x := ed.cursor_x + 1 }
  else if dx > 0 ∧ ed.current_line + 1 < ed.lines.length then
    { ed with
      current_line := ed.current_line + 1
      cursor_y := ed.cursor_y + 1
      cursor_x := 0
      preferred_x := 0 }
  else ed

/-- `move_cursor`. -/
def move_cursor (ed : Editor) (dy dx : Int) : Editor :=
  let ed1 := move_vertical ed dy
  let ed2 := move_left ed1 dx
  let ed3 := move_right ed2 dx
  { scroll_down (scroll_up ed3) with sel_active := false }

/-- The loop of `page_up`: `n` rounds are left. -/
def page_up_loop : Nat → Editor → Editor
  | 0, ed => ed
  | n + 1, ed =>
    if ed.cursor_y > 0 then
      page_up_loop n
        (if ed.current_line > 0 then
          { ed with current_line := ed.current_line - 1, cursor_y := ed.cursor_y - 1 }
        else ed)
    else ed

/-- `page_up`. -/
def page_up (ed : Editor) : Editor :=
  { clamp_cursor_x (scroll_up (page_up_loop ed.edit_height ed)) with sel_active := false }

/-- The loop of `page_down`: `n` rounds are left. -/
def page_down_loop : Nat → Editor → Editor
  | 0, ed => ed
  | n + 1, ed =>
    if ed.current_line + 1 < ed.lines.length then
      page_down_loop n
        { ed with current_line := ed.current_line + 1, cursor_y := ed.cursor_y + 1 }
    else ed

/-- `page_down`. -/
def page_down (ed : Editor) : Editor :=
  { clamp_cursor_x (scroll_down (page_down_loop ed.edit_height ed)) with sel_active := false }

/-- The cursor's line lies in the scroll window. -/
def InWindow (ed : Editor) : Prop :=
  ed.offset_y ≤ ed.cursor_y ∧ ed.cursor_y < ed.offset_y + ed.edit_height

instance (ed : Editor) : Decidable (InWindow ed) := by
  unfold InWindow
  infer_instance

/-- Press Enter the given number of times. -/
def newlines : Nat → Editor → Editor
  | 0, ed => ed
  | n + 1, ed => newlines n (insert_newline ed)

/-! ## Screen layout -/

/-- The number of screen rows a line of recorded length `len` takes:
`wraps = (line_len + edit_width - 1) / edit_width; if (wraps < 1)
wraps = 1`. -/
def wrap_rows (len edit_width : Nat) : Nat :=
  let wraps := (len + edit_width - 1) / edit_width
  if wraps < 1 then 1 else wraps

/-- The loop `for (i = offset_y; i < cursor_y && cline; i++)` at the end of
`draw_screen`, with `n` rounds left: the screen rows taken by the lines
above the cursor's line. -/
def rows_above (edit_width : Nat) : Nat → List Line → Nat
  | 0, _ => 0
  | _ + 1, [] => 0
  | n + 1, l :: rest => wrap_rows l.len edit_width + rows_above edit_width n rest

/-- The screen cell at which `draw_screen` places the cursor, as (row,
column): the arguments of its final `move` call, `none` when the call is
skipped. -/
def cursor_screen (ed : Editor) : Option (Nat × Nat) :=
  let cursor_screen_y :=
    rows_above ed.edit_width (ed.cursor_y - ed.offset_y) (ed.lines.drop ed.offset_y) +
      ed.cursor_x / ed.edit_width
  if cursor_screen_y < ed.edit_height then
    some (cursor_screen_y, LINE_NUMBER_WIDTH + ed.cursor_x % ed.edit_width)
  else none

/-- What `draw_screen` changes in the state: it runs `check_syntax_error`
and counts the message timeout down. -/
def draw_screen (ed : Editor) : Editor :=
  let ed1 := check_syntax_error ed
  if ed1.message_timeout > 0 then { ed1 with message_timeout := ed1.message_timeout - 1 }
  else ed1

/-! ## The mouse state machine -/

/-- The event `getmouse` delivers: the screen cell and the bits of `bstate`
that `handle_mouse` tests. -/
structure MEVENT where
  x : Nat
  y : Nat
  button1_pressed : Bool
  button1_released : Bool
  button3_pressed : Bool
  report_mouse_position : Bool
deriving DecidableEq

/-- The buffer row `handle_mouse` resolves a screen row to:
`line_num = offset_y + event.y`, clamped to the last line. -/
def mouse_line (ed : Editor) (event : MEVENT) : Nat :=
  let line_num := ed.offset_y + event.y
  if line_num ≥ ed.total_lines then ed.total_lines - 1 else line_num

/-- The buffer column `handle_mouse` resolves a screen column to:
`col = event.x - LINE_NUMBER_WIDTH`, clamped to the length of the target
line. -/
def mouse_col (event : MEVENT) (target : Line) : Nat :=
  let col := event.x - LINE_NUMBER_WIDTH
  if col > target.len then target.len else col

/-- The branch of `handle_mouse` for a press on the status bar: jump to the
line of the syntax diagnostic. -/
def status_click (ed : Editor) : Editor :=
  if ed.syntax_error.line > 0 then
    let target_line := ed.syntax_error.line - 1
    if target_line < ed.total_lines then
      let x := ed.syntax_error.col_start
      let x1 :=
        if target_line < ed.lines.length ∧ x > (deref ed.lines target_line).len then
          (deref ed.lines target_line).len
        else x
      let ed1 : Editor :=
        { ed with
          cursor_y := target_line
          current_line := target_line
          cursor_x := x1
          preferred_x := x1 }
      let ed2 : Editor :=
        if ed1.cursor_y < ed1.offset_y then { ed1 with offset_y := ed1.cursor_y }
        else if ed1.cursor_y ≥ ed1.offset_y + ed1.edit_height then
          { ed1 with offset_y := ed1.cursor_y - ed1.edit_height + 1 }
        else ed1
      set_message ed2 "Jumped to error line"
    else ed
  else ed

/-- The body of `handle_mouse` for an event that `getmouse` delivered. -/
def handle_mouse (ed : Editor) (event : MEVENT) : Editor :=
  if event.y + 2 = ed.screen_height ∧ event.button1_pressed = true then status_click ed
  else if event.y < ed.edit_height ∧ event.x ≥ LINE_NUMBER_WIDTH then
    let line_num := mouse_line ed event
    if event.button3_pressed = true then
      match get_line_at ed line_num with
      | none => ed
      | some target =>
        let col := mouse_col event target
        paste_clipboard
          { ed with
            current_line := line_num
            cursor_y := line_num
            cursor_x := col
            preferred_x := col }
    else if event.button1_pressed = true then
      match get_line_at ed line_num with
      | none => ed
      | some target =>
        let col := mouse_col event target
        { ed with
          current_line := line_num
          cursor_y := line_num
          cursor_x := col
          preferred_x := col
          mouse_pressed := true
          sel_start_y := line_num
          sel_start_x := col
          sel_end_y := line_num
          sel_end_x := col
          sel_active := false }
    else if event.button1_released = true then
      if ed.mouse_pressed = true then
        let ed1 : Editor :=
          match get_line_at ed line_num with
          | none => ed
          | some target =>
            let col := mouse_col event target
            let ed2 : Editor := { ed with sel_end_y := line_num, sel_end_x := col }
            if ed2.sel_start_y ≠ ed2.sel_end_y ∨ ed2.sel_start_x ≠ ed2.sel_end_x then
              set_message (copy_selection { ed2 with sel_active := true })
                "Copied (mouse selection)"
            else { ed2 with sel_active := false }
        { ed1 with mouse_pressed := false }
      else { ed with sel_active := false }
    else if event.report_mouse_position = true ∧ ed.mouse_pressed = true then
      match get_line_at ed line_num with
      | none => ed
      | some target =>
        let col := mouse_col event target
        draw_screen { ed with sel_end_y := line_num, sel_end_x := col, sel_active := true }
    else ed
  else ed

/-- A primary-button press at screen cell (`y`, `x`). -/
def press_at (y x : Nat) : MEVENT :=
  { x := x, y := y, button1_pressed := true, button1_released := false
    button3_pressed := false, report_mouse_position := false }

/-- A primary-button release at screen cell (`y`, `x`). -/
def release_at (y x : Nat) : MEVENT :=
  { x := x, y := y, button1_pressed := false, button1_released := true
    button3_pressed := false, report_mouse_position := false }

/-- A motion report at screen cell (`y`, `x`). -/
def drag_at (y x : Nat) : MEVENT :=
  { x := x, y := y, button1_pressed := false, button1_released := false
    button3_pressed := false, report_mouse_position := true }

/-- Deliver a sequence of mouse events, first to last. -/
def handle_mouse_events (ed : Editor) : List MEVENT → Editor
  | [] => ed
  | event :: rest => handle_mouse_events (handle_mouse ed event) rest

/-- The screen cell lies in the text area. -/
def InTextArea (ed : Editor) (y x : Nat) : Prop :=
  y < ed.edit_height ∧ LINE_NUMBER_WIDTH ≤ x

instance (ed : Editor) (y x : Nat) : Decidable (InTextArea ed y x) := by
  unfold InTextArea
  infer_instance

/-- The empty document in a viewport two rows high. -/
def small_view : Editor :=
  { mk_editor [[]] 0 0 with screen_height := 4, edit_height := 2 }

/-- A six-line document in a viewport two rows high after Enter at (0, 0),
five moves down and one undo: the undo puts the cursor back on row 0 and
leaves the scroll offset where the moves brought it. -/
def scrolled_then_undone : Editor :=
  perform_undo (move_cursor (move_cursor (move_cursor (move_cursor (move_cursor
    (insert_newline
      { mk_editor [[], [], [], [], [], []] 0 0 with screen_height := 4, edit_height := 2 })
    1 0) 1 0) 1 0) 1 0) 1 0)

/-- The buffer row shown on screen row `y` of the text area: `offset_y + y`,
clamped to the last line. -/
def cell_row (ed : Editor) (y : Nat) : Nat :=
  min (ed.offset_y + y) (ed.lines.length - 1)

/-- The buffer column under screen column `x` on screen row `y`: the column
past the line-number gutter, clamped to the length of the line. -/
def cell_col (ed : Editor) (y x : Nat) : Nat :=
  min (x - LINE_NUMBER_WIDTH) (deref ed.lines (cell_row ed y)).len

/-- The text between two buffer coordinates given in reading order, one
fragment per row: on a single row the characters from column `lox` up to
column `hix`; otherwise the tail of the first row, the rows in between, and
the head of the last row. -/
def span_text (ts : List (List Char)) (loy lox hiy hix : Nat) : List (List Char) :=
  if loy = hiy then [((ts.getD loy []).drop lox).take (hix - lox)]
  else
    [(ts.getD loy []).drop lox] ++ (ts.drop (loy + 1)).take (hiy - loy - 1) ++
      [(ts.getD hiy []).take hix]

/-- The text between two buffer coordinates given in either order. -/
def span_between (ts : List (List Char)) (y1 x1 y2 x2 : Nat) : List (List Char) :=
  if y1 < y2 ∨ (y1 = y2 ∧ x1 ≤ x2) then span_text ts y1 x1 y2 x2
  else span_text ts y2 x2 y1 x1

/-- The event is a motion report and nothing else. -/
def IsDrag (event : MEVENT) : Prop :=
  event.button1_pressed = false ∧ event.button1_released = false ∧
  event.button3_pressed = false ∧ event.report_mouse_position = true

instance (event : MEVENT) : Decidable (IsDrag event) := by
  unfold IsDrag
  infer_instance

/-- The part of the state that a motion report leaves alone. -/
def MouseFrame (a b : Editor) : Prop :=
  a.lines = b.lines ∧ a.total_lines = b.total_lines ∧ a.current_line = b.current_line ∧
  a.cursor_y = b.cursor_y ∧ a.cursor_x = b.cursor_x ∧ a.sel_start_y = b.sel_start_y ∧
  a.sel_start_x = b.sel_start_x ∧ a.mouse_pressed = b.mouse_pressed ∧
  a.offset_y = b.offset_y ∧ a.edit_height = b.edit_height ∧
  a.screen_height = b.screen_height

/-- A three-line document whose first line is longer than the viewport is
wide: width 10, first line of 15 characters, cursor at (`y`, `x`). -/
def wrapped_view (y x : Nat) : Editor :=
  { mk_editor ["0123456789abcde".toList, "xy".toList, "z".toList] y x with
    screen_width := 16, edit_width := 10 }

/-- The buffer coordinate a primary press at a screen cell resolves to: the
cursor after `handle_mouse` has processed the press. -/
def press_resolves (ed : Editor) (y x : Nat) : Nat × Nat :=
  ((handle_mouse ed (press_at y x)).cursor_y, (handle_mouse ed (press_at y x)).cursor_x)

/-! ## Specification of the comment, YAML and tag diagnostics -/

/-- One line of a C-like file with its comments blanked out, written from
the claim's words: a line comment runs from `//` to the end of its line, a
block comment runs from `/*` to the next `*/`, possibly on a later line, and
every character of a comment, markers included, is replaced by a space. The
first argument tells whether the line starts inside a block comment, the
second whether the next character is the second character of a marker; the
result carries whether the line ends inside a block comment. -/
def spec_blank_line : Bool → Bool → List Char → List Char × Bool
  | in_block, _, [] => ([], in_block)
  | in_block, true, _ :: rest =>
    let r := spec_blank_line in_block false rest
    (ch_space :: r.1, r.2)
  | true, false, c :: rest =>
    if c = ch_star ∧ rest.head? = some ch_slash then
      let r := spec_blank_line false true rest
      (ch_space :: r.1, r.2)
    else
      let r := spec_blank_line true false rest
      (ch_space :: r.1, r.2)
  | false, false, c :: rest =>
    if c = ch_slash ∧ rest.head? = some ch_slash then
      ((c :: rest).map (fun _ => ch_space), false)
    else if c = ch_slash ∧ rest.head? = some ch_star then
      let r := spec_blank_line true true rest
      (ch_space :: r.1, r.2)
    else
      let r := spec_blank_line false false rest
      (c :: r.1, r.2)

/-- The lines of a C-like file with their comments blanked out; the
argument tells whether the first line starts inside a block comment. -/
def spec_blank_lines : Bool → List (List Char) → List (List Char)
  | _, [] => []
  | in_block, t :: rest =>
    (spec_blank_line in_block false t).1 ::
      spec_blank_lines (spec_blank_line in_block false t).2 rest

/-- Column `c` of the line holds a tab. -/
def TabAt (t : List Char) (c : Nat) : Prop :=
  t[c]? = some ch_tab

instance (t : List Char) (c : Nat) : Decidable (TabAt t c) := by
  unfold TabAt
  infer_instance

/-- The brace balance or the bracket balance of the line is negative just
after the character at column `c`. -/
def NegativeAt (t : List Char) (c : Nat) : Prop :=
  c < t.length ∧
    (depth ch_lbrace ch_rbrace (t.take (c + 1)) < 0 ∨
      depth ch_lbracket ch_rbracket (t.take (c + 1)) < 0)

instance (t : List Char) (c : Nat) : Decidable (NegativeAt t c) := by
  unfold NegativeAt
  infer_instance

/-- A violation of the kind the claim orders by position: a tab, or a
balance going negative, at row `r`, column `c`. -/
def YamlViolation (ts : List (List Char)) (r c : Nat) : Prop :=
  TabAt (ts.getD r []) c ∨ NegativeAt (ts.getD r []) c

instance (ts : List (List Char)) (r c : Nat) : Decidable (YamlViolation ts r c) := by
  unfold YamlViolation
  infer_instance

/-- The brace balance or the bracket balance of the whole line is not 0. -/
def Unbalanced (t : List Char) : Prop :=
  depth ch_lbrace ch_rbrace t ≠ 0 ∨ depth ch_lbracket ch_rbracket t ≠ 0

instance (t : List Char) : Decidable (Unbalanced t) := by
  unfold Unbalanced
  infer_instance

/-- The line has no tab, no column where a balance is negative, and both
balances are 0 at its end. -/
def YamlClean (t : List Char) : Prop :=
  ch_tab ∉ t ∧ (∀ c, c < t.length → ¬ NegativeAt t c) ∧ ¬ Unbalanced t

instance (t : List Char) : Decidable (YamlClean t) := by
  unfold YamlClean
  infer_instance

/-- What the YAML block reports, line by line: the diagnostic `d` is on the
first line that is not clean; there it is the first tab of the line if the
line has one, otherwise the first column where a balance is negative if
there is one, otherwise the whole line as unclosed; a document whose lines
are all clean has no diagnostic. -/
def YamlSpec (ls : List Line) (d : SyntaxError) : Prop :=
  (∀ r, r < ls.length →
    (∀ k, k < r → YamlClean (line_chars (deref ls k))) →
    ¬ YamlClean (line_chars (deref ls r)) →
    (∀ c, TabAt (line_chars (deref ls r)) c →
      (∀ c1, c1 < c → ¬ TabAt (line_chars (deref ls r)) c1) →
      d = { line := r + 1, col_start := c, col_end := c + 1
            msg := "YAML: TAB not allowed - use spaces" }) ∧
    (ch_tab ∉ line_chars (deref ls r) →
      ∀ c, NegativeAt (line_chars (deref ls r)) c →
        (∀ c1, c1 < c → ¬ NegativeAt (line_chars (deref ls r)) c1) →
        d = { line := r + 1, col_start := c, col_end := c + 1
              msg := "Bracket balance broken" }) ∧
    (ch_tab ∉ line_chars (deref ls r) →
      (∀ c, ¬ NegativeAt (line_chars (deref ls r)) c) →
      d = { line := r + 1, col_start := 0, col_end := (deref ls r).len
            msg := "Bracket not closed" })) ∧
  ((∀ r, r < ls.length → YamlClean (line_chars (deref ls r))) → d = no_error)

/-- The change of tag depth caused by the character `c` followed on the same
line by `next`: +1 for `<` followed by a character other than `/`, `!` and
`?`, -1 for `</`, 0 otherwise. -/
def tag_delta (c next : Char) : Int :=
  if c = ch_lt then
    if next = ch_slash then -1
    else if next = ch_bang ∨ next = ch_question then 0
    else 1
  else 0

/-- The tag depth contributed by a line: the sum of `tag_delta` over every
character that has a successor on the line. -/
def tag_depth : List Char → Int
  | [] => 0
  | c :: rest =>
    match rest with
    | [] => 0
    | next :: _ => tag_delta c next + tag_depth rest

/-- The tag depth before the character at row `r`, column `i`: the depth of
all earlier rows, and of the characters of row `r` before column `i`. -/
def tag_depth_before (ts : List (List Char)) (r i : Nat) : Int :=
  ((ts.take r).map tag_depth).sum + tag_depth ((ts.getD r []).take (i + 1))

/-- A closing tag `</` starts at column `i` of the line. -/
def ClosingTagAt (t : List Char) (i : Nat) : Prop :=
  t[i]? = some ch_lt ∧ t[i + 1]? = some ch_slash

instance (t : List Char) (i : Nat) : Decidable (ClosingTagAt t i) := by
  unfold ClosingTagAt
  infer_instance

/-- A closing tag starts at row `r`, column `i`, while the depth is 0. -/
def ExtraClosingTag (ts : List (List Char)) (r i : Nat) : Prop :=
  ClosingTagAt (ts.getD r []) i ∧ tag_depth_before ts r i = 0

instance (ts : List (List Char)) (r i : Nat) : Decidable (ExtraClosingTag ts r i) := by
  unfold ExtraClosingTag
  infer_instance

/-- Position `(r, i)` holds the first closing tag, in reading order, met at
depth 0. -/
def FirstExtraClosingTag (ts : List (List Char)) (r i : Nat) : Prop :=
  ExtraClosingTag ts r i ∧ ∀ r1 i1, Earlier r1 i1 r i → ¬ ExtraClosingTag ts r1 i1

/-- What the claim says about the diagnostic `d` of a tag-language file with
the line texts `ts`: at the first closing tag met at depth 0, with column
range `[i, i + 2)`, if there is one; otherwise on the last line with the
number of open tags when the final depth is not 0; otherwise none. -/
def TagSpec (ts : List (List Char)) (d : SyntaxError) : Prop :=
  (∀ r i, FirstExtraClosingTag ts r i →
    d.line = r + 1 ∧ d.col_start = i ∧ d.col_end = i + 2) ∧
  ((∀ r i, ¬ ExtraClosingTag ts r i) →
    ((ts.map tag_depth).sum ≠ 0 →
      d = { line := ts.length, col_start := 0, col_end := 0
            msg := "Unclosed tag - " ++ toString (ts.map tag_depth).sum ++ " open tag(s)" }) ∧
    ((ts.map tag_depth).sum = 0 → d = no_error))

/-! ## Cut buffer, bounds and capacity: auxiliary definitions -/

/-- Call `cut_line` the given number of times. -/
def cut_lines : Nat → Editor → Editor
  | 0, ed => ed
  | n + 1, ed => cut_lines n (cut_line ed)

/-- The selection is within safe bounds: when it is active, both of its
endpoints are valid coordinates of the document. -/
def SelectionOK (ed : Editor) : Prop :=
  ed.sel_active = true →
    ValidPos ed ed.sel_start_y ed.sel_start_x ∧ ValidPos ed ed.sel_end_y ed.sel_end_x

instance (ed : Editor) : Decidable (SelectionOK ed) := by
  unfold SelectionOK
  infer_instance

/-- Every line's recorded length leaves room for the terminator in its
recorded capacity. -/
def CapacityOK (ed : Editor) : Prop :=
  ∀ l ∈ ed.lines, l.len + 1 ≤ l.capacity

instance (ed : Editor) : Decidable (CapacityOK ed) := by
  unfold CapacityOK
  infer_instance

/-- A one-line document whose line holds 200 characters, cursor at
(0, 0). -/
def long_line_editor : Editor :=
  mk_editor [List.replicate 200 (Char.ofNat 97)] 0 0

/-- A two-line document in a viewport 10 columns wide whose first line
fills one screen row exactly, with the cursor at the end of that line. -/
def full_row_view : Editor :=
  { mk_editor ["0123456789".toList, "x".toList] 0 10 with
    screen_width := 16, edit_width := 10 }

/-- The character is a space or a tab. -/
def is_blank (c : Char) : Bool :=
  decide (c = Char.ofNat 32 ∨ c = Char.ofNat 9)

/-- The rows that replace a row cut at a column into `pre` and `post` once
the fragments are inserted there with a line break after each fragment but
the last: the first fragment continues `pre`, the last one is continued by
`post`. -/
def insert_fragments (pre post : List Char) : List (List Char) → List (List Char)
  | [] => [pre ++ post]
  | [f] => [pre ++ f ++ post]
  | f :: g :: rest => (pre ++ f) :: insert_fragments [] post (g :: rest)

/-- The document of a state, read around its cursor: the rows `A` above the
cursor's row, the text `pre` before and `post` after the cursor on its row,
the rows `B` below; no selection is active and `total_lines` is `n`. -/
def AtCursor (ed : Editor) (A : List (List Char)) (pre post : List Char)
    (B : List (List Char)) (n : Nat) : Prop :=
  texts ed = A ++ (pre ++ post) :: B ∧ ed.current_line = A.length ∧
  ed.cursor_y = A.length ∧ ed.cursor_x = pre.length ∧ ed.sel_active = false ∧
  ed.total_lines = n

/-- The column just after the last inserted fragment, when the fragments are
inserted after the text `pre`. -/
def last_column (pre : List Char) : List (List Char) → Nat
  | [] => pre.length
  | [f] => pre.length + f.length
  | _ :: g :: rest => last_column [] (g :: rest)

/-! ## Inputs that leave the bounds of the C objects -/

/-- The one-line document "a" after Enter, Ctrl+A and Ctrl+Z: the undo has
put the single line back, and the selection made in between is still
active. -/
def undone_select_all : Editor :=
  perform_undo (select_all (insert_newline (mk_editor ["a".toList] 0 0)))

/-- The document "x", "y" and a line of 200 characters after Ctrl+K twice
with the cursor at (0, 0): both short lines are in the cut buffer and the
cursor stands at the start of the long line. -/
def cut_twice_before_long_line : Editor :=
  cut_line (cut_line
    (mk_editor ["x".toList, "y".toList, List.replicate 200 (Char.ofNat 97)] 0 0))

/-- The document "ab" and "c" followed by 200 characters, after a press at
the screen cell of (0, 1), a drag to the cell of (1, 1) and the release
there. -/
def dragged_before_long_tail : Editor :=
  handle_mouse_events
    (mk_editor ["ab".toList, Char.ofNat 99 :: List.replicate 200 (Char.ofNat 97)] 0 0)
    [press_at 0 6, drag_at 1 6, release_at 1 6]

/-- The replacement text of 130 characters. -/
def long_replacement : List Char :=
  List.replicate 130 (Char.ofNat 98)

/-- The two-line document "a", "b" after Ctrl+A and Ctrl+K with the cursor
at (0, 0): the first line is cut and removed, nothing was pushed on the undo
stack, and the selection made by Ctrl+A is still active. -/
def cut_under_select_all : Editor :=
  cut_line (select_all (mk_editor ["a".toList, "b".toList] 0 0))

/-! ## Frame lemmas -/

@[simp] theorem save_undo_lines (ed : Editor) : (save_undo ed).lines = ed.lines := rfl

@[simp] theorem save_undo_total (ed : Editor) : (save_undo ed).total_lines = ed.total_lines := rfl

@[simp] theorem save_undo_current (ed : Editor) :
    (save_undo ed).current_line = ed.current_line := rfl

@[simp] theorem save_undo_cursor_y (ed : Editor) : (save_undo ed).cursor_y = ed.cursor_y := rfl

@[simp] theorem save_undo_cursor_x (ed : Editor) : (save_undo ed).cursor_x = ed.cursor_x := rfl

@[simp] theorem save_undo_sel_active (ed : Editor) :
    (save_undo ed).sel_active = ed.sel_active := rfl

@[simp] theorem save_undo_sel_start_y (ed : Editor) :
    (save_undo ed).sel_start_y = ed.sel_start_y := rfl

@[simp] theorem save_undo_sel_end_y (ed : Editor) :
    (save_undo ed).sel_end_y = ed.sel_end_y := rfl

@[simp] theorem save_undo_sel_start_x (ed : Editor) :
    (save_undo ed).sel_start_x = ed.sel_start_x := rfl

@[simp] theorem save_undo_sel_end_x (ed : Editor) :
    (save_undo ed).sel_end_x = ed.sel_end_x := rfl

@[simp] theorem save_undo_clipboard (ed : Editor) :
    (save_undo ed).clipboard = ed.clipboard := rfl

@[simp] theorem save_undo_cut_buffer (ed : Editor) :
    (save_undo ed).cut_buffer = ed.cut_buffer := rfl

@[simp] theorem set_message_lines (ed : Editor) (m : String) :
    (set_message ed m).lines = ed.lines := rfl

@[simp] theorem set_message_total (ed : Editor) (m : String) :
    (set_message ed m).total_lines = ed.total_lines := rfl

/-! ## Preservation of the structural invariant -/

theorem core_lines_ok (ed : Editor) (h : Core ed) : LinesOK ed :=
  ⟨h.nonempty, h.total⟩

theorem snapshot_of_ok (ed : Editor) (h : Core ed) : SnapshotOK (snapshot_of ed) := by
  have h1 := h.total
  have h2 := h.row
  simp [SnapshotOK, snapshot_of]
  omega

theorem core_save_undo (ed : Editor) (h : Core ed) : Core (save_undo ed) := by
  have hb := h.undo_bound
  refine ⟨h.nonempty, h.total, h.current, h.row, ?_, ?_⟩
  · simp only [save_undo]
    split <;> simp [MAX_UNDO] at * <;> omega
  · intro s hs
    simp only [save_undo] at hs
    rcases List.mem_append.mp hs with hs | hs
    · apply h.undo_ok
      split at hs
      · exact List.mem_of_mem_drop hs
      · exact hs
    · simp at hs
      rw [hs]
      exact snapshot_of_ok ed h

theorem core_set_message (ed : Editor) (m : String) (h : Core ed) : Core (set_message ed m) :=
  ⟨h.nonempty, h.total, h.current, h.row, h.undo_bound, h.undo_ok⟩

theorem normalize_rows (sy sx ey ex n : Nat) (hs : sy < n) (he : ey < n) :
    (normalize sy sx ey ex).1.1 ≤ (normalize sy sx ey ex).2.1 ∧
      (normalize sy sx ey ex).2.1 < n := by
  unfold normalize
  split <;> simp <;> omega

theorem core_delete_span (ed : Editor) (sy sx ey ex : Nat) (h : Core ed)
    (hle : sy ≤ ey) (hlt : ey < ed.lines.length) : Core (delete_span ed sy sx ey ex) := by
  have h1 := h.total
  have h4 := h.nonempty
  unfold delete_span
  dsimp only
  split
  · refine ⟨?_, ?_, ?_, ?_, h.undo_bound, h.undo_ok⟩ <;> simp_all
  · refine ⟨?_, ?_, ?_, ?_, h.undo_bound, h.undo_ok⟩ <;> simp_all <;> omega

theorem core_delete_selection (ed : Editor) (h : Core ed) (hs : SelRows ed) :
    Core (delete_selection ed) ∧ (delete_selection ed).sel_active = false := by
  unfold delete_selection
  split
  · exact ⟨h, by assumption⟩
  · rename_i hact
    have hact1 : ed.sel_active = true := by simpa using hact
    obtain ⟨hsy, hey⟩ := hs hact1
    obtain ⟨hle, hlt⟩ :=
      normalize_rows ed.sel_start_y ed.sel_start_x ed.sel_end_y ed.sel_end_x _ hsy hey
    exact ⟨core_delete_span ed _ _ _ _ h hle hlt, rfl⟩

theorem core_backspace_edit (ed : Editor) (h : Core ed) : Core (backspace_edit ed) := by
  have h1 := h.total
  have h2 := h.row
  have h3 := h.current
  have h4 := h.nonempty
  unfold backspace_edit
  dsimp only
  split
  · refine ⟨?_, ?_, ?_, ?_, h.undo_bound, h.undo_ok⟩ <;> simp_all
  · split
    · refine ⟨?_, ?_, ?_, ?_, h.undo_bound, h.undo_ok⟩ <;>
        simp_all [List.length_eraseIdx] <;> omega
    · exact h

theorem core_delete_edit (ed : Editor) (h : Core ed) : Core (delete_edit ed) := by
  have h1 := h.total
  have h2 := h.row
  have h3 := h.current
  have h4 := h.nonempty
  unfold delete_edit
  dsimp only
  split
  · refine ⟨?_, ?_, ?_, ?_, h.undo_bound, h.undo_ok⟩ <;> simp_all
  · split
    · refine ⟨?_, ?_, ?_, ?_, h.undo_bound, h.undo_ok⟩ <;>
        simp_all [List.length_eraseIdx] <;> omega
    · exact h

theorem sel_rows_save_undo (ed : Editor) (hs : SelRows ed) : SelRows (save_undo ed) := hs

theorem core_backspace_char (ed : Editor) (h : Core ed) (hs : SelRows ed) :
    Core (backspace_char ed) := by
  unfold backspace_char
  dsimp only
  split
  · exact (core_delete_selection _ (core_save_undo ed h) (sel_rows_save_undo ed hs)).1
  · exact core_backspace_edit _ (core_save_undo ed h)

theorem core_delete_char (ed : Editor) (h : Core ed) (hs : SelRows ed) :
    Core (delete_char ed) := by
  unfold delete_char
  dsimp only
  split
  · exact (core_delete_selection _ (core_save_undo ed h) (sel_rows_save_undo ed hs)).1
  · exact core_delete_edit _ (core_save_undo ed h)

theorem core_checkpoint (ed : Editor) (c : Char) (h : Core ed) :
    Core (insert_char_checkpoint ed c) := by
  have h5 := core_save_undo ed h
  unfold insert_char_checkpoint
  dsimp only
  split <;> split <;>
    first
      | exact h
      | exact ⟨h.nonempty, h.total, h.current, h.row, h.undo_bound, h.undo_ok⟩
      | exact ⟨h5.nonempty, h5.total, h5.current, h5.row, h5.undo_bound, h5.undo_ok⟩

theorem sel_rows_checkpoint (ed : Editor) (c : Char) (hs : SelRows ed) :
    SelRows (insert_char_checkpoint ed c) := by
  unfold insert_char_checkpoint
  dsimp only
  split <;> split <;> exact hs

theorem core_expand (ed : Editor) (k : Nat) (h : Core ed) : Core (insert_char_expand ed k) := by
  have h4 := h.nonempty
  unfold insert_char_expand
  dsimp only
  split
  · refine ⟨?_, ?_, h.current, ?_, h.undo_bound, h.undo_ok⟩
    · simpa using h4
    · simpa using h.total
    · simpa using h.row
  · exact h

theorem sel_rows_expand (ed : Editor) (k : Nat) (hs : SelRows ed) :
    SelRows (insert_char_expand ed k) := by
  unfold insert_char_expand
  dsimp only
  split
  · intro ha
    have := hs ha
    simpa using this
  · exact hs

theorem core_put (ed : Editor) (c : Char) (h : Core ed) :
    Core (insert_char_put ed c) ∧ (insert_char_put ed c).sel_active = false := by
  have h4 := h.nonempty
  refine ⟨⟨?_, ?_, h.current, ?_, h.undo_bound, h.undo_ok⟩, rfl⟩
  · simpa [insert_char_put] using h4
  · simpa [insert_char_put] using h.total
  · simpa [insert_char_put] using h.row

theorem core_insert_char (ed : Editor) (c : Char) (h : Core ed) (hs : SelRows ed) :
    Core (insert_char ed c) ∧ (insert_char ed c).sel_active = false := by
  have h1 := core_expand _ ed.current_line (core_checkpoint ed c h)
  have h2 := sel_rows_expand _ ed.current_line (sel_rows_checkpoint ed c hs)
  unfold insert_char
  dsimp only
  split
  · exact core_put _ c (core_delete_selection _ h1 h2).1
  · exact core_put _ c h1

theorem sel_rows_of_inactive (ed : Editor) (h : ed.sel_active = false) : SelRows ed := by
  intro ha
  rw [h] at ha
  cases ha

theorem core_insert_chars (s : List Char) :
    ∀ ed : Editor, Core ed → SelRows ed →
      Core (insert_chars ed s) ∧ (s ≠ [] → (insert_chars ed s).sel_active = false) := by
  induction s with
  | nil => intro ed h _; exact ⟨h, fun hne => absurd rfl hne⟩
  | cons c rest ih =>
    intro ed h hs
    obtain ⟨h1, h2⟩ := core_insert_char ed c h hs
    obtain ⟨h3, h4⟩ := ih (insert_char ed c) h1 (sel_rows_of_inactive _ h2)
    refine ⟨h3, fun _ => ?_⟩
    cases rest with
    | nil => exact h2
    | cons d rest2 => exact h4 (by simp)

theorem core_insert_chars_inactive (s : List Char) (ed : Editor) (h : Core ed)
    (hs : ed.sel_active = false) :
    Core (insert_chars ed s) ∧ (insert_chars ed s).sel_active = false := by
  obtain ⟨h1, h2⟩ := core_insert_chars s ed h (sel_rows_of_inactive ed hs)
  refine ⟨h1, ?_⟩
  cases s with
  | nil => exact hs
  | cons c rest => exact h2 (by simp)

theorem core_newline_split (ed : Editor) (h : Core ed) : Core (newline_split ed) := by
  have h1 := h.total
  have h2 := h.row
  have h3 := h.current
  refine ⟨?_, ?_, ?_, ?_, h.undo_bound, h.undo_ok⟩ <;>
    simp_all [newline_split] <;> omega

theorem core_insert_newline (ed : Editor) (h : Core ed) (hs : SelRows ed) :
    Core (insert_newline ed) ∧ (insert_newline ed).sel_active = false := by
  unfold insert_newline
  dsimp only
  split
  · obtain ⟨h1, h2⟩ := core_delete_selection _ (core_save_undo ed h) (sel_rows_save_undo ed hs)
    exact ⟨core_newline_split _ h1, h2⟩
  · rename_i hna
    refine ⟨core_newline_split _ (core_save_undo ed h), ?_⟩
    simpa [newline_split] using hna

theorem core_paste_loop (frags : List (List Char)) :
    ∀ (ed : Editor) (i : Nat), Core ed → ed.sel_active = false →
      Core (paste_loop ed i frags) := by
  induction frags with
  | nil => intro ed i h _; exact h
  | cons frag rest ih =>
    intro ed i h hs
    unfold paste_loop
    split
    · obtain ⟨h1, h2⟩ := core_insert_newline ed h (sel_rows_of_inactive ed hs)
      obtain ⟨h3, h4⟩ := core_insert_chars_inactive frag _ h1 h2
      exact ih _ _ h3 h4
    · obtain ⟨h3, h4⟩ := core_insert_chars_inactive frag _ h hs
      exact ih _ _ h3 h4

theorem core_paste_single (ed : Editor) (frag : List Char) (h : Core ed) :
    Core (paste_single ed frag) := by
  have h4 := h.nonempty
  refine ⟨?_, ?_, h.current, ?_, h.undo_bound, h.undo_ok⟩
  · simpa [paste_single] using h4
  · simpa [paste_single] using h.total
  · simpa [paste_single] using h.row

theorem core_modified (ed : Editor) (b : Bool) (h : Core ed) :
    Core { ed with modified := b } :=
  ⟨h.nonempty, h.total, h.current, h.row, h.undo_bound, h.undo_ok⟩

theorem core_paste_clipboard (ed : Editor) (h : Core ed) (hs : SelRows ed) :
    Core (paste_clipboard ed) := by
  unfold paste_clipboard
  split
  · exact core_set_message _ _ h
  · dsimp only
    apply core_set_message
    apply core_modified
    have h1 : Core (if ed.sel_active = true then delete_selection ed else ed) ∧
        (if ed.sel_active = true then delete_selection ed else ed).sel_active = false := by
      split
      · exact core_delete_selection ed h hs
      · rename_i hna
        exact ⟨h, by simpa using hna⟩
    generalize (if ed.sel_active = true then delete_selection ed else ed) = ed1 at h1 ⊢
    split
    · exact core_paste_single _ _ h1.1
    · exact core_paste_loop _ _ _ h1.1 h1.2

theorem core_cut_line (ed : Editor) (h : Core ed) : Core (cut_line ed) := by
  have h1 := h.total
  have h2 := h.row
  have h3 := h.current
  have h4 := h.nonempty
  unfold cut_line
  dsimp only
  apply core_set_message
  split
  · refine ⟨?_, ?_, ?_, ?_, h.undo_bound, h.undo_ok⟩ <;>
      simp_all [List.length_eraseIdx] <;> first | omega | (split_ifs <;> omega)
  · refine ⟨?_, ?_, ?_, ?_, h.undo_bound, h.undo_ok⟩ <;> simp_all

theorem core_uncut_loop (frags : List (List Char)) :
    ∀ ed : Editor, Core ed → SelRows ed → Core (uncut_loop ed frags) := by
  induction frags with
  | nil => intro ed h _; exact h
  | cons frag rest ih =>
    intro ed h hs
    obtain ⟨h1, h2⟩ := core_insert_chars frag ed h hs
    unfold uncut_loop
    dsimp only
    split
    · exact h1
    · have hs1 : SelRows (insert_chars ed frag) := by
        cases frag with
        | nil => exact hs
        | cons c r => exact sel_rows_of_inactive _ (h2 (by simp))
      obtain ⟨h3, h4⟩ := core_insert_newline _ h1 hs1
      exact ih _ h3 (sel_rows_of_inactive _ h4)

theorem core_uncut_text (ed : Editor) (h : Core ed) (hs : SelRows ed) :
    Core (uncut_text ed) := by
  unfold uncut_text
  split
  · exact core_set_message _ _ h
  · apply core_set_message
    have h1 := core_uncut_loop ed.cut_buffer ed h hs
    exact ⟨h1.nonempty, h1.total, h1.current, h1.row, h1.undo_bound, h1.undo_ok⟩

theorem core_perform_undo (ed : Editor) (h : Core ed) : Core (perform_undo ed) := by
  unfold perform_undo
  split
  · exact core_set_message _ _ h
  · rename_i snap hlast
    have hmem : snap ∈ ed.undo_stack := List.mem_of_getLast?_eq_some hlast
    obtain ⟨s1, s2, s3⟩ := h.undo_ok snap hmem
    have hb := h.undo_bound
    apply core_set_message
    refine ⟨?_, ?_, rfl, ?_, ?_, ?_⟩
    · intro hnil
      have := congrArg List.length hnil
      simp only [List.length_map, List.length_take, List.length_nil] at this
      omega
    · simp
      omega
    · simp
      omega
    · show ed.undo_stack.dropLast.length ≤ MAX_UNDO
      rw [List.length_dropLast]
      exact Nat.le_trans (Nat.sub_le _ _) hb
    · intro s hs
      exact h.undo_ok s (List.mem_of_mem_dropLast hs)

theorem core_copy_selection (ed : Editor) (h : Core ed) : Core (copy_selection ed) := by
  unfold copy_selection
  split
  · exact core_set_message _ _ h
  · apply core_set_message
    exact ⟨h.nonempty, h.total, h.current, h.row, h.undo_bound, h.undo_ok⟩

theorem sel_rows_copy_selection (ed : Editor) (hs : SelRows ed) :
    SelRows (copy_selection ed) := by
  unfold copy_selection
  split
  · exact hs
  · exact hs

theorem core_cut_selection (ed : Editor) (h : Core ed) (hs : SelRows ed) :
    Core (cut_selection ed) :=
  (core_delete_selection _ (core_copy_selection ed h) (sel_rows_copy_selection ed hs)).1

/-! ## `strstr` and the replace loops -/

theorem strstr_some (q : List Char) :
    ∀ (s : List Char) (i : Nat), strstr s q = some i → s.drop i = q ++ s.drop (i + q.length) := by
  intro s
  induction s with
  | nil =>
    intro i h
    unfold strstr at h
    split at h
    · rename_i hq
      simp [hq]
    · cases h
  | cons c rest ih =>
    intro i h
    unfold strstr at h
    split at h
    · rename_i hp
      have hi : i = 0 := by
        cases h
        rfl
      subst hi
      obtain ⟨t, ht⟩ := List.isPrefixOf_iff_prefix.mp hp
      rw [List.drop_zero, ← ht]
      simp
    · cases hr : strstr rest q with
      | none => simp [hr] at h
      | some j =>
        simp [hr] at h
        subst h
        have := ih j hr
        simpa [Nat.add_right_comm] using this

theorem strstr_le (q : List Char) :
    ∀ (s : List Char) (i : Nat), strstr s q = some i → i + q.length ≤ s.length := by
  intro s
  induction s with
  | nil =>
    intro i h
    unfold strstr at h
    split at h
    · rename_i hq
      cases h
      simp [hq]
    · cases h
  | cons c rest ih =>
    intro i h
    unfold strstr at h
    split at h
    · rename_i hp
      cases h
      have := (List.isPrefixOf_iff_prefix.mp hp).length_le
      simpa using this
    · cases hr : strstr rest q with
      | none => simp [hr] at h
      | some j =>
        simp [hr] at h
        subst h
        have := ih j hr
        simp only [List.length_cons]
        omega

theorem replace_all_line_mono (q r : List Char) :
    ∀ (f : Nat) (line : Line) (k : Nat) (res : Line × Nat),
      replace_all_line f q r line k = some res →
      ∀ g, f ≤ g → replace_all_line g q r line k = some res := by
  intro f
  induction f with
  | zero => intro line k res h; simp [replace_all_line] at h
  | succ f ih =>
    intro line k res h g hg
    obtain ⟨g1, rfl⟩ : ∃ g1, g = g1 + 1 := ⟨g - 1, by omega⟩
    unfold replace_all_line at h ⊢
    split at h
    · exact h
    · exact ih _ _ _ h g1 (by omega)

theorem replace_splice_count (q r : List Char) (c : Char) (hc : c ∈ q) (hr : c ∉ r)
    (line : Line) (off : Nat) (h : strstr line.data q = some off) :
    (replace_splice line off q r).data.count c < line.data.count c := by
  have h1 := strstr_some q line.data off h
  have h2 : line.data = line.data.take off ++ (q ++ line.data.drop (off + q.length)) := by
    rw [← h1, List.take_append_drop]
  have h3 : 0 < q.count c := List.count_pos_iff.mpr hc
  have h4 : r.count c = 0 := List.count_eq_zero.mpr hr
  have h5 : line.data.count c = (line.data.take off).count c +
      (q.count c + (line.data.drop (off + q.length)).count c) := by
    conv_lhs => rw [h2]
    simp only [List.count_append]
  simp only [replace_splice, List.count_append, h4]
  omega

theorem replace_all_line_terminates (q r : List Char) (c : Char) (hc : c ∈ q) (hr : c ∉ r) :
    ∀ (n : Nat) (line : Line) (k : Nat), line.data.count c ≤ n →
      ∃ res, replace_all_line (n + 1) q r line k = some res := by
  intro n
  induction n with
  | zero =>
    intro line k hn
    unfold replace_all_line
    split
    · exact ⟨_, rfl⟩
    · rename_i off ho
      have := replace_splice_count q r c hc hr line off ho
      omega
  | succ n ih =>
    intro line k hn
    unfold replace_all_line
    split
    · exact ⟨_, rfl⟩
    · rename_i off ho
      have := replace_splice_count q r c hc hr line off ho
      exact ih _ _ (by omega)

theorem replace_all_lines_length (fuel : Nat) (q r : List Char) :
    ∀ (ls : List Line) (k : Nat) (res : List Line × Nat),
      replace_all_lines fuel q r ls k = some res → res.1.length = ls.length := by
  intro ls
  induction ls with
  | nil =>
    intro k res h
    simp [replace_all_lines] at h
    subst h
    rfl
  | cons l rest ih =>
    intro k res h
    unfold replace_all_lines at h
    split at h
    · cases h
    · split at h
      · cases h
      · rename_i hrest
        cases h
        simp [ih _ _ hrest]

theorem replace_all_lines_terminates (q r : List Char) (c : Char) (hc : c ∈ q) (hr : c ∉ r) :
    ∀ (ls : List Line) (fuel : Nat),
      (∀ l ∈ ls, l.data.count c < fuel) →
      ∀ k, ∃ res, replace_all_lines fuel q r ls k = some res := by
  intro ls
  induction ls with
  | nil => intro fuel _ k; exact ⟨_, rfl⟩
  | cons l rest ih =>
    intro fuel hf k
    have hl := hf l (by simp)
    obtain ⟨f1, rfl⟩ : ∃ f1, fuel = f1 + 1 := ⟨fuel - 1, by omega⟩
    obtain ⟨⟨l1, k1⟩, h1⟩ := replace_all_line_terminates q r c hc hr f1 l k (by omega)
    obtain ⟨⟨rest1, k2⟩, h2⟩ := ih (f1 + 1) (fun x hx => hf x (by simp [hx])) k1
    refine ⟨(l1 :: rest1, k2), ?_⟩
    unfold replace_all_lines
    simp only [h1, h2]

theorem exists_fuel_bound (c : Char) (ls : List Line) :
    ∃ fuel, ∀ l ∈ ls, l.data.count c < fuel := by
  induction ls with
  | nil => exact ⟨0, by simp⟩
  | cons l rest ih =>
    obtain ⟨f, hf⟩ := ih
    refine ⟨f + l.data.count c + 1, ?_⟩
    intro x hx
    rcases List.mem_cons.mp hx with rfl | hx
    · omega
    · have := hf x hx
      omega

theorem core_replace_text (fuel : Nat) (ed ed1 : Editor) (q r : List Char) (choice : Nat)
    (h : Core ed) (hres : replace_text fuel ed q r choice = some ed1) : Core ed1 := by
  have hu := core_save_undo ed h
  unfold replace_text at hres
  split at hres
  · cases hres
    exact core_set_message _ _ h
  · split at hres
    · cases hres
      exact core_set_message _ _ h
    · split at hres
      · cases hres
        exact core_set_message _ _ h
      · dsimp only at hres
        split at hres
        · split at hres
          · cases hres
          · rename_i ls replaced hall
            cases hres
            have hlen := replace_all_lines_length _ _ _ _ _ _ hall
            simp only [save_undo_lines] at hlen
            have h4 := h.nonempty
            refine ⟨?_, ?_, hu.current, ?_, hu.undo_bound, hu.undo_ok⟩
            · intro hnil
              simp only [set_message] at hnil
              rw [hnil] at hlen
              exact h4 (List.length_eq_zero.mp hlen.symm)
            · show ed.total_lines = ls.length
              rw [hlen]
              exact h.total
            · show ed.cursor_y < ls.length
              rw [hlen]
              exact h.row
        · split at hres
          · split at hres
            · cases hres
              exact hu
            · cases hres
              apply core_set_message
              have h4 := h.nonempty
              refine ⟨?_, ?_, hu.current, ?_, hu.undo_bound, hu.undo_ok⟩
              · simpa using h4
              · simpa using h.total
              · simpa using h.row
          · cases hres
            exact hu

theorem replace_text_terminates (ed : Editor) (q r : List Char) (choice : Nat)
    (hq : ∀ c, q.head? = some c → c ∉ r) :
    ∃ fuel ed1, replace_text fuel ed q r choice = some ed1 := by
  cases q with
  | nil => exact ⟨0, set_message ed "Bekor qilindi", by simp [replace_text]⟩
  | cons c rest =>
    have hr := hq c rfl
    obtain ⟨fuel, hf⟩ := exists_fuel_bound c ed.lines
    obtain ⟨⟨ls, k⟩, hall⟩ :=
      replace_all_lines_terminates (c :: rest) r c (by simp) hr ed.lines fuel hf 0
    refine ⟨fuel, ?_⟩
    unfold replace_text
    split
    · exact ⟨_, rfl⟩
    · split
      · exact ⟨_, rfl⟩
      · split
        · exact ⟨_, rfl⟩
        · dsimp only
          split
          · simp only [save_undo_lines, hall]
            exact ⟨_, rfl⟩
          · split
            · split <;> exact ⟨_, rfl⟩
            · exact ⟨_, rfl⟩

theorem core_mk_editor (ts : List (List Char)) (y x : Nat) (hy : y < ts.length) :
    Core (mk_editor ts y x) := by
  refine ⟨?_, ?_, rfl, ?_, ?_, ?_⟩
  · intro hnil
    have := congrArg List.length hnil
    simp only [mk_editor, List.length_map, List.length_nil] at this
    omega
  · simp [mk_editor]
  · simpa [mk_editor] using hy
  · simp [mk_editor, MAX_UNDO]
  · intro s hs
    simp [mk_editor] at hs

/-! ## The line-count invariant on states with selection rows in the list -/

/-! ## C2: the cursor invariant -/

/-- C2: replace-all on the one-line document "aXX" with the cursor at
(0, 3), query "X" and empty replacement starts with the cursor invariant
holding, finishes, leaves the line "a" of recorded length 1 and the cursor
still at (0, 3): the cursor column exceeds the length of its line. -/
theorem replace_all_breaks_cursor_invariant :
    CursorOK (mk_editor ["aXX".toList] 0 3) ∧
    ∃ ed1, replace_text 3 (mk_editor ["aXX".toList] 0 3) "X".toList [] 97 = some ed1 ∧
      texts ed1 = ["a".toList] ∧ (deref ed1.lines 0).len = 1 ∧
      ed1.cursor_y = 0 ∧ ed1.cursor_x = 3 ∧ ¬ CursorOK ed1 :=
  ⟨by decide, _, rfl, by decide, by decide, by decide, by decide, by decide⟩

/-! ## C4: checkpoints before mutations -/

/-- C4: on the one-line document "abc" with the cursor at (0, 0) and an
empty undo stack, `cut_line` empties the line without pushing a snapshot, and
the `perform_undo` issued right after it finds nothing to undo: the line
stays empty. The same holds for `cut_selection` and for a single-fragment
`paste_clipboard`. -/
theorem cut_line_takes_no_checkpoint :
    texts (mk_editor ["abc".toList] 0 0) = ["abc".toList] ∧
    texts (cut_line (mk_editor ["abc".toList] 0 0)) = [[]] ∧
    (cut_line (mk_editor ["abc".toList] 0 0)).undo_stack = [] ∧
    texts (perform_undo (cut_line (mk_editor ["abc".toList] 0 0))) = [[]] ∧
    (perform_undo (cut_line (mk_editor ["abc".toList] 0 0))).message = "Undo: Nothing to undo" ∧
    texts (perform_undo (cut_selection (select_all (mk_editor ["abc".toList] 0 0)))) = [[]] ∧
    texts (perform_undo (paste_clipboard
      { mk_editor ["abc".toList] 0 0 with clipboard := ["xy".toList] })) = ["xyabc".toList] := by
  refine ⟨by decide, by decide, by decide, by decide, by decide, by decide, by decide⟩

/-! ## C5: the undo stack bound -/

theorem save_undo_stack (ed : Editor) :
    (save_undo ed).undo_stack =
      (if MAX_UNDO ≤ ed.undo_stack.length then ed.undo_stack.drop 1 else ed.undo_stack) ++
        [snapshot_of ed] := rfl

/-- C5: `save_undo` on a stack of at most 100 snapshots leaves at most 100;
on a full stack the result is the old entries 1 to 99 in their order
followed by the new snapshot, and below the bound the new snapshot is
appended with nothing discarded. Hence, from a well-formed state, every
operation that calls `save_undo` (insert_char, backspace_char, delete_char,
insert_newline, paste_clipboard, uncut_text, replace) leaves at most 100
snapshots. -/
theorem save_undo_bounded (ed : Editor) :
    (ed.undo_stack.length ≤ MAX_UNDO → (save_undo ed).undo_stack.length ≤ MAX_UNDO) ∧
    (ed.undo_stack.length = MAX_UNDO →
      (save_undo ed).undo_stack = ed.undo_stack.drop 1 ++ [snapshot_of ed] ∧
      (save_undo ed).undo_stack.length = MAX_UNDO) ∧
    (ed.undo_stack.length < MAX_UNDO →
      (save_undo ed).undo_stack = ed.undo_stack ++ [snapshot_of ed]) ∧
    (Core ed → SelRows ed →
      (∀ c, (insert_char ed c).undo_stack.length ≤ MAX_UNDO) ∧
      (backspace_char ed).undo_stack.length ≤ MAX_UNDO ∧
      (delete_char ed).undo_stack.length ≤ MAX_UNDO ∧
      (insert_newline ed).undo_stack.length ≤ MAX_UNDO ∧
      (paste_clipboard ed).undo_stack.length ≤ MAX_UNDO ∧
      (uncut_text ed).undo_stack.length ≤ MAX_UNDO ∧
      (∀ fuel q r choice ed1, replace_text fuel ed q r choice = some ed1 →
        ed1.undo_stack.length ≤ MAX_UNDO)) := by
  refine ⟨?_, ?_, ?_, ?_⟩
  · intro h
    rw [save_undo_stack]
    split <;> simp [MAX_UNDO] at * <;> omega
  · intro h
    rw [save_undo_stack]
    simp [h, MAX_UNDO]
  · intro h
    rw [save_undo_stack]
    rw [if_neg (by omega)]
  · intro h hs
    exact ⟨fun c => (core_insert_char ed c h hs).1.undo_bound,
      (core_backspace_char ed h hs).undo_bound,
      (core_delete_char ed h hs).undo_bound,
      (core_insert_newline ed h hs).1.undo_bound,
      (core_paste_clipboard ed h hs).undo_bound,
      (core_uncut_text ed h hs).undo_bound,
      fun fuel q r choice ed1 hres =>
        (core_replace_text fuel ed ed1 q r choice h hres).undo_bound⟩

/-- The undo stack bound applied to a full stack of one hundred numbered
snapshots: the result holds snapshots 1 to 99 and the new one. -/
theorem save_undo_bounded_witness :
    (save_undo full_stack_editor).undo_stack =
      full_stack_editor.undo_stack.drop 1 ++ [snapshot_of full_stack_editor] ∧
    (save_undo full_stack_editor).undo_stack.length = MAX_UNDO :=
  (save_undo_bounded full_stack_editor).2.1 (by simp [full_stack_editor, MAX_UNDO])

/-! ## C8: normalisation of the selection -/

theorem normalize_swap (sy sx ey ex : Nat) :
    normalize ey ex sy sx = normalize sy sx ey ex := by
  unfold normalize
  split <;> split <;> first
    | rfl
    | (exfalso; omega)
    | (have h1 : sy = ey := by omega
       have h2 : sx = ex := by omega
       subst h1; subst h2; rfl)

theorem normalize_idem (sy sx ey ex : Nat) :
    normalize (normalize sy sx ey ex).1.1 (normalize sy sx ey ex).1.2
      (normalize sy sx ey ex).2.1 (normalize sy sx ey ex).2.2 = normalize sy sx ey ex := by
  unfold normalize
  split <;> first | rfl | (dsimp only; rw [if_neg (by omega)])

theorem normalize_ordered (sy sx ey ex : Nat)
    (h : sy < ey ∨ (sy = ey ∧ sx ≤ ex)) : normalize sy sx ey ex = ((sy, sx), (ey, ex)) := by
  unfold normalize
  rw [if_neg (by omega)]

theorem delete_selection_swap (ed : Editor) :
    (delete_selection (swap_selection ed)).lines = (delete_selection ed).lines ∧
    (delete_selection (swap_selection ed)).total_lines = (delete_selection ed).total_lines ∧
    (delete_selection (swap_selection ed)).cursor_y = (delete_selection ed).cursor_y ∧
    (delete_selection (swap_selection ed)).cursor_x = (delete_selection ed).cursor_x ∧
    (delete_selection (swap_selection ed)).current_line = (delete_selection ed).current_line ∧
    (delete_selection (swap_selection ed)).sel_active = (delete_selection ed).sel_active := by
  unfold delete_selection
  have hsw : (swap_selection ed).sel_active = ed.sel_active := rfl
  rw [hsw]
  split
  · exact ⟨rfl, rfl, rfl, rfl, rfl, rfl⟩
  · dsimp only [swap_selection]
    rw [normalize_swap ed.sel_start_y ed.sel_start_x ed.sel_end_y ed.sel_end_x]
    unfold delete_span
    dsimp only
    split <;> exact ⟨rfl, rfl, rfl, rfl, rfl, rfl⟩

theorem copy_selection_swap (ed : Editor) :
    (copy_selection (swap_selection ed)).clipboard = (copy_selection ed).clipboard := by
  unfold copy_selection
  have hsw : (swap_selection ed).sel_active = ed.sel_active := rfl
  rw [hsw]
  split
  · rfl
  · dsimp only [swap_selection]
    rw [normalize_swap ed.sel_start_y ed.sel_start_x ed.sel_end_y ed.sel_end_x]
    rfl

/-- C8: the normalisation used by `copy_selection` and `delete_selection`
gives the same ordered pair whichever way round the two endpoints are
stored; a pair that is already ordered is returned unchanged; the result is
always made of the two endpoints given, the lower one first, and normalising
it again changes nothing; and so copying yields the same clipboard and
deleting the same lines, line count, cursor and selection flag for a
selection and for the same selection with anchor and active point
exchanged. -/
theorem normalize_order_independent :
    (∀ sy sx ey ex, normalize ey ex sy sx = normalize sy sx ey ex) ∧
    (∀ sy sx ey ex, sy < ey ∨ (sy = ey ∧ sx ≤ ex) →
      normalize sy sx ey ex = ((sy, sx), (ey, ex))) ∧
    (∀ sy sx ey ex,
      normalize sy sx ey ex = ((sy, sx), (ey, ex)) ∨
        normalize sy sx ey ex = ((ey, ex), (sy, sx))) ∧
    (∀ sy sx ey ex,
      normalize (normalize sy sx ey ex).1.1 (normalize sy sx ey ex).1.2
        (normalize sy sx ey ex).2.1 (normalize sy sx ey ex).2.2 = normalize sy sx ey ex) ∧
    (∀ sy sx ey ex,
      (normalize sy sx ey ex).1.1 < (normalize sy sx ey ex).2.1 ∨
        ((normalize sy sx ey ex).1.1 = (normalize sy sx ey ex).2.1 ∧
          (normalize sy sx ey ex).1.2 ≤ (normalize sy sx ey ex).2.2)) ∧
    (∀ ed, (copy_selection (swap_selection ed)).clipboard = (copy_selection ed).clipboard) ∧
    (∀ ed,
      (delete_selection (swap_selection ed)).lines = (delete_selection ed).lines ∧
      (delete_selection (swap_selection ed)).total_lines = (delete_selection ed).total_lines ∧
      (delete_selection (swap_selection ed)).cursor_y = (delete_selection ed).cursor_y ∧
      (delete_selection (swap_selection ed)).cursor_x = (delete_selection ed).cursor_x ∧
      (delete_selection (swap_selection ed)).current_line = (delete_selection ed).current_line ∧
      (delete_selection (swap_selection ed)).sel_active = (delete_selection ed).sel_active) := by
  refine ⟨normalize_swap, normalize_ordered, ?_, normalize_idem, ?_, copy_selection_swap,
    delete_selection_swap⟩
  · intro sy sx ey ex
    unfold normalize
    split
    · exact Or.inr rfl
    · exact Or.inl rfl
  · intro sy sx ey ex
    unfold normalize
    split <;> dsimp only <;> omega

/-- The normalisation applied to the endpoints (2, 5) and (1, 7): stored as
anchor (1, 7) and active point (2, 5) the pair is already ordered and comes
back unchanged, and stored the other way round it gives the same pair. -/
theorem normalize_order_independent_witness :
    normalize 1 7 2 5 = ((1, 7), (2, 5)) ∧ normalize 2 5 1 7 = ((1, 7), (2, 5)) :=
  ⟨normalize_order_independent.2.1 1 7 2 5 (by decide),
    (normalize_order_independent.1 1 7 2 5).trans
      (normalize_order_independent.2.1 1 7 2 5 (by decide))⟩

/-! ## Rows of the line list -/

theorem set_row {α : Type} (ls : List α) (y : Nat) (a : α) (h : y < ls.length) :
    ls.set y a = ls.take y ++ a :: ls.drop (y + 1) := by
  rw [List.set_eq_take_append_cons_drop, if_pos h]

theorem take_succ_set {α : Type} (ls : List α) (y : Nat) (a : α) (h : y < ls.length) :
    (ls.set y a).take (y + 1) = ls.take y ++ [a] := by
  rw [set_row ls y a h]
  simp [List.take_append_eq_append_take, List.length_take, Nat.min_eq_left (Nat.le_of_lt h)]

theorem deref_eq_getElem (ls : List Line) (y : Nat) (h : y < ls.length) :
    deref ls y = ls[y] := by
  unfold deref
  exact List.getD_eq_getElem ls _ h

theorem deref_mem (ls : List Line) (y : Nat) (h : y < ls.length) : deref ls y ∈ ls := by
  rw [deref_eq_getElem ls y h]
  exact List.getElem_mem h

theorem split_at_row (ls : List Line) (y : Nat) (h : y < ls.length) :
    ls = ls.take y ++ deref ls y :: ls.drop (y + 1) := by
  rw [deref_eq_getElem ls y h]
  conv_lhs => rw [← List.take_append_drop y ls]
  rw [List.drop_eq_getElem_cons h]

theorem deref_len (ed : Editor) (hl : LensOK ed) (y : Nat) (h : y < ed.lines.length) :
    (deref ed.lines y).len = (deref ed.lines y).data.length :=
  hl _ (deref_mem ed.lines y h)

theorem normalize_cases (sy sx ey ex : Nat) :
    (normalize sy sx ey ex = ((sy, sx), (ey, ex)) ∧ (sy < ey ∨ (sy = ey ∧ sx ≤ ex))) ∨
    (normalize sy sx ey ex = ((ey, ex), (sy, sx)) ∧ (ey < sy ∨ (sy = ey ∧ ex < sx))) := by
  unfold normalize
  split
  · right
    exact ⟨rfl, by omega⟩
  · left
    exact ⟨rfl, by omega⟩

/-! ## C6: what `delete_selection` leaves -/

theorem delete_span_single (ed : Editor) (y sx ex : Nat) (hy : y < ed.lines.length) :
    (delete_span ed y sx y ex).lines =
      ed.lines.take y ++
        { deref ed.lines y with
          data := (deref ed.lines y).data.take sx ++ (deref ed.lines y).data.drop ex
          len := (deref ed.lines y).len - (ex - sx) } :: ed.lines.drop (y + 1) := by
  unfold delete_span
  dsimp only
  rw [if_pos rfl]
  exact set_row _ _ _ hy

theorem delete_span_multi (ed : Editor) (sy sx ey ex : Nat) (hne : sy ≠ ey)
    (hy : sy < ed.lines.length) :
    (delete_span ed sy sx ey ex).lines =
      ed.lines.take sy ++
        { data := (deref ed.lines sy).data.take sx ++ (deref ed.lines ey).data.drop ex
          len := sx + ((deref ed.lines ey).data.drop ex).length
          capacity := grow_capacity (sx + ((deref ed.lines ey).data.drop ex).length + 1)
            (deref ed.lines sy).capacity } :: ed.lines.drop (ey + 1) := by
  unfold delete_span
  dsimp only
  rw [if_neg hne]
  dsimp only
  rw [take_succ_set _ _ _ hy]
  simp

theorem delete_span_total (ed : Editor) (sy sx ey ex : Nat) (hle : sy ≤ ey)
    (hy : ey < ed.lines.length) :
    (delete_span ed sy sx ey ex).total_lines = ed.total_lines - (ey - sy) := by
  unfold delete_span
  dsimp only
  split
  · rename_i h
    subst h
    simp
  · simp only [List.length_take, List.length_drop]
    rw [Nat.min_eq_left (by omega)]

theorem delete_selection_effect (ed : Editor) (loy lox hiy hix : Nat)
    (hact : ed.sel_active = true) (hl : LensOK ed)
    (hstart : ValidPos ed ed.sel_start_y ed.sel_start_x)
    (hend : ValidPos ed ed.sel_end_y ed.sel_end_x)
    (hn : normalize ed.sel_start_y ed.sel_start_x ed.sel_end_y ed.sel_end_x =
      ((loy, lox), (hiy, hix))) :
    texts (delete_selection ed) =
        (texts ed).take loy ++
          [(deref ed.lines loy).data.take lox ++ (deref ed.lines hiy).data.drop hix] ++
          (texts ed).drop (hiy + 1) ∧
      (delete_selection ed).lines.length = ed.lines.length - (hiy - loy) ∧
      (delete_selection ed).total_lines = ed.total_lines - (hiy - loy) ∧
      (delete_selection ed).cursor_y = loy ∧
      (delete_selection ed).cursor_x = lox ∧
      (delete_selection ed).current_line = loy ∧
      (delete_selection ed).sel_active = false ∧
      LensOK (delete_selection ed) := by
  have hord : (loy < hiy ∨ (loy = hiy ∧ lox ≤ hix)) ∧ ValidPos ed loy lox ∧ ValidPos ed hiy hix := by
    rcases normalize_cases ed.sel_start_y ed.sel_start_x ed.sel_end_y ed.sel_end_x with
      ⟨h1, h2⟩ | ⟨h1, h2⟩
    · rw [h1] at hn
      simp only [Prod.mk.injEq] at hn
      obtain ⟨⟨rfl, rfl⟩, rfl, rfl⟩ := hn
      exact ⟨h2, hstart, hend⟩
    · rw [h1] at hn
      simp only [Prod.mk.injEq] at hn
      obtain ⟨⟨rfl, rfl⟩, rfl, rfl⟩ := hn
      exact ⟨by omega, hend, hstart⟩
  obtain ⟨hord, ⟨hloy, hlox⟩, ⟨hhiy, hhix⟩⟩ := hord
  have hlo := deref_len ed hl loy hloy
  have hhi := deref_len ed hl hiy hhiy
  have hds : delete_selection ed = delete_span ed loy lox hiy hix := by
    unfold delete_selection
    rw [if_neg (by simp [hact])]
    dsimp only
    rw [hn]
  rw [hds]
  have htot := delete_span_total ed loy lox hiy hix (by omega) hhiy
  refine ⟨?_, ?_, htot, rfl, rfl, rfl, rfl, ?_⟩
  · by_cases he : loy = hiy
    · subst he
      simp only [texts, delete_span_single ed loy lox hix hloy]
      simp [List.map_take, List.map_drop]
    · simp only [texts, delete_span_multi ed loy lox hiy hix he hloy]
      simp [List.map_take, List.map_drop]
  · by_cases he : loy = hiy
    · subst he
      rw [delete_span_single ed loy lox hix hloy]
      simp only [List.length_append, List.length_take, List.length_cons, List.length_drop]
      omega
    · rw [delete_span_multi ed loy lox hiy hix he hloy]
      simp only [List.length_append, List.length_take, List.length_cons, List.length_drop]
      omega
  · intro l hmem
    by_cases he : loy = hiy
    · subst he
      rw [delete_span_single ed loy lox hix hloy] at hmem
      rcases List.mem_append.mp hmem with hm | hm
      · exact hl l (List.mem_of_mem_take hm)
      · rcases List.mem_cons.mp hm with rfl | hm
        · simp only [List.length_append, List.length_take, List.length_drop]
          omega
        · exact hl l (List.mem_of_mem_drop hm)
    · rw [delete_span_multi ed loy lox hiy hix he hloy] at hmem
      rcases List.mem_append.mp hmem with hm | hm
      · exact hl l (List.mem_of_mem_take hm)
      · rcases List.mem_cons.mp hm with rfl | hm
        · simp only [List.length_append, List.length_take, List.length_drop]
          omega
        · exact hl l (List.mem_of_mem_drop hm)


/-- C6: with an active selection whose two endpoints are valid coordinates
and `(loy, lox)`, `(hiy, hix)` the endpoints in order, `delete_selection`
leaves the lines before row `loy`, one line holding the first `lox`
characters of line `loy` followed by line `hiy` from column `hix` on, and the
lines after row `hiy`; the list and `total_lines` shrink by `hiy - loy`, the
cursor is at `(loy, lox)`, the selection is inactive and every recorded
length still matches its text. With no active selection the state is
returned unchanged. -/
theorem delete_selection_spec (ed : Editor) (loy lox hiy hix : Nat) :
    (ed.sel_active = false → delete_selection ed = ed) ∧
    (ed.sel_active = true → LensOK ed →
      ValidPos ed ed.sel_start_y ed.sel_start_x → ValidPos ed ed.sel_end_y ed.sel_end_x →
      normalize ed.sel_start_y ed.sel_start_x ed.sel_end_y ed.sel_end_x =
        ((loy, lox), (hiy, hix)) →
      texts (delete_selection ed) =
        (texts ed).take loy ++
          [(deref ed.lines loy).data.take lox ++ (deref ed.lines hiy).data.drop hix] ++
          (texts ed).drop (hiy + 1) ∧
      (delete_selection ed).lines.length = ed.lines.length - (hiy - loy) ∧
      (delete_selection ed).total_lines = ed.total_lines - (hiy - loy) ∧
      (delete_selection ed).cursor_y = loy ∧
      (delete_selection ed).cursor_x = lox ∧
      (delete_selection ed).current_line = loy ∧
      (delete_selection ed).sel_active = false ∧
      LensOK (delete_selection ed)) :=
  ⟨fun h => by simp [delete_selection, h],
   fun hact hl hstart hend hn => delete_selection_effect ed loy lox hiy hix hact hl hstart hend hn⟩

/-- The specification of `delete_selection` applied to `sample_selected`:
rows 0 and 1 of "hello", "world" with the span (0, 1) to (1, 2) removed. -/
theorem delete_selection_spec_witness :
    texts (delete_selection sample_selected) =
        (texts sample_selected).take 0 ++
          [(deref sample_selected.lines 0).data.take 1 ++
            (deref sample_selected.lines 1).data.drop 2] ++
          (texts sample_selected).drop (1 + 1) ∧
      (delete_selection sample_selected).lines.length = sample_selected.lines.length - (1 - 0) :=
  have h := (delete_selection_spec sample_selected 0 1 1 2).2 rfl (by decide) (by decide)
    (by decide) (by decide)
  ⟨h.1, h.2.1⟩

/-! ## C7: select all, then delete -/

/-- C7: on a document with at least one line, counted by `total_lines` and
with matching recorded lengths, `select_all` followed by `delete_selection`
leaves exactly one line, that line is empty (no text, recorded length 0),
`total_lines` is 1, the cursor is at (0, 0) and the selection is
inactive. -/
theorem select_all_delete_selection (ed : Editor) (h : LinesOK ed) (hl : LensOK ed) :
    texts (delete_selection (select_all ed)) = [[]] ∧
    contents (delete_selection (select_all ed)) = [([], 0)] ∧
    (delete_selection (select_all ed)).total_lines = 1 ∧
    (delete_selection (select_all ed)).cursor_y = 0 ∧
    (delete_selection (select_all ed)).cursor_x = 0 ∧
    (delete_selection (select_all ed)).sel_active = false := by
  obtain ⟨hne, htot⟩ := h
  have hpos : 0 < ed.lines.length := List.length_pos.mpr hne
  have hlast : ed.lines.length - 1 < ed.lines.length := by omega
  have hlen := deref_len ed hl (ed.lines.length - 1) hlast
  have hn : normalize (select_all ed).sel_start_y (select_all ed).sel_start_x
      (select_all ed).sel_end_y (select_all ed).sel_end_x =
      ((0, 0), (ed.lines.length - 1, (deref ed.lines (ed.lines.length - 1)).len)) :=
    normalize_ordered _ _ _ _ (by
      show 0 < ed.lines.length - 1 ∨ (0 = ed.lines.length - 1 ∧ 0 ≤ _)
      omega)
  obtain ⟨h1, h2, h3, h4, h5, _, h7, h8⟩ :=
    delete_selection_effect (select_all ed) 0 0 (ed.lines.length - 1)
      (deref ed.lines (ed.lines.length - 1)).len rfl hl
      ⟨hpos, Nat.zero_le _⟩ ⟨hlast, Nat.le_refl _⟩ hn
  have ht : texts (delete_selection (select_all ed)) = [[]] := by
    rw [h1]
    have hd : (texts (select_all ed)).drop (ed.lines.length - 1 + 1) = [] := by
      apply List.drop_eq_nil_of_le
      simp only [texts, List.length_map]
      show ed.lines.length ≤ _
      omega
    rw [hd]
    show List.take 0 _ ++ [List.take 0 _ ++ List.drop _ (deref ed.lines _).data] ++ [] = _
    rw [hlen, List.drop_length]
    rfl
  refine ⟨ht, ?_, ?_, h4, h5, h7⟩
  · unfold texts at ht
    unfold contents
    cases hls : (delete_selection (select_all ed)).lines with
    | nil => simp [hls] at ht
    | cons l rest =>
      rw [hls] at ht
      simp only [List.map_cons, List.cons.injEq, List.map_eq_nil_iff] at ht
      obtain ⟨hd, hr⟩ := ht
      subst hr
      have hl0 := h8 l (by rw [hls]; simp)
      simp [hd, hl0]
  · rw [h3]
    show ed.total_lines - (ed.lines.length - 1 - 0) = 1
    omega

/-- The select-all-then-delete property applied to `sample_selected`. -/
theorem select_all_delete_selection_witness :
    texts (delete_selection (select_all sample_selected)) = [[]] ∧
    (delete_selection (select_all sample_selected)).total_lines = 1 :=
  have h := select_all_delete_selection sample_selected (by decide) (by decide)
  ⟨h.1, h.2.2.1⟩

/-! ## C9: what `copy_selection` stores -/

theorem copy_loop_tail (sy sx ey ex n : Nat) (hne : sy ≠ ey) :
    ∀ (k i : Nat) (ls : List Line), 1 ≤ i → i + k = n - 1 → k < ls.length →
      copy_loop sy sx ey ex n i ls =
        (ls.take k).map Line.data ++ [(deref ls k).data.take ex] := by
  intro k
  induction k with
  | zero =>
    intro i ls hi hik hk
    cases ls with
    | nil => simp at hk
    | cons l rest =>
      unfold copy_loop
      rw [if_pos (by omega)]
      have hfrag : copy_fragment sy sx ey ex n i l = l.data.take ex := by
        unfold copy_fragment
        rw [if_neg hne, if_neg (by omega), if_pos (by omega)]
      rw [hfrag]
      have hrest : copy_loop sy sx ey ex n (i + 1) rest = [] := by
        cases rest with
        | nil => rfl
        | cons l2 rest2 =>
          unfold copy_loop
          rw [if_neg (by omega)]
      rw [hrest]
      simp [deref]
  | succ k ih =>
    intro i ls hi hik hk
    cases ls with
    | nil => simp at hk
    | cons l rest =>
      unfold copy_loop
      rw [if_pos (by omega)]
      have hfrag : copy_fragment sy sx ey ex n i l = l.data := by
        unfold copy_fragment
        rw [if_neg hne, if_neg (by omega), if_neg (by omega)]
      rw [hfrag, ih (i + 1) rest (by omega) (by omega) (by simpa using hk)]
      simp [deref]

theorem copy_loop_single (y sx ex : Nat) (l : Line) (rest : List Line) :
    copy_loop y sx y ex 1 0 (l :: rest) = [(l.data.drop sx).take (ex - sx)] := by
  unfold copy_loop
  rw [if_pos (by omega)]
  have hrest : copy_loop y sx y ex 1 (0 + 1) rest = [] := by
    cases rest with
    | nil => rfl
    | cons l2 rest2 =>
      unfold copy_loop
      rw [if_neg (by omega)]
  rw [hrest]
  simp [copy_fragment]

theorem deref_drop (ls : List Line) (a b : Nat) : deref (ls.drop a) b = deref ls (a + b) := by
  unfold deref
  rw [List.getD_eq_getElem?_getD, List.getD_eq_getElem?_getD, List.getElem?_drop]

theorem copy_selection_clipboard (ed : Editor) (loy lox hiy hix : Nat)
    (hact : ed.sel_active = true)
    (hn : normalize ed.sel_start_y ed.sel_start_x ed.sel_end_y ed.sel_end_x =
      ((loy, lox), (hiy, hix))) :
    (copy_selection ed).clipboard =
      copy_loop loy lox hiy hix (hiy - loy + 1) 0 (ed.lines.drop loy) := by
  unfold copy_selection
  rw [if_neg (by simp [hact])]
  dsimp only
  rw [hn]
  rfl

theorem merge_rows {α : Type} (A B : List α) (a b m : α) :
    ((A ++ a :: b :: B).set A.length m).eraseIdx (A.length + 1) = A ++ m :: B := by
  induction A with
  | nil => rfl
  | cons x A ih => simpa using ih

theorem deref_append_zero (A : List Line) (a : Line) (B : List Line) :
    deref (A ++ a :: B) A.length = a := by
  unfold deref
  rw [List.getD_append_right _ _ _ _ (Nat.le_refl _)]
  simp

theorem deref_append_one (A : List Line) (a b : Line) (B : List Line) :
    deref (A ++ a :: b :: B) (A.length + 1) = b := by
  unfold deref
  rw [List.getD_append_right _ _ _ _ (Nat.le_succ _)]
  simp

theorem newline_split_lines (ed : Editor) (hk : ed.current_line < ed.lines.length) :
    (newline_split ed).lines =
      ed.lines.take ed.current_line ++
        { deref ed.lines ed.current_line with
          data := (deref ed.lines ed.current_line).data.take ed.cursor_x
          len := ed.cursor_x } ::
        { data := (deref ed.lines ed.current_line).data.drop ed.cursor_x
          len := (deref ed.lines ed.current_line).len - ed.cursor_x
          capacity := 128 } :: ed.lines.drop (ed.current_line + 1) := by
  unfold newline_split
  dsimp only
  rw [take_succ_set _ _ _ hk]
  simp

theorem backspace_edit_merge (ed : Editor) (A B : List Line) (a b : Line)
    (hl : ed.lines = A ++ a :: b :: B) (hk : ed.current_line = A.length + 1)
    (hx : ed.cursor_x = 0) (hy : 0 < ed.cursor_y) :
    (backspace_edit ed).lines =
      A ++ { data := a.data ++ b.data
             len := a.len + b.len
             capacity := grow_capacity (a.len + b.len + 1) a.capacity } :: B ∧
    (backspace_edit ed).cursor_x = a.len ∧
    (backspace_edit ed).cursor_y = ed.cursor_y - 1 ∧
    (backspace_edit ed).current_line = A.length ∧
    (backspace_edit ed).total_lines = ed.total_lines - 1 := by
  unfold backspace_edit
  rw [if_neg (by omega), if_pos hy]
  dsimp only
  rw [hl, hk]
  simp only [Nat.add_sub_cancel, deref_append_zero, deref_append_one, merge_rows]
  exact ⟨trivial, trivial, trivial, trivial, trivial⟩

/-- Within the 128 bytes of the new node: with no active selection, the
cursor at a valid position `(row, pos)` of a line whose recorded length
matches its text, and fewer than 128 characters after the cursor,
`insert_newline` followed by `backspace_char` gives back the text and the
recorded length of every line, the number of lines, `total_lines`, and the
cursor `(row, pos)`. -/
theorem newline_backspace_roundtrip (ed : Editor)
    (hsel : ed.sel_active = false)
    (hcur : ed.current_line = ed.cursor_y)
    (hy : ed.cursor_y < ed.lines.length)
    (hx : ed.cursor_x ≤ (deref ed.lines ed.cursor_y).len)
    (hlen : (deref ed.lines ed.cursor_y).len = (deref ed.lines ed.cursor_y).data.length)
    (_hfit : (deref ed.lines ed.cursor_y).len - ed.cursor_x < 128) :
    contents (backspace_char (insert_newline ed)) = contents ed ∧
    (backspace_char (insert_newline ed)).lines.length = ed.lines.length ∧
    (backspace_char (insert_newline ed)).total_lines = ed.total_lines ∧
    (backspace_char (insert_newline ed)).cursor_y = ed.cursor_y ∧
    (backspace_char (insert_newline ed)).cursor_x = ed.cursor_x ∧
    (backspace_char (insert_newline ed)).current_line = ed.current_line := by
  have hk : ed.current_line < ed.lines.length := by rw [hcur]; exact hy
  have h1 : insert_newline ed = newline_split (save_undo ed) := by
    unfold insert_newline
    dsimp only
    rw [if_neg (by simp [hsel])]
  have hl1 := newline_split_lines (save_undo ed) hk
  simp only [save_undo_lines, save_undo_current, save_undo_cursor_x] at hl1
  have hA : (ed.lines.take ed.current_line).length = ed.current_line := by
    rw [List.length_take]
    exact Nat.min_eq_left (Nat.le_of_lt hk)
  have h2 : backspace_char (insert_newline ed) =
      backspace_edit (save_undo (newline_split (save_undo ed))) := by
    rw [h1]
    unfold backspace_char
    dsimp only
    rw [if_neg]
    show ¬ (ed.sel_active = true)
    simp [hsel]
  obtain ⟨m1, m2, m3, m4, m5⟩ :=
    backspace_edit_merge (save_undo (newline_split (save_undo ed))) _ _ _ _ hl1
      (by rw [hA]; rfl) rfl (by show 0 < ed.cursor_y + 1; omega)
  rw [h2]
  have hsplit := split_at_row ed.lines ed.current_line hk
  rw [← hcur] at hx hlen
  refine ⟨?_, ?_, ?_, ?_, ?_, ?_⟩
  · unfold contents
    rw [m1]
    conv_rhs => rw [hsplit]
    simp only [List.map_append, List.map_cons, List.take_append_drop]
    congr 2
    simp only [Prod.mk.injEq]
    exact ⟨trivial, by omega⟩
  · rw [m1]
    conv_rhs => rw [hsplit]
    simp
  · rw [m5]
    show ed.total_lines + 1 - 1 = ed.total_lines
    omega
  · rw [m3]
    show ed.cursor_y + 1 - 1 = ed.cursor_y
    omega
  · rw [m2]
  · rw [m4, hA]

/-- The round trip applied to the document "hello", "world" with the cursor
at (1, 2) and no selection. -/
theorem newline_backspace_roundtrip_witness :
    contents (backspace_char (insert_newline
        (mk_editor ["hello".toList, "world".toList] 1 2))) =
      contents (mk_editor ["hello".toList, "world".toList] 1 2) ∧
    (backspace_char (insert_newline
        (mk_editor ["hello".toList, "world".toList] 1 2))).cursor_x = 2 :=
  have h := newline_backspace_roundtrip (mk_editor ["hello".toList, "world".toList] 1 2)
    rfl rfl (by decide) (by decide) (by decide) (by decide)
  ⟨h.1, h.2.2.2.2.1⟩

/-! ## Undoing a run of checkpointing edits -/

theorem delete_selection_undo_stack (ed : Editor) :
    (delete_selection ed).undo_stack = ed.undo_stack := by
  unfold delete_selection
  split
  · rfl
  · unfold delete_span
    dsimp only
    split <;> rfl

theorem backspace_edit_undo_stack (ed : Editor) :
    (backspace_edit ed).undo_stack = ed.undo_stack := by
  unfold backspace_edit
  split
  · rfl
  · split <;> rfl

theorem delete_edit_undo_stack (ed : Editor) :
    (delete_edit ed).undo_stack = ed.undo_stack := by
  unfold delete_edit
  dsimp only
  split
  · rfl
  · split <;> rfl

theorem apply_edit_undo_stack (ed : Editor) (e : CheckpointEdit) :
    (apply_edit ed e).undo_stack = (save_undo ed).undo_stack := by
  cases e with
  | backspace =>
    show (backspace_char ed).undo_stack = _
    unfold backspace_char
    dsimp only
    split
    · exact delete_selection_undo_stack _
    · exact backspace_edit_undo_stack _
  | delete =>
    show (delete_char ed).undo_stack = _
    unfold delete_char
    dsimp only
    split
    · exact delete_selection_undo_stack _
    · exact delete_edit_undo_stack _
  | newline =>
    show (insert_newline ed).undo_stack = _
    unfold insert_newline
    dsimp only
    split
    · show (delete_selection (save_undo ed)).undo_stack = _
      exact delete_selection_undo_stack _
    · rfl

theorem save_undo_push (ed : Editor) (h : ed.undo_stack.length < MAX_UNDO) :
    (save_undo ed).undo_stack = ed.undo_stack ++ [snapshot_of ed] := by
  rw [save_undo_stack, if_neg (by omega)]

theorem apply_edits_undo_stack (ops : List CheckpointEdit) :
    ∀ ed : Editor, ed.undo_stack.length + ops.length ≤ MAX_UNDO →
      ∃ rest, (apply_edits ed ops).undo_stack = ed.undo_stack ++ rest ∧
        rest.length = ops.length ∧ (ops ≠ [] → rest.head? = some (snapshot_of ed)) := by
  induction ops with
  | nil =>
    intro ed _
    exact ⟨[], by simp [apply_edits], rfl, fun h => absurd rfl h⟩
  | cons e ops ih =>
    intro ed hlen
    simp only [List.length_cons] at hlen
    have hpush : (apply_edit ed e).undo_stack = ed.undo_stack ++ [snapshot_of ed] := by
      rw [apply_edit_undo_stack, save_undo_push ed (by omega)]
    obtain ⟨rest, h1, h2, _⟩ := ih (apply_edit ed e) (by
      rw [hpush, List.length_append, List.length_singleton]
      omega)
    refine ⟨snapshot_of ed :: rest, ?_, ?_, fun _ => rfl⟩
    · show (apply_edits (apply_edit ed e) ops).undo_stack = _
      rw [h1, hpush]
      simp
    · simp [h2]

theorem perform_undo_empty (ed : Editor) (h : ed.undo_stack = []) :
    perform_undo ed = set_message ed "Undo: Nothing to undo" := by
  unfold perform_undo
  rw [h]
  rfl

theorem perform_undo_top (ed : Editor) (st : List Snapshot) (s : Snapshot)
    (h : ed.undo_stack = st ++ [s]) :
    (perform_undo ed).undo_stack = st ∧
    (perform_undo ed).lines = (s.lines.take s.num_lines).map restore_line ∧
    (perform_undo ed).total_lines = s.num_lines ∧
    (perform_undo ed).cursor_x = s.cursor_x ∧
    (perform_undo ed).cursor_y = s.cursor_y ∧
    (perform_undo ed).current_line = s.cursor_y := by
  unfold perform_undo
  rw [h, List.getLast?_concat]
  dsimp only
  rw [List.dropLast_concat]
  exact ⟨rfl, rfl, rfl, rfl, rfl, rfl⟩

theorem undo_times_all (n : Nat) :
    ∀ (ed : Editor) (s : Snapshot) (rest : List Snapshot),
      ed.undo_stack = s :: rest → rest.length = n →
      (undo_times (n + 1) ed).undo_stack = [] ∧
      (undo_times (n + 1) ed).lines = (s.lines.take s.num_lines).map restore_line ∧
      (undo_times (n + 1) ed).total_lines = s.num_lines ∧
      (undo_times (n + 1) ed).cursor_x = s.cursor_x ∧
      (undo_times (n + 1) ed).cursor_y = s.cursor_y := by
  induction n with
  | zero =>
    intro ed s rest h hlen
    have hr : rest = [] := List.length_eq_zero.mp hlen
    subst hr
    obtain ⟨h1, h2, h3, h4, h5, _⟩ := perform_undo_top ed [] s (by simpa using h)
    exact ⟨h1, h2, h3, h4, h5⟩
  | succ n ih =>
    intro ed s rest h hlen
    have hne : rest ≠ [] := by
      intro hnil
      rw [hnil] at hlen
      simp at hlen
    have hst : ed.undo_stack = (s :: rest.dropLast) ++ [rest.getLast hne] := by
      rw [h, List.cons_append, List.dropLast_append_getLast hne]
    obtain ⟨h1, _⟩ := perform_undo_top ed _ _ hst
    show (undo_times (n + 1) (perform_undo ed)).undo_stack = [] ∧ _
    exact ih (perform_undo ed) s rest.dropLast h1 (by
      rw [List.length_dropLast]
      omega)

theorem restore_texts (ed : Editor) (h : ed.total_lines = ed.lines.length) :
    (((snapshot_of ed).lines.take (snapshot_of ed).num_lines).map restore_line).map Line.data =
      ed.lines.map Line.data := by
  simp only [snapshot_of, h, List.take_length, List.map_map]
  have hl : (ed.lines.map Line.data).length = ed.lines.length := List.length_map _ _
  rw [← hl, List.take_length, List.map_map]
  apply List.map_congr_left
  intro l _
  rfl

/-- Within the bounds of the edits: from a state with an empty undo stack
whose `total_lines` counts its lines, with no active selection, the cursor
at a valid position, every string matching its recorded length and inside
its buffer, and a document of fewer than 128 characters in all (so that no
split can hand 128 characters to a new node), after any sequence of at most
100 edits drawn from `backspace_char`, `delete_char` and `insert_newline`,
calling `perform_undo` once per edit gives back the original line texts,
line count and cursor `(row, column)`; one more `perform_undo` leaves lines
and cursor as they are and sets the message to "Undo: Nothing to undo". -/
theorem undo_restores_original (ed : Editor) (ops : List CheckpointEdit)
    (_hsel : ed.sel_active = false) (_hcur : ed.current_line = ed.cursor_y)
    (_hc : CursorOK ed) (_hl : LensOK ed) (_hcap : CapacityOK ed)
    (_hshort : ((texts ed).map List.length).sum < 128)
    (h0 : ed.undo_stack = []) (ht : ed.total_lines = ed.lines.length)
    (hn : ops.length ≤ MAX_UNDO) :
    texts (undo_times ops.length (apply_edits ed ops)) = texts ed ∧
    (undo_times ops.length (apply_edits ed ops)).total_lines = ed.total_lines ∧
    (undo_times ops.length (apply_edits ed ops)).cursor_y = ed.cursor_y ∧
    (undo_times ops.length (apply_edits ed ops)).cursor_x = ed.cursor_x ∧
    (perform_undo (undo_times ops.length (apply_edits ed ops))).lines =
      (undo_times ops.length (apply_edits ed ops)).lines ∧
    (perform_undo (undo_times ops.length (apply_edits ed ops))).cursor_y =
      (undo_times ops.length (apply_edits ed ops)).cursor_y ∧
    (perform_undo (undo_times ops.length (apply_edits ed ops))).cursor_x =
      (undo_times ops.length (apply_edits ed ops)).cursor_x ∧
    (perform_undo (undo_times ops.length (apply_edits ed ops))).message =
      "Undo: Nothing to undo" := by
  have hempty : (undo_times ops.length (apply_edits ed ops)).undo_stack = [] ∧
      texts (undo_times ops.length (apply_edits ed ops)) = texts ed ∧
      (undo_times ops.length (apply_edits ed ops)).total_lines = ed.total_lines ∧
      (undo_times ops.length (apply_edits ed ops)).cursor_y = ed.cursor_y ∧
      (undo_times ops.length (apply_edits ed ops)).cursor_x = ed.cursor_x := by
    cases ops with
    | nil => exact ⟨h0, rfl, rfl, rfl, rfl⟩
    | cons e ops =>
      obtain ⟨rest, h1, h2, h3⟩ := apply_edits_undo_stack (e :: ops) ed (by
        rw [h0]
        simpa using hn)
      rw [h0, List.nil_append] at h1
      cases rest with
      | nil => simp at h2
      | cons s rest =>
        have hs : s = snapshot_of ed := by
          have := h3 (by simp)
          simpa using this
        subst hs
        obtain ⟨u1, u2, u3, u4, u5⟩ :=
          undo_times_all ops.length (apply_edits ed (e :: ops)) (snapshot_of ed) rest h1
            (by simpa using h2)
        refine ⟨u1, ?_, u3, u5, u4⟩
        unfold texts
        show List.map Line.data (undo_times (ops.length + 1) (apply_edits ed (e :: ops))).lines = _
        rw [u2]
        exact restore_texts ed ht
  obtain ⟨e1, e2, e3, e4, e5⟩ := hempty
  rw [perform_undo_empty _ e1]
  exact ⟨e2, e3, e4, e5, rfl, rfl, rfl, rfl⟩

/-- The undo property applied to "hello", "world" with the cursor at (1, 2):
a newline, two backspaces and a delete, then four undos. -/
theorem undo_restores_original_witness :
    texts (undo_times 4 (apply_edits (mk_editor ["hello".toList, "world".toList] 1 2)
        [CheckpointEdit.newline, CheckpointEdit.backspace, CheckpointEdit.backspace,
          CheckpointEdit.delete])) =
      texts (mk_editor ["hello".toList, "world".toList] 1 2) ∧
    (undo_times 4 (apply_edits (mk_editor ["hello".toList, "world".toList] 1 2)
        [CheckpointEdit.newline, CheckpointEdit.backspace, CheckpointEdit.backspace,
          CheckpointEdit.delete])).cursor_x = 2 :=
  have h := undo_restores_original (mk_editor ["hello".toList, "world".toList] 1 2)
    [CheckpointEdit.newline, CheckpointEdit.backspace, CheckpointEdit.backspace,
      CheckpointEdit.delete] rfl rfl (by decide) (by decide) (by decide) (by decide)
    rfl rfl (by decide)
  ⟨h.1, h.2.2.2.1⟩

/-! ## C11: merges and their boundaries -/

theorem delete_edit_merge (ed : Editor) (A B : List Line) (a b : Line)
    (hl : ed.lines = A ++ a :: b :: B) (hk : ed.current_line = A.length)
    (hx : ¬ ed.cursor_x < a.len) :
    (delete_edit ed).lines =
      A ++ { data := a.data ++ b.data
             len := a.len + b.len
             capacity := grow_capacity (a.len + b.len + 1) a.capacity } :: B ∧
    (delete_edit ed).cursor_x = ed.cursor_x ∧
    (delete_edit ed).cursor_y = ed.cursor_y ∧
    (delete_edit ed).current_line = ed.current_line ∧
    (delete_edit ed).total_lines = ed.total_lines - 1 := by
  unfold delete_edit
  dsimp only
  rw [hl, hk, deref_append_zero, if_neg hx, if_pos (by simp)]
  dsimp only
  rw [deref_append_one, merge_rows]
  exact ⟨rfl, rfl, rfl, rfl, rfl⟩

theorem two_rows (ls : List Line) (y : Nat) (h : y + 1 < ls.length) :
    ls = ls.take y ++ deref ls y :: deref ls (y + 1) :: ls.drop (y + 2) := by
  have h1 := split_at_row ls y (by omega)
  have h2 := split_at_row (ls.drop (y + 1)) 0 (by simp only [List.length_drop]; omega)
  rw [deref_drop, List.take_zero, List.nil_append, List.drop_drop] at h2
  rw [← h2]
  exact h1

theorem backspace_char_inactive (ed : Editor) (h : ed.sel_active = false) :
    backspace_char ed = backspace_edit (save_undo ed) := by
  unfold backspace_char
  dsimp only
  rw [if_neg]
  show ¬ (ed.sel_active = true)
  simp [h]

theorem delete_char_inactive (ed : Editor) (h : ed.sel_active = false) :
    delete_char ed = delete_edit (save_undo ed) := by
  unfold delete_char
  dsimp only
  rw [if_neg]
  show ¬ (ed.sel_active = true)
  simp [h]

/-- C11: with no active selection and `current_line` at the cursor row,
`backspace_char` at (0, 0) and `delete_char` at the end of the last line
leave the lines, `total_lines` and the cursor as they are; `backspace_char`
at column 0 of a row `y > 0` replaces rows `y - 1` and `y` by their
concatenation, and `delete_char` at the end of a row `y` that has a
successor replaces rows `y` and `y + 1` by their concatenation; either merge
shortens the list and `total_lines` by exactly one. -/
theorem merge_boundaries (ed : Editor) (hsel : ed.sel_active = false)
    (hcur : ed.current_line = ed.cursor_y) (hy : ed.cursor_y < ed.lines.length) :
    (ed.cursor_x = 0 → ed.cursor_y = 0 →
      (backspace_char ed).lines = ed.lines ∧
      (backspace_char ed).total_lines = ed.total_lines ∧
      (backspace_char ed).cursor_y = ed.cursor_y ∧
      (backspace_char ed).cursor_x = ed.cursor_x) ∧
    (ed.cursor_x = (deref ed.lines ed.cursor_y).len → ed.cursor_y + 1 = ed.lines.length →
      (delete_char ed).lines = ed.lines ∧
      (delete_char ed).total_lines = ed.total_lines ∧
      (delete_char ed).cursor_y = ed.cursor_y ∧
      (delete_char ed).cursor_x = ed.cursor_x) ∧
    (ed.cursor_x = 0 → 0 < ed.cursor_y →
      texts (backspace_char ed) =
        (texts ed).take (ed.cursor_y - 1) ++
          [(deref ed.lines (ed.cursor_y - 1)).data ++ (deref ed.lines ed.cursor_y).data] ++
          (texts ed).drop (ed.cursor_y + 1) ∧
      (backspace_char ed).lines.length + 1 = ed.lines.length ∧
      (backspace_char ed).total_lines = ed.total_lines - 1) ∧
    (ed.cursor_x = (deref ed.lines ed.cursor_y).len → ed.cursor_y + 1 < ed.lines.length →
      texts (delete_char ed) =
        (texts ed).take ed.cursor_y ++
          [(deref ed.lines ed.cursor_y).data ++ (deref ed.lines (ed.cursor_y + 1)).data] ++
          (texts ed).drop (ed.cursor_y + 2) ∧
      (delete_char ed).lines.length + 1 = ed.lines.length ∧
      (delete_char ed).total_lines = ed.total_lines - 1) := by
  rw [backspace_char_inactive ed hsel, delete_char_inactive ed hsel]
  refine ⟨?_, ?_, ?_, ?_⟩
  · intro hx hy0
    unfold backspace_edit
    rw [if_neg (by show ¬ (ed.cursor_x > 0); omega),
      if_neg (by show ¬ (ed.cursor_y > 0); omega)]
    exact ⟨rfl, rfl, rfl, rfl⟩
  · intro hx hlast
    unfold delete_edit
    dsimp only
    rw [if_neg (by
      show ¬ (ed.cursor_x < (deref ed.lines ed.current_line).len)
      rw [hcur]
      omega),
      if_neg (by
        show ¬ (ed.current_line + 1 < ed.lines.length)
        rw [hcur]
        omega)]
    exact ⟨rfl, rfl, rfl, rfl⟩
  · intro hx hpos
    have h2 := two_rows ed.lines (ed.cursor_y - 1) (by omega)
    have hy1 : ed.cursor_y - 1 + 1 = ed.cursor_y := by omega
    have hy2 : ed.cursor_y - 1 + 2 = ed.cursor_y + 1 := by omega
    rw [hy1, hy2] at h2
    have hA : (ed.lines.take (ed.cursor_y - 1)).length = ed.cursor_y - 1 := by
      rw [List.length_take]
      exact Nat.min_eq_left (by omega)
    obtain ⟨m1, _, _, _, m5⟩ :=
      backspace_edit_merge (save_undo ed) _ _ _ _ h2
        (by rw [hA]; show ed.current_line = _; omega) hx hpos
    refine ⟨?_, ?_, m5⟩
    · unfold texts
      rw [m1]
      simp [List.map_take, List.map_drop]
    · rw [m1]
      have hlen := congrArg List.length h2
      simp only [List.length_append, List.length_cons] at hlen ⊢
      omega
  · intro hx hnext
    have h2 := two_rows ed.lines ed.cursor_y hnext
    have hA : (ed.lines.take ed.cursor_y).length = ed.cursor_y := by
      rw [List.length_take]
      exact Nat.min_eq_left (by omega)
    obtain ⟨m1, _, _, _, m5⟩ :=
      delete_edit_merge (save_undo ed) _ _ _ _ h2
        (by rw [hA]; exact hcur) (by show ¬ (ed.cursor_x < _); omega)
    refine ⟨?_, ?_, m5⟩
    · unfold texts
      rw [m1]
      simp [List.map_take, List.map_drop]
    · rw [m1]
      have hlen := congrArg List.length h2
      simp only [List.length_append, List.length_cons] at hlen ⊢
      omega

/-- The merge property applied to "hello", "world" with the cursor at
(1, 0): backspace joins the two lines. -/
theorem merge_boundaries_witness :
    texts (backspace_char (mk_editor ["hello".toList, "world".toList] 1 0)) =
        (texts (mk_editor ["hello".toList, "world".toList] 1 0)).take (1 - 1) ++
          [(deref (mk_editor ["hello".toList, "world".toList] 1 0).lines (1 - 1)).data ++
            (deref (mk_editor ["hello".toList, "world".toList] 1 0).lines 1).data] ++
          (texts (mk_editor ["hello".toList, "world".toList] 1 0)).drop (1 + 1) ∧
      (backspace_char (mk_editor ["hello".toList, "world".toList] 1 0)).lines.length + 1 =
        (mk_editor ["hello".toList, "world".toList] 1 0).lines.length ∧
      (backspace_char (mk_editor ["hello".toList, "world".toList] 1 0)).total_lines =
        (mk_editor ["hello".toList, "world".toList] 1 0).total_lines - 1 :=
  (merge_boundaries (mk_editor ["hello".toList, "world".toList] 1 0) rfl rfl
    (by decide)).2.2.1 rfl (by decide)

/-! ## Occurrences and `strstr` -/

theorem is_prefix_of_iff_take (q s : List Char) :
    q.isPrefixOf s = true ↔ s.take q.length = q := by
  rw [List.isPrefixOf_iff_prefix, List.prefix_iff_eq_take]
  exact eq_comm

theorem occurs_zero_iff (s q : List Char) : OccursAt s q 0 ↔ q.isPrefixOf s = true := by
  rw [is_prefix_of_iff_take]
  unfold OccursAt
  rw [List.drop_zero, Nat.zero_add]
  constructor
  · exact fun h => h.1
  · intro h
    refine ⟨h, ?_⟩
    have := congrArg List.length h
    rw [List.length_take] at this
    omega

theorem occurs_cons_succ (x : Char) (s q : List Char) (c : Nat) :
    OccursAt (x :: s) q (c + 1) ↔ OccursAt s q c := by
  unfold OccursAt
  simp only [List.drop_succ_cons, List.length_cons]
  constructor
  · rintro ⟨h1, h2⟩
    exact ⟨h1, by omega⟩
  · rintro ⟨h1, h2⟩
    exact ⟨h1, by omega⟩

theorem strstr_none (q : List Char) :
    ∀ s : List Char, strstr s q = none → ∀ c, ¬ OccursAt s q c := by
  intro s
  induction s with
  | nil =>
    intro h c hocc
    unfold strstr at h
    split at h
    · cases h
    · rename_i hq
      obtain ⟨h1, h2⟩ := hocc
      simp only [List.length_nil] at h2
      exact hq (List.length_eq_zero.mp (by omega))
  | cons x rest ih =>
    intro h c hocc
    unfold strstr at h
    split at h
    · cases h
    · rename_i hp
      cases hr : strstr rest q with
      | some j => simp [hr] at h
      | none =>
        cases c with
        | zero => exact hp ((occurs_zero_iff _ _).mp hocc)
        | succ c => exact ih hr c ((occurs_cons_succ x rest q c).mp hocc)

theorem strstr_first (q : List Char) :
    ∀ (s : List Char) (i : Nat), strstr s q = some i →
      OccursAt s q i ∧ ∀ c, c < i → ¬ OccursAt s q c := by
  intro s
  induction s with
  | nil =>
    intro i h
    unfold strstr at h
    split at h
    · rename_i hq
      cases h
      subst hq
      exact ⟨by decide, fun c hc => absurd hc (Nat.not_lt_zero c)⟩
    · cases h
  | cons x rest ih =>
    intro i h
    unfold strstr at h
    split at h
    · rename_i hp
      cases h
      exact ⟨(occurs_zero_iff _ _).mpr hp, fun c hc => absurd hc (Nat.not_lt_zero c)⟩
    · rename_i hp
      cases hr : strstr rest q with
      | none => simp [hr] at h
      | some j =>
        simp [hr] at h
        subst h
        obtain ⟨h1, h2⟩ := ih j hr
        refine ⟨(occurs_cons_succ x rest q j).mpr h1, ?_⟩
        intro c hc hocc
        cases c with
        | zero => exact hp ((occurs_zero_iff _ _).mp hocc)
        | succ c => exact h2 c (by omega) ((occurs_cons_succ x rest q c).mp hocc)

theorem occurs_drop (s q : List Char) (lo c : Nat) (hlo : lo ≤ s.length) :
    OccursAt (s.drop lo) q c ↔ OccursAt s q (lo + c) := by
  unfold OccursAt
  rw [List.drop_drop, List.length_drop]
  constructor
  · rintro ⟨h1, h2⟩
    exact ⟨h1, by omega⟩
  · rintro ⟨h1, h2⟩
    exact ⟨h1, by omega⟩

theorem occurs_drop_of_ne (s q : List Char) (lo c : Nat) (hq : q ≠ []) :
    OccursAt (s.drop lo) q c ↔ OccursAt s q (lo + c) := by
  by_cases hlo : lo ≤ s.length
  · exact occurs_drop s q lo c hlo
  · have hpos : 0 < q.length := List.length_pos.mpr hq
    unfold OccursAt
    rw [List.length_drop]
    constructor
    · rintro ⟨_, h2⟩
      omega
    · rintro ⟨_, h2⟩
      omega

theorem strstr_from_some (s q : List Char) (lo i : Nat) (hq : q ≠ [])
    (h : strstr (s.drop lo) q = some i) : FirstOccFrom s q lo (lo + i) := by
  obtain ⟨h1, h2⟩ := strstr_first q _ i h
  refine ⟨by omega, (occurs_drop_of_ne s q lo i hq).mp h1, ?_⟩
  intro c hc1 hc2 hocc
  have hc : c = lo + (c - lo) := by omega
  rw [hc] at hocc
  exact h2 (c - lo) (by omega) ((occurs_drop_of_ne s q lo (c - lo) hq).mpr hocc)

theorem strstr_from_none (s q : List Char) (lo : Nat) (hq : q ≠ [])
    (h : strstr (s.drop lo) q = none) : NoOccFrom s q lo := by
  intro c hc hocc
  have hc1 : c = lo + (c - lo) := by omega
  rw [hc1] at hocc
  exact strstr_none q _ h (c - lo) ((occurs_drop_of_ne s q lo (c - lo) hq).mpr hocc)

theorem strstr_of_occurs (s q : List Char) (c : Nat) (h : OccursAt s q c) :
    ∃ i, strstr s q = some i := by
  cases hs : strstr s q with
  | none => exact absurd h (strstr_none q s hs c)
  | some i => exact ⟨i, rfl⟩

theorem first_occ_unique (s q : List Char) (lo c d : Nat)
    (h1 : FirstOccFrom s q lo c) (h2 : FirstOccFrom s q lo d) : c = d := by
  obtain ⟨a1, a2, a3⟩ := h1
  obtain ⟨b1, b2, b3⟩ := h2
  rcases Nat.lt_trichotomy c d with h | h | h
  · exact absurd a2 (b3 c a1 h)
  · exact h
  · exact absurd b2 (a3 d b1 h)

theorem deref_cons_succ (l : Line) (ls : List Line) (j : Nat) :
    deref (l :: ls) (j + 1) = deref ls j := rfl

theorem find_in_lines_some (q : List Char) :
    ∀ (ls : List Line) (j col : Nat), find_in_lines q ls = some (j, col) →
      j < ls.length ∧ strstr (deref ls j).data q = some col ∧
      ∀ k, k < j → strstr (deref ls k).data q = none := by
  intro ls
  induction ls with
  | nil => intro j col h; simp [find_in_lines] at h
  | cons l rest ih =>
    intro j col h
    unfold find_in_lines at h
    split at h
    · rename_i c hc
      simp only [Option.some.injEq, Prod.mk.injEq] at h
      obtain ⟨rfl, rfl⟩ := h
      exact ⟨by simp, hc, fun k hk => absurd hk (Nat.not_lt_zero k)⟩
    · rename_i hn
      cases hr : find_in_lines q rest with
      | none => simp [hr] at h
      | some p =>
        obtain ⟨j0, c0⟩ := p
        simp only [hr, Option.map_some', Option.some.injEq, Prod.mk.injEq] at h
        obtain ⟨rfl, rfl⟩ := h
        obtain ⟨h1, h2, h3⟩ := ih j0 c0 hr
        refine ⟨by simpa using h1, by rw [deref_cons_succ]; exact h2, ?_⟩
        intro k hk
        cases k with
        | zero => exact hn
        | succ k => rw [deref_cons_succ]; exact h3 k (by omega)

theorem find_in_lines_none (q : List Char) :
    ∀ ls : List Line, find_in_lines q ls = none →
      ∀ k, k < ls.length → strstr (deref ls k).data q = none := by
  intro ls
  induction ls with
  | nil => intro _ k hk; simp at hk
  | cons l rest ih =>
    intro h k hk
    unfold find_in_lines at h
    split at h
    · cases h
    · rename_i hn
      cases hr : find_in_lines q rest with
      | some p => simp [hr] at h
      | none =>
        cases k with
        | zero => exact hn
        | succ k => rw [deref_cons_succ]; exact ih hr k (by simpa using hk)

theorem deref_take (ls : List Line) (n k : Nat) (h : k < n) :
    deref (ls.take n) k = deref ls k := by
  unfold deref
  rw [List.getD_eq_getElem?_getD, List.getD_eq_getElem?_getD, List.getElem?_take, if_pos h]

theorem count_loop_pos (q s : List Char) (i n : Nat) (h : strstr s q = some i) :
    0 < count_loop (n + 1) s q := by
  unfold count_loop
  simp only [h]
  omega

theorem count_occurrences_pos (q : List Char) (ls : List Line) (k i : Nat)
    (hk : k < ls.length) (h : strstr (deref ls k).data q = some i) :
    count_occurrences ls q ≠ 0 := by
  unfold count_occurrences
  have hmem := deref_mem ls k hk
  have hpos := count_loop_pos q (deref ls k).data i (deref ls k).data.length h
  have hle : count_loop ((deref ls k).data.length + 1) (deref ls k).data q ≤
      (ls.map (fun l => count_loop (l.data.length + 1) l.data q)).sum :=
    List.single_le_sum (fun _ _ => Nat.zero_le _) _
      (List.mem_map.mpr ⟨deref ls k, hmem, rfl⟩)
  omega

theorem search_text_found (ed : Editor) (q : List Char) (node row col : Nat)
    (hq : q ≠ []) (hc : count_occurrences ed.lines q ≠ 0)
    (h : search_locate ed q = some (node, row, col)) :
    search_text ed q =
      search_found (set_message ed ("Topildi: " ++ toString (count_occurrences ed.lines q) ++
        " ta")) node row col q := by
  unfold search_text
  rw [if_neg (by simpa using hq)]
  dsimp only
  rw [if_neg hc]
  have h1 : search_locate (set_message ed ("Topildi: " ++
      toString (count_occurrences ed.lines q) ++ " ta")) q = search_locate ed q := rfl
  rw [h1, h]

theorem search_text_not_found (ed : Editor) (q : List Char)
    (h : search_locate ed q = none) :
    selection (search_text ed q) = selection ed ∧
    (search_text ed q).cursor_y = ed.cursor_y ∧
    (search_text ed q).cursor_x = ed.cursor_x ∧
    (search_text ed q).current_line = ed.current_line ∧
    (search_text ed q).lines = ed.lines := by
  unfold search_text
  split
  · exact ⟨rfl, rfl, rfl, rfl, rfl⟩
  · dsimp only
    split
    · exact ⟨rfl, rfl, rfl, rfl, rfl⟩
    · have h1 : search_locate (set_message ed ("Topildi: " ++
          toString (count_occurrences ed.lines q) ++ " ta")) q = search_locate ed q := rfl
      rw [h1, h]
      exact ⟨rfl, rfl, rfl, rfl, rfl⟩

/-- Facts about the place `search_locate` returns, on a state whose
`current_line` is the node at the cursor row. -/
theorem search_locate_some (ed : Editor) (q : List Char) (node row col : Nat)
    (hcur : ed.current_line = ed.cursor_y) (hy : ed.cursor_y < ed.lines.length)
    (h : search_locate ed q = some (node, row, col)) :
    node = row ∧ row < ed.lines.length ∧
    ((row = ed.cursor_y ∧
        strstr ((deref ed.lines ed.cursor_y).data.drop (ed.cursor_x + 1)) q =
          some (col - (ed.cursor_x + 1)) ∧ ed.cursor_x + 1 ≤ col) ∨
      (strstr ((deref ed.lines ed.cursor_y).data.drop (ed.cursor_x + 1)) q = none ∧
        ed.cursor_y < row ∧ strstr (deref ed.lines row).data q = some col ∧
        ∀ k, ed.cursor_y < k → k < row → strstr (deref ed.lines k).data q = none) ∨
      (strstr ((deref ed.lines ed.cursor_y).data.drop (ed.cursor_x + 1)) q = none ∧
        (∀ k, ed.cursor_y < k → k < ed.lines.length →
          strstr (deref ed.lines k).data q = none) ∧
        row < ed.cursor_y ∧ strstr (deref ed.lines row).data q = some col ∧
        ∀ k, k < row → strstr (deref ed.lines k).data q = none)) := by
  unfold search_locate at h
  dsimp only at h
  rw [hcur] at h
  split at h
  · rename_i i hi
    simp only [Option.some.injEq, Prod.mk.injEq] at h
    obtain ⟨rfl, rfl, rfl⟩ := h
    refine ⟨rfl, hy, Or.inl ⟨rfl, ?_, by omega⟩⟩
    rw [hi]
    congr 1
    omega
  · rename_i hn1
    split at h
    · rename_i j c hj
      simp only [Option.some.injEq, Prod.mk.injEq] at h
      obtain ⟨rfl, rfl, rfl⟩ := h
      obtain ⟨f1, f2, f3⟩ := find_in_lines_some q _ j c hj
      rw [List.length_drop] at f1
      rw [deref_drop] at f2
      refine ⟨rfl, by omega, Or.inr (Or.inl ⟨hn1, by omega, f2, ?_⟩)⟩
      intro k hk1 hk2
      have := f3 (k - (ed.cursor_y + 1)) (by omega)
      rw [deref_drop] at this
      have hk : ed.cursor_y + 1 + (k - (ed.cursor_y + 1)) = k := by omega
      rw [hk] at this
      exact this
    · rename_i hn2
      split at h
      · rename_i j c hj
        simp only [Option.some.injEq, Prod.mk.injEq] at h
        obtain ⟨rfl, rfl, rfl⟩ := h
        obtain ⟨f1, f2, f3⟩ := find_in_lines_some q _ j c hj
        rw [List.length_take] at f1
        have hlt : j < ed.cursor_y := by omega
        rw [deref_take _ _ _ hlt] at f2
        refine ⟨rfl, by omega, Or.inr (Or.inr ⟨hn1, ?_, hlt, f2, ?_⟩)⟩
        · intro k hk1 hk2
          have := find_in_lines_none q _ hn2 (k - (ed.cursor_y + 1))
            (by rw [List.length_drop]; omega)
          rw [deref_drop] at this
          have hk : ed.cursor_y + 1 + (k - (ed.cursor_y + 1)) = k := by omega
          rw [hk] at this
          exact this
        · intro k hk
          have := f3 k hk
          rw [deref_take _ _ _ (by omega)] at this
          exact this
      · cases h

theorem search_locate_none (ed : Editor) (q : List Char)
    (hcur : ed.current_line = ed.cursor_y) (hy : ed.cursor_y < ed.lines.length)
    (h : search_locate ed q = none) :
    strstr ((deref ed.lines ed.cursor_y).data.drop (ed.cursor_x + 1)) q = none ∧
    ∀ k, k < ed.lines.length → k ≠ ed.cursor_y → strstr (deref ed.lines k).data q = none := by
  unfold search_locate at h
  dsimp only at h
  rw [hcur] at h
  split at h
  · cases h
  · rename_i hn1
    split at h
    · cases h
    · rename_i hn2
      split at h
      · cases h
      · rename_i hn3
        refine ⟨hn1, ?_⟩
        intro k hk hne
        by_cases hlt : k < ed.cursor_y
        · have := find_in_lines_none q _ hn3 k (by rw [List.length_take]; omega)
          rw [deref_take _ _ _ hlt] at this
          exact this
        · have := find_in_lines_none q _ hn2 (k - (ed.cursor_y + 1))
            (by rw [List.length_drop]; omega)
          rw [deref_drop] at this
          have hk1 : ed.cursor_y + 1 + (k - (ed.cursor_y + 1)) = k := by omega
          rw [hk1] at this
          exact this

theorem strstr_zero_some (s q : List Char) (c : Nat) (hq : q ≠ [])
    (h : strstr s q = some c) : FirstOccFrom s q 0 c := by
  have := strstr_from_some s q 0 c hq (by rw [List.drop_zero]; exact h)
  rwa [Nat.zero_add] at this

theorem strstr_zero_none (s q : List Char) (hq : q ≠ [])
    (h : strstr s q = none) : NoOccFrom s q 0 :=
  strstr_from_none s q 0 hq (by rw [List.drop_zero]; exact h)

theorem occ_conflict (s q : List Char) (lo c : Nat)
    (h1 : FirstOccFrom s q lo c) (h2 : NoOccFrom s q lo) : False :=
  h2 c h1.1 h1.2.1

/-- What a successful search leaves, on a state whose `current_line` is the
node at the cursor row. -/
theorem search_result (ed : Editor) (q : List Char) (node r c : Nat)
    (hq : q ≠ []) (hcur : ed.current_line = ed.cursor_y) (hy : ed.cursor_y < ed.lines.length)
    (hfind : search_locate ed q = some (node, r, c)) :
    r < ed.lines.length ∧
    OccursAt (deref ed.lines r).data q c ∧
    selection (search_text ed q) = (true, (r, c), (r, c + q.length)) ∧
    (search_text ed q).cursor_y = r ∧
    (search_text ed q).cursor_x = c ∧
    (search_text ed q).current_line = r ∧
    (search_text ed q).lines = ed.lines := by
  obtain ⟨hnode, hr, hcase⟩ := search_locate_some ed q node r c hcur hy hfind
  subst hnode
  have hocc : OccursAt (deref ed.lines node).data q c := by
    rcases hcase with ⟨h1, h2, h3⟩ | ⟨_, _, h2, _⟩ | ⟨_, _, _, h2, _⟩
    · have := (strstr_from_some _ q _ _ hq h2).2.1
      have hc : ed.cursor_x + 1 + (c - (ed.cursor_x + 1)) = c := by omega
      rw [hc, ← h1] at this
      exact this
    · exact (strstr_zero_some _ q c hq h2).2.1
    · exact (strstr_zero_some _ q c hq h2).2.1
  obtain ⟨i, hi⟩ := strstr_of_occurs _ q c hocc
  have hcount := count_occurrences_pos q ed.lines node i hr hi
  rw [search_text_found ed q node node c hq hcount hfind]
  exact ⟨hr, hocc, rfl, rfl, rfl, rfl, rfl⟩

/-! ## C13: what a successful search selects -/

/-- C13, as stated, fails on the document "foo bar", "baz foo" with the
cursor at (0, 0) and the query "foo": the match found is at (1, 4), and the
cursor is left at (1, 4), not at the end (1, 7) of the matched span. -/
theorem search_cursor_not_at_match_end :
    search_locate (mk_editor ["foo bar".toList, "baz foo".toList] 0 0) "foo".toList =
      some (1, 1, 4) ∧
    ¬ ((search_text (mk_editor ["foo bar".toList, "baz foo".toList] 0 0)
          "foo".toList).cursor_y = 1 ∧
       (search_text (mk_editor ["foo bar".toList, "baz foo".toList] 0 0)
          "foo".toList).cursor_x = 4 + 3) := by
  decide

/-- C13, amended: whenever `search_text`, started with the cursor before the
end of its line, finds a match at `(r, c)` for a non-empty query of length
`n`, on a state whose `current_line` is the node at the cursor row, row `r`
exists, the query occurs in line `r` at column `c`, the selection becomes
active with endpoints `(r, c)` and `(r, c + n)`, the selected text equals
the query, and the cursor is moved to the start of the matched span,
`(r, c)`; no line changes. With the cursor before the end of its line the
first probe `&data[cursor_x + 1]` stays inside the string, so that
`search_locate` is what the C code finds. -/
theorem search_selects_match (ed : Editor) (q : List Char) (node r c : Nat)
    (hq : q ≠ []) (hcur : ed.current_line = ed.cursor_y) (hy : ed.cursor_y < ed.lines.length)
    (_hx : ed.cursor_x < (deref ed.lines ed.cursor_y).data.length)
    (hfind : search_locate ed q = some (node, r, c)) :
    r < ed.lines.length ∧
    selection (search_text ed q) = (true, (r, c), (r, c + q.length)) ∧
    ((deref ed.lines r).data.drop c).take q.length = q ∧
    c + q.length ≤ (deref ed.lines r).data.length ∧
    (search_text ed q).cursor_y = r ∧
    (search_text ed q).cursor_x = c ∧
    (search_text ed q).current_line = r ∧
    (search_text ed q).lines = ed.lines := by
  obtain ⟨h1, h2, h3, h4, h5, h6, h7⟩ := search_result ed q node r c hq hcur hy hfind
  exact ⟨h1, h3, h2.1, h2.2, h4, h5, h6, h7⟩

/-- The amended search property applied to "foo bar", "baz foo" with the
cursor at (0, 0) and the query "foo". -/
theorem search_selects_match_witness :
    selection (search_text (mk_editor ["foo bar".toList, "baz foo".toList] 0 0)
        "foo".toList) = (true, (1, 4), (1, 4 + "foo".toList.length)) ∧
    (search_text (mk_editor ["foo bar".toList, "baz foo".toList] 0 0) "foo".toList).cursor_x
      = 4 :=
  have h := search_selects_match (mk_editor ["foo bar".toList, "baz foo".toList] 0 0)
    "foo".toList 1 1 4 (by decide) rfl (by decide) (by decide) (by decide)
  ⟨h.2.1, h.2.2.2.2.2.1⟩

/-! ## C12: the order in which search visits the document -/

theorem search_order_general (ed : Editor) (q : List Char)
    (hq : q ≠ []) (hcur : ed.current_line = ed.cursor_y) (hy : ed.cursor_y < ed.lines.length) :
    (∀ c, FirstOccFrom (deref ed.lines ed.cursor_y).data q (ed.cursor_x + 1) c →
      selection (search_text ed q) = (true, (ed.cursor_y, c), (ed.cursor_y, c + q.length))) ∧
    (NoOccFrom (deref ed.lines ed.cursor_y).data q (ed.cursor_x + 1) →
      ∀ r c, ed.cursor_y < r → r < ed.lines.length →
        FirstOccFrom (deref ed.lines r).data q 0 c →
        (∀ k, ed.cursor_y < k → k < r → NoOccFrom (deref ed.lines k).data q 0) →
        selection (search_text ed q) = (true, (r, c), (r, c + q.length))) ∧
    (NoOccFrom (deref ed.lines ed.cursor_y).data q (ed.cursor_x + 1) →
      (∀ k, ed.cursor_y < k → k < ed.lines.length → NoOccFrom (deref ed.lines k).data q 0) →
      ∀ r c, r < ed.cursor_y →
        FirstOccFrom (deref ed.lines r).data q 0 c →
        (∀ k, k < r → NoOccFrom (deref ed.lines k).data q 0) →
        selection (search_text ed q) = (true, (r, c), (r, c + q.length))) ∧
    (NoOccFrom (deref ed.lines ed.cursor_y).data q (ed.cursor_x + 1) →
      (∀ k, k < ed.lines.length → k ≠ ed.cursor_y →
        NoOccFrom (deref ed.lines k).data q 0) →
      selection (search_text ed q) = selection ed ∧
      (search_text ed q).cursor_y = ed.cursor_y ∧
      (search_text ed q).cursor_x = ed.cursor_x) := by
  cases hfind : search_locate ed q with
  | none =>
    obtain ⟨n1, n2⟩ := search_locate_none ed q hcur hy hfind
    have hno := strstr_from_none _ q _ hq n1
    refine ⟨?_, ?_, ?_, ?_⟩
    · intro c hc
      exact absurd hno (fun h => occ_conflict _ _ _ _ hc h)
    · intro _ r c hr1 hr2 hc _
      exact (occ_conflict _ _ _ _ hc (strstr_zero_none _ q hq (n2 r hr2 (by omega)))).elim
    · intro _ _ r c hr1 hc _
      exact (occ_conflict _ _ _ _ hc (strstr_zero_none _ q hq (n2 r (by omega) (by omega)))).elim
    · intro _ _
      obtain ⟨a, b, c, _, _⟩ := search_text_not_found ed q hfind
      exact ⟨a, b, c⟩
  | some p =>
    obtain ⟨node, r0, c0⟩ := p
    obtain ⟨_, _, hsel, _, _, _, _⟩ := search_result ed q node r0 c0 hq hcur hy hfind
    obtain ⟨_, hr0, hcase⟩ := search_locate_some ed q node r0 c0 hcur hy hfind
    rw [hsel]
    rcases hcase with ⟨h1, h2, h3⟩ | ⟨h1, h2, h3, h4⟩ | ⟨h1, h2, h3, h4, h5⟩
    · have hf := strstr_from_some _ q _ _ hq h2
      have hc : ed.cursor_x + 1 + (c0 - (ed.cursor_x + 1)) = c0 := by omega
      rw [hc] at hf
      subst h1
      refine ⟨?_, ?_, ?_, ?_⟩
      · intro c hc1
        rw [first_occ_unique _ _ _ _ _ hc1 hf]
      · intro hno
        exact (occ_conflict _ _ _ _ hf hno).elim
      · intro hno
        exact (occ_conflict _ _ _ _ hf hno).elim
      · intro hno
        exact (occ_conflict _ _ _ _ hf hno).elim
    · have hno := strstr_from_none _ q _ hq h1
      have hf := strstr_zero_some _ q c0 hq h3
      refine ⟨?_, ?_, ?_, ?_⟩
      · intro c hc
        exact (occ_conflict _ _ _ _ hc hno).elim
      · intro _ r c hr1 hr2 hc hbetween
        have hr : r = r0 := by
          rcases Nat.lt_trichotomy r r0 with h | h | h
          · exact (occ_conflict _ _ _ _ hc (strstr_zero_none _ q hq (h4 r hr1 h))).elim
          · exact h
          · exact (occ_conflict _ _ _ _ hf (hbetween r0 h2 h)).elim
        subst hr
        rw [first_occ_unique _ _ _ _ _ hc hf]
      · intro _ hbelow r c _ _ _
        exact (occ_conflict _ _ _ _ hf (hbelow r0 h2 hr0)).elim
      · intro _ hall
        exact (occ_conflict _ _ _ _ hf (hall r0 hr0 (by omega))).elim
    · have hno := strstr_from_none _ q _ hq h1
      have hf := strstr_zero_some _ q c0 hq h4
      refine ⟨?_, ?_, ?_, ?_⟩
      · intro c hc
        exact (occ_conflict _ _ _ _ hc hno).elim
      · intro _ r c hr1 hr2 hc _
        exact (occ_conflict _ _ _ _ hc (strstr_zero_none _ q hq (h2 r hr1 hr2))).elim
      · intro _ _ r c hr1 hc habove
        have hr : r = r0 := by
          rcases Nat.lt_trichotomy r r0 with h | h | h
          · exact (occ_conflict _ _ _ _ hc (strstr_zero_none _ q hq (h5 r h))).elim
          · exact h
          · exact (occ_conflict _ _ _ _ hf (habove r0 h)).elim
        subst hr
        rw [first_occ_unique _ _ _ _ _ hc hf]
      · intro _ hall
        exact (occ_conflict _ _ _ _ hf (hall r0 hr0 (by omega))).elim

/-- C12, as stated, fails twice. On "foo bar", "baz foo" with the cursor at
(0, 0), the first search for "foo" does not select (0,0)-(0,3): it selects
(1,4)-(1,7). And the order is not circular: on the one-line document
"foo x foo" with the cursor at (0, 6), where the occurrence at (0, 0) is the
next one in circular order, a search for "foo" selects nothing. -/
theorem search_first_match_not_at_cursor :
    selection (search_text (mk_editor ["foo bar".toList, "baz foo".toList] 0 0)
        "foo".toList) ≠ (true, (0, 0), (0, 3)) ∧
    selection (search_text (mk_editor ["foo bar".toList, "baz foo".toList] 0 0)
        "foo".toList) = (true, (1, 4), (1, 7)) ∧
    OccursAt "foo x foo".toList "foo".toList 0 ∧
    selection (search_text (mk_editor ["foo x foo".toList] 0 6) "foo".toList) =
      (false, (0, 0), (0, 0)) := by
  decide

/-- C12, amended: on "foo bar", "baz foo" with the cursor at (0, 0),
searching "foo" selects (1,4)-(1,7) with the cursor at (1, 4); searching
again selects (0,0)-(0,3); a third search selects (1,4)-(1,7) again. In
general, for a non-empty query, with the cursor before the end of its line
and `current_line` at the cursor row, a search selects the first occurrence
met in this order: the cursor's line from one column after the cursor, then
the lines below it top to bottom, then the lines above it from the top; when
none of these holds the query, selection and cursor stay as they were. -/
theorem search_order (ed : Editor) (q : List Char)
    (hq : q ≠ []) (hcur : ed.current_line = ed.cursor_y) (hy : ed.cursor_y < ed.lines.length)
    (_hx : ed.cursor_x < (deref ed.lines ed.cursor_y).data.length) :
    (selection (search_text (mk_editor ["foo bar".toList, "baz foo".toList] 0 0)
        "foo".toList) = (true, (1, 4), (1, 7)) ∧
      selection (search_text (search_text (mk_editor ["foo bar".toList, "baz foo".toList] 0 0)
        "foo".toList) "foo".toList) = (true, (0, 0), (0, 3)) ∧
      selection (search_text (search_text (search_text
        (mk_editor ["foo bar".toList, "baz foo".toList] 0 0)
        "foo".toList) "foo".toList) "foo".toList) = (true, (1, 4), (1, 7))) ∧
    (∀ c, FirstOccFrom (deref ed.lines ed.cursor_y).data q (ed.cursor_x + 1) c →
      selection (search_text ed q) = (true, (ed.cursor_y, c), (ed.cursor_y, c + q.length))) ∧
    (NoOccFrom (deref ed.lines ed.cursor_y).data q (ed.cursor_x + 1) →
      ∀ r c, ed.cursor_y < r → r < ed.lines.length →
        FirstOccFrom (deref ed.lines r).data q 0 c →
        (∀ k, ed.cursor_y < k → k < r → NoOccFrom (deref ed.lines k).data q 0) →
        selection (search_text ed q) = (true, (r, c), (r, c + q.length))) ∧
    (NoOccFrom (deref ed.lines ed.cursor_y).data q (ed.cursor_x + 1) →
      (∀ k, ed.cursor_y < k → k < ed.lines.length → NoOccFrom (deref ed.lines k).data q 0) →
      ∀ r c, r < ed.cursor_y →
        FirstOccFrom (deref ed.lines r).data q 0 c →
        (∀ k, k < r → NoOccFrom (deref ed.lines k).data q 0) →
        selection (search_text ed q) = (true, (r, c), (r, c + q.length))) ∧
    (NoOccFrom (deref ed.lines ed.cursor_y).data q (ed.cursor_x + 1) →
      (∀ k, k < ed.lines.length → k ≠ ed.cursor_y →
        NoOccFrom (deref ed.lines k).data q 0) →
      selection (search_text ed q) = selection ed ∧
      (search_text ed q).cursor_y = ed.cursor_y ∧
      (search_text ed q).cursor_x = ed.cursor_x) :=
  ⟨by decide, search_order_general ed q hq hcur hy⟩

/-- The amended search order applied to "foo bar", "baz foo" with the cursor
at (1, 1) and the query "foo": the first occurrence after the cursor on its
own line, at column 4, is selected. -/
theorem search_order_witness :
    selection (search_text (mk_editor ["foo bar".toList, "baz foo".toList] 1 1)
        "foo".toList) = (true, (1, 4), (1, 4 + "foo".toList.length)) :=
  (search_order (mk_editor ["foo bar".toList, "baz foo".toList] 1 1) "foo".toList
    (by decide) rfl (by decide) (by decide)).2.1 4
    ⟨by decide, by decide, by
      intro c h1 h2
      have hc : c = 2 ∨ c = 3 := by
        have h1' : 2 ≤ c := h1
        omega
      rcases hc with rfl | rfl <;> decide⟩

/-! ## C14 and C15: the replace-all loop -/

/-- C14: on the one-line document "aab" with query "ab" and replacement "b",
replace-all finishes with the line "b" and reports 2 replacements, because
every round searches again from the start of the line; replacing left to
right and resuming after the inserted text, as the claim describes, gives
"ab" with 1 replacement. The claim's own example, "aXaXa" with "X" replaced
by "YZ", does come out as "aYZaYZa" with 2 replacements. -/
theorem replace_all_rescans_from_line_start :
    (replace_text 3 (mk_editor ["aab".toList] 0 0) "ab".toList "b".toList 97).map
        (fun e => (texts e, e.message)) =
      some (["b".toList], "Almashtirildi: 2 ta") ∧
    spec_replace_all "ab".toList "b".toList "aab".toList = ("ab".toList, 1) ∧
    (replace_text 3 (mk_editor ["aXaXa".toList] 0 0) "X".toList "YZ".toList 97).map
        (fun e => (texts e, e.message)) =
      some (["aYZaYZa".toList], "Almashtirildi: 2 ta") ∧
    spec_replace_all "X".toList "YZ".toList "aXaXa".toList = ("aYZaYZa".toList, 2) := by
  decide

theorem take_prefix_append (q r t : List Char) (h : r.take q.length = q) :
    (r ++ t).take q.length = q := by
  have hle : q.length ≤ r.length := by
    have := congrArg List.length h
    rw [List.length_take] at this
    omega
  rw [List.take_append_of_le_length hle, h]

theorem replace_splice_occurs (q r : List Char) (line : Line) (off : Nat)
    (hr : r.take q.length = q) (h : strstr line.data q = some off) :
    OccursAt (replace_splice line off q r).data q off := by
  have hle := strstr_le q line.data off h
  have hoff : (line.data.take off).length = off := by
    rw [List.length_take]
    exact Nat.min_eq_left (by omega)
  have hrl : q.length ≤ r.length := by
    have := congrArg List.length hr
    rw [List.length_take] at this
    omega
  unfold replace_splice OccursAt
  dsimp only
  constructor
  · rw [List.append_assoc]
    have hd : List.drop off (List.take off line.data ++
        (r ++ List.drop (off + q.length) line.data)) =
        r ++ List.drop (off + q.length) line.data := by
      exact List.drop_left' hoff
    rw [hd]
    exact take_prefix_append q r _ hr
  · simp only [List.length_append, List.length_drop, hoff]
    omega

theorem replace_all_line_diverges (q r : List Char) (hr : r.take q.length = q) :
    ∀ (fuel : Nat) (line : Line) (k c : Nat), OccursAt line.data q c →
      replace_all_line fuel q r line k = none := by
  intro fuel
  induction fuel with
  | zero => intro line k c _; rfl
  | succ fuel ih =>
    intro line k c hocc
    obtain ⟨off, hoff⟩ := strstr_of_occurs _ q c hocc
    unfold replace_all_line
    simp only [hoff]
    exact ih _ _ off (replace_splice_occurs q r line off hr hoff)

theorem replace_all_lines_diverges (q r : List Char) (hr : r.take q.length = q) (fuel : Nat) :
    ∀ (ls : List Line) (k : Nat), (∃ l ∈ ls, ∃ c, OccursAt l.data q c) →
      replace_all_lines fuel q r ls k = none := by
  intro ls
  induction ls with
  | nil =>
    intro k h
    obtain ⟨l, hl, _⟩ := h
    cases hl
  | cons l rest ih =>
    intro k h
    unfold replace_all_lines
    cases hline : replace_all_line fuel q r l k with
    | none => rfl
    | some res =>
      obtain ⟨l1, k1⟩ := res
      dsimp only
      obtain ⟨x, hx, c, hc⟩ := h
      rcases List.mem_cons.mp hx with rfl | hx
      · rw [replace_all_line_diverges q r hr fuel x k c hc] at hline
        cases hline
      · rw [ih k1 ⟨x, hx, c, hc⟩]

theorem replace_all_diverges (fuel : Nat) (ed : Editor) (q r : List Char) (hq : q ≠ [])
    (hr : r.take q.length = q) (k c : Nat) (hk : k < ed.lines.length)
    (hocc : OccursAt (deref ed.lines k).data q c) :
    replace_text fuel ed q r 97 = none := by
  obtain ⟨i, hi⟩ := strstr_of_occurs _ q c hocc
  have hcount := count_occurrences_pos q ed.lines k i hk hi
  unfold replace_text
  rw [if_neg (by simpa using hq), if_neg hcount, if_neg (by decide)]
  dsimp only
  rw [if_pos (Or.inl rfl), save_undo_lines,
    replace_all_lines_diverges q r hr fuel ed.lines 0 ⟨_, deref_mem ed.lines k hk, c, hocc⟩]

/-- C15: on the one-line document "aXa" with query "X" and replacement
"XY", a replacement that contains the query, replace-all does not terminate:
no number of rounds of the inner loop finishes the line, because each round
finds the query again inside the text it has just inserted. -/
theorem replace_all_does_not_terminate :
    ∀ fuel, replace_text fuel (mk_editor ["aXa".toList] 0 0) "X".toList "XY".toList 97 = none :=
  fun fuel =>
    replace_all_diverges fuel (mk_editor ["aXa".toList] 0 0) "X".toList "XY".toList
      (by decide) (by decide) 0 1 (by decide) (by decide)

/-! ## Replace-one within the buffer of the line -/

theorem replace_one_found (fuel : Nat) (ed : Editor) (q r : List Char) (i : Nat)
    (hq : q ≠ []) (hcount : count_occurrences ed.lines q ≠ 0)
    (h : strstr ((deref ed.lines ed.current_line).data.drop ed.cursor_x) q = some i) :
    replace_text fuel ed q r 49 =
      some (set_message
        { save_undo ed with
          lines := ed.lines.set ed.current_line
            (replace_splice (deref ed.lines ed.current_line) (ed.cursor_x + i) q r)
          cursor_x := ed.cursor_x + i + r.length
          preferred_x := ed.cursor_x + i + r.length
          modified := true }
        "Almashtirildi: 1 ta") := by
  unfold replace_text
  rw [if_neg (by simpa using hq), if_neg hcount, if_neg (by decide)]
  dsimp only
  rw [if_neg (by decide), if_pos rfl]
  simp only [save_undo_lines, save_undo_current, save_undo_cursor_x, h]

theorem replace_one_not_found (fuel : Nat) (ed : Editor) (q r : List Char)
    (h : strstr ((deref ed.lines ed.current_line).data.drop ed.cursor_x) q = none) :
    ∃ ed1, replace_text fuel ed q r 49 = some ed1 ∧ ed1.lines = ed.lines ∧
      ed1.total_lines = ed.total_lines ∧ ed1.cursor_x = ed.cursor_x ∧
      ed1.cursor_y = ed.cursor_y := by
  unfold replace_text
  split
  · exact ⟨_, rfl, rfl, rfl, rfl, rfl⟩
  · split
    · exact ⟨_, rfl, rfl, rfl, rfl, rfl⟩
    · rw [if_neg (by decide)]
      dsimp only
      rw [if_neg (by decide), if_pos rfl]
      simp only [save_undo_lines, save_undo_current, save_undo_cursor_x, h]
      exact ⟨_, rfl, rfl, rfl, rfl, rfl⟩

/-- Within the buffer of the line: with a non-empty query, `current_line` at
the cursor row, the cursor at a valid column of a line whose recorded
length matches its text, and a new length that leaves the buffer as it is
(`new_len + 1 < capacity`, so that `pos` still points into it),
replace-one finishes, and: if `c` is the first column at or after the cursor
where the query occurs on the current line, that line becomes its first `c`
characters, the replacement, and its text from column `c + len(query)` on,
every other line is unchanged, the recorded length of the line goes from
`len` to `len - len(query) + len(replacement)` and still matches its text,
and the cursor is at column `c + len(replacement)` of the same row; if the
query does not occur on the current line at or after the cursor, no line
changes and the cursor stays. -/
theorem replace_one_spec (fuel : Nat) (ed : Editor) (q r : List Char)
    (hq : q ≠ []) (hcur : ed.current_line = ed.cursor_y)
    (hy : ed.cursor_y < ed.lines.length)
    (_hx : ed.cursor_x ≤ (deref ed.lines ed.cursor_y).data.length)
    (hlen : (deref ed.lines ed.cursor_y).len = (deref ed.lines ed.cursor_y).data.length)
    (_hroom : (deref ed.lines ed.cursor_y).len - q.length + r.length + 1 <
      (deref ed.lines ed.cursor_y).capacity) :
    (∀ c, FirstOccFrom (deref ed.lines ed.cursor_y).data q ed.cursor_x c →
      ∃ ed1, replace_text fuel ed q r 49 = some ed1 ∧
        ed1.lines.length = ed.lines.length ∧
        texts ed1 =
          (texts ed).take ed.cursor_y ++
            [(deref ed.lines ed.cursor_y).data.take c ++ r ++
              (deref ed.lines ed.cursor_y).data.drop (c + q.length)] ++
            (texts ed).drop (ed.cursor_y + 1) ∧
        (deref ed1.lines ed.cursor_y).len =
          (deref ed.lines ed.cursor_y).len - q.length + r.length ∧
        (deref ed1.lines ed.cursor_y).len = (deref ed1.lines ed.cursor_y).data.length ∧
        q.length ≤ (deref ed.lines ed.cursor_y).len ∧
        ed1.cursor_y = ed.cursor_y ∧
        ed1.cursor_x = c + r.length) ∧
    (NoOccFrom (deref ed.lines ed.cursor_y).data q ed.cursor_x →
      ∃ ed1, replace_text fuel ed q r 49 = some ed1 ∧ ed1.lines = ed.lines ∧
        ed1.cursor_y = ed.cursor_y ∧ ed1.cursor_x = ed.cursor_x) := by
  constructor
  · intro c hc
    cases hs : strstr ((deref ed.lines ed.current_line).data.drop ed.cursor_x) q with
    | none =>
      rw [hcur] at hs
      exact (occ_conflict _ _ _ _ hc (strstr_from_none _ q _ hq hs)).elim
    | some i =>
      have hs1 := hs
      rw [hcur] at hs1
      have hf := strstr_from_some _ q _ _ hq hs1
      have hci : c = ed.cursor_x + i := first_occ_unique _ _ _ _ _ hc hf
      obtain ⟨j, hj⟩ := strstr_of_occurs _ q c hc.2.1
      have hcount := count_occurrences_pos q ed.lines ed.cursor_y j hy hj
      have hocc := hc.2.1
      have hA : (ed.lines.take ed.cursor_y).length = ed.cursor_y := by
        rw [List.length_take]
        exact Nat.min_eq_left (by omega)
      have hlines : ed.lines.set ed.current_line
          (replace_splice (deref ed.lines ed.current_line) (ed.cursor_x + i) q r) =
          ed.lines.take ed.cursor_y ++
            replace_splice (deref ed.lines ed.cursor_y) c q r ::
            ed.lines.drop (ed.cursor_y + 1) := by
        rw [hcur, set_row _ _ _ hy, ← hci]
      have hd : deref (ed.lines.set ed.current_line
          (replace_splice (deref ed.lines ed.current_line) (ed.cursor_x + i) q r))
          ed.cursor_y = replace_splice (deref ed.lines ed.cursor_y) c q r := by
        rw [hlines]
        have := deref_append_zero (ed.lines.take ed.cursor_y)
          (replace_splice (deref ed.lines ed.cursor_y) c q r)
          (ed.lines.drop (ed.cursor_y + 1))
        rw [hA] at this
        exact this
      have hle := hocc.2
      refine ⟨_, replace_one_found fuel ed q r i hq hcount hs, ?_, ?_, ?_, ?_, ?_, rfl, ?_⟩
      · show (ed.lines.set _ _).length = _
        rw [List.length_set]
      · show List.map Line.data (ed.lines.set _ _) = _
        rw [hlines]
        simp [texts, List.map_take, List.map_drop, replace_splice]
      · show (deref (ed.lines.set _ _) ed.cursor_y).len = _
        rw [hd]
        rfl
      · show (deref (ed.lines.set _ _) ed.cursor_y).len =
          (deref (ed.lines.set _ _) ed.cursor_y).data.length
        rw [hd]
        simp only [replace_splice, List.length_append, List.length_take, List.length_drop]
        omega
      · omega
      · show ed.cursor_x + i + r.length = c + r.length
        omega
  · intro hno
    cases hs : strstr ((deref ed.lines ed.current_line).data.drop ed.cursor_x) q with
    | some i =>
      rw [hcur] at hs
      exact (occ_conflict _ _ _ _ (strstr_from_some _ q _ _ hq hs) hno).elim
    | none =>
      obtain ⟨ed1, h1, h2, _, h4, h5⟩ := replace_one_not_found fuel ed q r hs
      exact ⟨ed1, h1, h2, h5, h4⟩

/-- Replace-one applied to "foo bar foo" with the cursor at (0, 2), query
"foo" and replacement "quux": the occurrence at column 8 is replaced. -/
theorem replace_one_spec_witness :
    ∃ ed1, replace_text 0 (mk_editor ["foo bar foo".toList] 0 2) "foo".toList "quux".toList 49
        = some ed1 ∧
      ed1.lines.length = (mk_editor ["foo bar foo".toList] 0 2).lines.length ∧
      texts ed1 =
        (texts (mk_editor ["foo bar foo".toList] 0 2)).take 0 ++
          ["foo bar foo".toList.take 8 ++ "quux".toList ++
            "foo bar foo".toList.drop (8 + "foo".toList.length)] ++
          (texts (mk_editor ["foo bar foo".toList] 0 2)).drop (0 + 1) :=
  have h := (replace_one_spec 0 (mk_editor ["foo bar foo".toList] 0 2) "foo".toList
    "quux".toList (by decide) rfl (by decide) (by decide) (by decide) (by decide)).1 8
    ⟨by decide, by decide, by
      intro c h1 h2
      have hc : c = 2 ∨ c = 3 ∨ c = 4 ∨ c = 5 ∨ c = 6 ∨ c = 7 := by
        have h1' : 2 ≤ c := h1
        omega
      rcases hc with rfl | rfl | rfl | rfl | rfl | rfl <;> decide⟩
  match h with
  | ⟨ed1, h1, h2, h3, _⟩ => ⟨ed1, h1, h2, h3⟩

/-! ## C17: one snapshot per replace -/

theorem replace_text_undo_stack (fuel : Nat) (ed ed1 : Editor) (q r : List Char) (choice : Nat)
    (hq : q ≠ []) (hcount : count_occurrences ed.lines q ≠ 0) (hch : choice ≠ 27)
    (hres : replace_text fuel ed q r choice = some ed1) :
    ed1.undo_stack = (save_undo ed).undo_stack := by
  unfold replace_text at hres
  rw [if_neg (by simpa using hq), if_neg hcount, if_neg hch] at hres
  dsimp only at hres
  split at hres
  · split at hres
    · cases hres
    · cases hres
      rfl
  · split at hres
    · split at hres
      · cases hres
        rfl
      · cases hres
        rfl
    · cases hres
      rfl

theorem perform_undo_after_push (ed ed1 : Editor)
    (ht : ed.total_lines = ed.lines.length)
    (hst : ed1.undo_stack = (save_undo ed).undo_stack) :
    texts (perform_undo ed1) = texts ed ∧
    (perform_undo ed1).total_lines = ed.total_lines ∧
    (perform_undo ed1).cursor_y = ed.cursor_y ∧
    (perform_undo ed1).cursor_x = ed.cursor_x ∧
    (perform_undo ed1).undo_stack =
      (if MAX_UNDO ≤ ed.undo_stack.length then ed.undo_stack.drop 1 else ed.undo_stack) := by
  rw [save_undo_stack] at hst
  obtain ⟨h1, h2, h3, h4, h5, _⟩ := perform_undo_top ed1 _ _ hst
  refine ⟨?_, h3, h5, h4, h1⟩
  unfold texts
  rw [h2]
  exact restore_texts ed ht

/-- C17: a replace-all (choice 'a' or 'A') or replace-one (choice '1') that
goes ahead (non-empty query that occurs in the document) and finishes has
pushed exactly one snapshot, the state before the replace, whatever the
number of splices: the undo stack is the old one (less its oldest entry
when it was full) followed by that snapshot. On a state whose `total_lines`
counts its lines, the `perform_undo` issued right afterwards gives back
every line's text, `total_lines` and the cursor of the state before the
replace, and removes that snapshot again. -/
theorem replace_pushes_one_snapshot (fuel : Nat) (ed ed1 : Editor) (q r : List Char)
    (choice : Nat) (hq : q ≠ []) (hcount : count_occurrences ed.lines q ≠ 0)
    (hch : choice = 97 ∨ choice = 65 ∨ choice = 49)
    (ht : ed.total_lines = ed.lines.length)
    (hres : replace_text fuel ed q r choice = some ed1) :
    ed1.undo_stack =
      (if MAX_UNDO ≤ ed.undo_stack.length then ed.undo_stack.drop 1 else ed.undo_stack) ++
        [snapshot_of ed] ∧
    texts (perform_undo ed1) = texts ed ∧
    (perform_undo ed1).total_lines = ed.total_lines ∧
    (perform_undo ed1).cursor_y = ed.cursor_y ∧
    (perform_undo ed1).cursor_x = ed.cursor_x ∧
    (perform_undo ed1).undo_stack =
      (if MAX_UNDO ≤ ed.undo_stack.length then ed.undo_stack.drop 1 else ed.undo_stack) := by
  have hst := replace_text_undo_stack fuel ed ed1 q r choice hq hcount (by omega) hres
  obtain ⟨h1, h2, h3, h4, h5⟩ := perform_undo_after_push ed ed1 ht hst
  exact ⟨by rw [hst, save_undo_stack], h1, h2, h3, h4, h5⟩

/-- One snapshot per replace, applied to the replace-all of "X" by "YZ" on
"aXaXa", "bX" with the cursor at (1, 2): three splices, one snapshot, and
undo gives the two lines and the cursor back. -/
theorem replace_pushes_one_snapshot_witness :
    ∃ ed1, replace_text 3 (mk_editor ["aXaXa".toList, "bX".toList] 1 2) "X".toList
        "YZ".toList 97 = some ed1 ∧
      ed1.undo_stack = [snapshot_of (mk_editor ["aXaXa".toList, "bX".toList] 1 2)] ∧
      texts (perform_undo ed1) = ["aXaXa".toList, "bX".toList] ∧
      (perform_undo ed1).cursor_x = 2 :=
  match hres : replace_text 3 (mk_editor ["aXaXa".toList, "bX".toList] 1 2) "X".toList
      "YZ".toList 97 with
  | none => by
    have hs : (replace_text 3 (mk_editor ["aXaXa".toList, "bX".toList] 1 2) "X".toList
      "YZ".toList 97).isSome = true := by decide
    rw [hres] at hs
    cases hs
  | some ed1 =>
    have h := replace_pushes_one_snapshot 3 (mk_editor ["aXaXa".toList, "bX".toList] 1 2) ed1
      "X".toList "YZ".toList 97 (by decide) (by decide) (Or.inl rfl) rfl hres
    ⟨ed1, rfl, h.1, h.2.1, h.2.2.2.2.1⟩

/-! ## C18: the two JSON examples -/

/-- C18, as stated, fails on its second example: for the one-line .json
document `{"a": [1, 2}` the diagnostic does not have the column range
11 to 12 of the closing brace. -/
theorem json_mismatch_not_at_brace :
    ¬ ((check_syntax_error (mk_file "a.json"
          ["\x7b\x22a\x22: [1, 2\x7d"])).syntax_error.line = 1 ∧
       (check_syntax_error (mk_file "a.json"
          ["\x7b\x22a\x22: [1, 2\x7d"])).syntax_error.col_start = 11 ∧
       (check_syntax_error (mk_file "a.json"
          ["\x7b\x22a\x22: [1, 2\x7d"])).syntax_error.col_end = 12) := by
  decide

/-- C18, amended: for a .json file, `check_syntax_error` reports no
diagnostic on the one-line document `{"a": [1, 2]}`; on the one-line
document `{"a": [1, 2}`, whose character at column 11 is the closing brace,
it reports a diagnostic on line 1 with col_start 0, col_end 0 and the
message "Unclosed '[' - 1 open bracket(s)": the brace closes the brace
counter without underflow and the bracket counter is still 1 at the end of
the file. -/
theorem json_examples :
    (check_syntax_error (mk_file "a.json" ["\x7b\x22a\x22: [1, 2]\x7d"])).syntax_error =
      no_error ∧
    "\x7b\x22a\x22: [1, 2\x7d".toList[11]? = some ch_rbrace ∧
    (check_syntax_error (mk_file "a.json" ["\x7b\x22a\x22: [1, 2\x7d"])).syntax_error =
      { line := 1, col_start := 0, col_end := 0
        msg := "Unclosed \x27[\x27 - 1 open bracket(s)" } := by
  decide

/-! ## C20: braces inside JSON strings -/

/-- C20: the one-line .json document `{"k": "\\"}` (the value is a string
holding one escaped backslash) has, outside its strings as the claim reads
them, exactly the characters `{`, `:`, space and `}`, a balanced pair of
braces; yet `check_syntax_error` reports "Unclosed '{' - 1 open brace(s)",
because the quote after the escaped backslash is taken for an escaped quote
and the closing brace is skipped as string text. And in
`{"k": "\\", "a": "}"}` the brace at column 18 lies inside a string, but
replacing it by the letter x changes the diagnostic from none to
"Unclosed '{' - 1 open brace(s)". -/
theorem json_escaped_backslash_hides_brace :
    spec_outside_strings "\x7b\x22k\x22: \x22\x5c\x5c\x22\x7d".toList =
      [ch_lbrace, Char.ofNat 58, ch_space, ch_rbrace] ∧
    (check_syntax_error (mk_file "a.json"
        ["\x7b\x22k\x22: \x22\x5c\x5c\x22\x7d"])).syntax_error =
      { line := 1, col_start := 0, col_end := 0
        msg := "Unclosed \x27\x7b\x27 - 1 open brace(s)" } ∧
    "\x7b\x22k\x22: \x22\x5c\x5c\x22, \x22a\x22: \x22\x7d\x22\x7d".toList[18]? =
      some ch_rbrace ∧
    (spec_in_string false false
      "\x7b\x22k\x22: \x22\x5c\x5c\x22, \x22a\x22: \x22\x7d\x22\x7d".toList)[18]? =
      some true ∧
    "\x7b\x22k\x22: \x22\x5c\x5c\x22, \x22a\x22: \x22\x7d\x22\x7d".toList.set 18
        (Char.ofNat 120) =
      "\x7b\x22k\x22: \x22\x5c\x5c\x22, \x22a\x22: \x22x\x22\x7d".toList ∧
    (check_syntax_error (mk_file "a.json"
        ["\x7b\x22k\x22: \x22\x5c\x5c\x22, \x22a\x22: \x22\x7d\x22\x7d"])).syntax_error =
      no_error ∧
    (check_syntax_error (mk_file "a.json"
        ["\x7b\x22k\x22: \x22\x5c\x5c\x22, \x22a\x22: \x22x\x22\x7d"])).syntax_error =
      { line := 1, col_start := 0, col_end := 0
        msg := "Unclosed \x27\x7b\x27 - 1 open brace(s)" } := by
  decide

/-! ## C19: closers at depth 0 and unclosed openers -/

theorem depth_nil (o c : Char) : depth o c [] = 0 := by
  simp [depth]

theorem depth_snoc (o c x : Char) (P : List Char) :
    depth o c (P ++ [x]) =
      depth o c P + (if x = o then 1 else 0) - (if x = c then 1 else 0) := by
  unfold depth
  simp only [List.count_append, List.count_singleton, beq_iff_eq]
  split <;> split <;> simp <;> omega

theorem not_extra_none (json : Bool) (P : List Char) : ¬ IsExtra json P none := by
  unfold IsExtra
  simp

theorem json_char_plain (ln i : Nat) (prev : Option Char) (c : Char) (st : JsonState)
    (hs : st.in_string = false) (hc : c ≠ ch_quote) :
    json_char ln i prev c st =
      if c = ch_rbrace ∧ st.brace_count - 1 < 0 then
        Except.error
          { line := ln, col_start := i, col_end := i + 1
            msg := "Extra \x27\x7d\x27 - no opening brace" }
      else if c = ch_rbracket ∧ st.bracket_count - 1 < 0 then
        Except.error
          { line := ln, col_start := i, col_end := i + 1
            msg := "Extra \x27]\x27 - no opening bracket" }
      else Except.ok
        { brace_count :=
            st.brace_count + (if c = ch_lbrace then 1 else 0) - (if c = ch_rbrace then 1 else 0)
          bracket_count :=
            st.bracket_count + (if c = ch_lbracket then 1 else 0) -
              (if c = ch_rbracket then 1 else 0)
          in_string := false } := by
  have h1 : ch_rbrace ≠ ch_lbrace := by decide
  have h2 : ch_rbrace ≠ ch_rbracket := by decide
  have h3 : ch_rbrace ≠ ch_lbracket := by decide
  have h4 : ch_lbrace ≠ ch_rbracket := by decide
  have h5 : ch_lbrace ≠ ch_lbracket := by decide
  have h6 : ch_rbracket ≠ ch_lbracket := by decide
  unfold json_char
  simp only [hc, false_and, if_false, hs]
  by_cases e1 : c = ch_rbrace
  · subst e1
    simp [h1, h2, h3]
  · by_cases e2 : c = ch_lbrace
    · subst e2
      simp [h1.symm, h4, h5]
    · by_cases e3 : c = ch_rbracket
      · subst e3
        simp [h2.symm, h4.symm, h6]
      · by_cases e4 : c = ch_lbracket
        · subst e4
          simp [h3.symm, h5.symm, h6.symm]
        · simp [e1, e2, e3, e4]

theorem is_extra_cons_succ (json : Bool) (P : List Char) (c : Char) (rest : List Char)
    (k : Nat) :
    IsExtra json (P ++ (c :: rest).take (k + 1)) (c :: rest)[k + 1]? ↔
      IsExtra json ((P ++ [c]) ++ rest.take k) rest[k]? := by
  rw [List.take_succ_cons, List.getElem?_cons_succ, List.append_cons]

theorem is_extra_cons_zero (json : Bool) (P : List Char) (c : Char) (rest : List Char) :
    IsExtra json (P ++ (c :: rest).take 0) (c :: rest)[0]? ↔ IsExtra json P (some c) := by
  rw [List.take_zero, List.append_nil, List.getElem?_cons_zero]

theorem json_chars_scan (ln : Nat) :
    ∀ (cs : List Char) (i : Nat) (prev : Option Char) (st : JsonState) (P : List Char),
      st.in_string = false → ch_quote ∉ cs →
      st.brace_count = depth ch_lbrace ch_rbrace P →
      st.bracket_count = depth ch_lbracket ch_rbracket P →
      0 ≤ st.brace_count → 0 ≤ st.bracket_count →
      (∃ k d, json_chars ln i prev cs st = Except.error d ∧
        IsExtra true (P ++ cs.take k) cs[k]? ∧
        (∀ k1, k1 < k → ¬ IsExtra true (P ++ cs.take k1) cs[k1]?) ∧
        d.line = ln ∧ d.col_start = i + k ∧ d.col_end = i + k + 1) ∨
      (∃ st1, json_chars ln i prev cs st = Except.ok st1 ∧
        (∀ k, ¬ IsExtra true (P ++ cs.take k) cs[k]?) ∧
        st1.in_string = false ∧
        st1.brace_count = depth ch_lbrace ch_rbrace (P ++ cs) ∧
        st1.bracket_count = depth ch_lbracket ch_rbracket (P ++ cs) ∧
        0 ≤ st1.brace_count ∧ 0 ≤ st1.bracket_count) := by
  intro cs
  induction cs with
  | nil =>
    intro i prev st P hs _ hb hk hb0 hk0
    right
    refine ⟨st, rfl, ?_, hs, by simpa using hb, by simpa using hk, hb0, hk0⟩
    intro k
    simpa using not_extra_none true _
  | cons c rest ih =>
    intro i prev st P hs hq hb hk hb0 hk0
    have hc : c ≠ ch_quote := fun h => hq (by simp [h])
    have hrest : ch_quote ∉ rest := fun h => hq (List.mem_cons_of_mem _ h)
    unfold json_chars
    rw [json_char_plain ln i prev c st hs hc]
    by_cases eA : c = ch_rbrace ∧ st.brace_count - 1 < 0
    · rw [if_pos eA]
      left
      refine ⟨0, _, rfl, ?_, fun k1 h => absurd h (Nat.not_lt_zero k1), rfl, rfl, rfl⟩
      rw [is_extra_cons_zero]
      left
      exact ⟨by rw [eA.1], by omega⟩
    · rw [if_neg eA]
      by_cases eB : c = ch_rbracket ∧ st.bracket_count - 1 < 0
      · rw [if_pos eB]
        left
        refine ⟨0, _, rfl, ?_, fun k1 h => absurd h (Nat.not_lt_zero k1), rfl, rfl, rfl⟩
        rw [is_extra_cons_zero]
        right
        exact ⟨rfl, by rw [eB.1], by omega⟩
      · rw [if_neg eB]
        dsimp only
        have hnot : ¬ IsExtra true P (some c) := by
          rintro (⟨h1, h2⟩ | ⟨_, h1, h2⟩)
          · exact eA ⟨Option.some.inj h1, by omega⟩
          · exact eB ⟨Option.some.inj h1, by omega⟩
        have hb1 : st.brace_count + (if c = ch_lbrace then 1 else 0) -
            (if c = ch_rbrace then 1 else 0) = depth ch_lbrace ch_rbrace (P ++ [c]) := by
          rw [depth_snoc, hb]
        have hk1 : st.bracket_count + (if c = ch_lbracket then 1 else 0) -
            (if c = ch_rbracket then 1 else 0) = depth ch_lbracket ch_rbracket (P ++ [c]) := by
          rw [depth_snoc, hk]
        have hb2 : 0 ≤ st.brace_count + (if c = ch_lbrace then 1 else 0) -
            (if c = ch_rbrace then 1 else 0) := by
          by_cases e : c = ch_rbrace
          · have : ¬ (st.brace_count - 1 < 0) := fun h => eA ⟨e, h⟩
            split <;> simp [e] <;> omega
          · split <;> simp [e] <;> omega
        have hk2 : 0 ≤ st.bracket_count + (if c = ch_lbracket then 1 else 0) -
            (if c = ch_rbracket then 1 else 0) := by
          by_cases e : c = ch_rbracket
          · have : ¬ (st.bracket_count - 1 < 0) := fun h => eB ⟨e, h⟩
            split <;> simp [e] <;> omega
          · split <;> simp [e] <;> omega
        rcases ih (i + 1) (some c)
            { brace_count := st.brace_count + (if c = ch_lbrace then 1 else 0) -
                (if c = ch_rbrace then 1 else 0)
              bracket_count := st.bracket_count + (if c = ch_lbracket then 1 else 0) -
                (if c = ch_rbracket then 1 else 0)
              in_string := false }
            (P ++ [c]) rfl hrest hb1 hk1 hb2 hk2 with
          ⟨k, d, h1, h2, h3, h4, h5, h6⟩ | ⟨st1, h1, h2, h3, h4, h5, h6, h7⟩
        · left
          refine ⟨k + 1, d, h1, (is_extra_cons_succ _ _ _ _ _).mpr h2, ?_, h4, by omega, by omega⟩
          intro k1 hk1lt
          cases k1 with
          | zero => rw [is_extra_cons_zero]; exact hnot
          | succ k1 =>
            rw [is_extra_cons_succ]
            exact h3 k1 (by omega)
        · right
          refine ⟨st1, h1, ?_, h3, ?_, ?_, h6, h7⟩
          · intro k
            cases k with
            | zero => rw [is_extra_cons_zero]; exact hnot
            | succ k =>
              rw [is_extra_cons_succ]
              exact h2 k
          · rw [h4, List.append_assoc]
            rfl
          · rw [h5, List.append_assoc]
            rfl

theorem text_before_zero (t : List Char) (ts : List (List Char)) (k : Nat) :
    text_before (t :: ts) 0 k = t.take k := by
  simp [text_before]

theorem text_before_succ (t : List Char) (ts : List (List Char)) (r k : Nat) :
    text_before (t :: ts) (r + 1) k = t ++ text_before ts r k := by
  simp [text_before]

theorem extra_row_zero (json : Bool) (P t : List Char) (ts : List (List Char)) (k : Nat) :
    IsExtra json (P ++ text_before (t :: ts) 0 k) (((t :: ts).getD 0 [])[k]?) ↔
      IsExtra json (P ++ t.take k) t[k]? := by
  rw [text_before_zero]
  rfl

theorem extra_row_succ (json : Bool) (P t : List Char) (ts : List (List Char)) (r k : Nat) :
    IsExtra json (P ++ text_before (t :: ts) (r + 1) k) (((t :: ts).getD (r + 1) [])[k]?) ↔
      IsExtra json ((P ++ t) ++ text_before ts r k) ((ts.getD r [])[k]?) := by
  rw [text_before_succ, List.getD_cons_succ, List.append_assoc]

theorem earlier_zero (r1 k1 k : Nat) (h : Earlier r1 k1 0 k) : r1 = 0 ∧ k1 < k := by
  unfold Earlier at h
  omega

theorem earlier_total (r1 k1 r k : Nat) (h1 : ¬ Earlier r1 k1 r k) (h2 : ¬ Earlier r k r1 k1) :
    r1 = r ∧ k1 = k := by
  unfold Earlier at h1 h2
  omega

theorem json_lines_scan :
    ∀ (ls : List Line) (ln : Nat) (st : JsonState) (P : List Char),
      st.in_string = false → NoQuotes (ls.map line_chars) →
      st.brace_count = depth ch_lbrace ch_rbrace P →
      st.bracket_count = depth ch_lbracket ch_rbracket P →
      0 ≤ st.brace_count → 0 ≤ st.bracket_count →
      (∃ r k d, json_lines ln ls st = Except.error d ∧
        IsExtra true (P ++ text_before (ls.map line_chars) r k)
          (((ls.map line_chars).getD r [])[k]?) ∧
        (∀ r1 k1, Earlier r1 k1 r k →
          ¬ IsExtra true (P ++ text_before (ls.map line_chars) r1 k1)
            (((ls.map line_chars).getD r1 [])[k1]?)) ∧
        d.line = ln + r ∧ d.col_start = k ∧ d.col_end = k + 1) ∨
      (∃ ln1 st1, json_lines ln ls st = Except.ok (ln1, st1) ∧
        (∀ r k, ¬ IsExtra true (P ++ text_before (ls.map line_chars) r k)
          (((ls.map line_chars).getD r [])[k]?)) ∧
        ln1 = ln + ls.length ∧
        st1.brace_count = depth ch_lbrace ch_rbrace (P ++ (ls.map line_chars).flatten) ∧
        st1.bracket_count =
          depth ch_lbracket ch_rbracket (P ++ (ls.map line_chars).flatten)) := by
  intro ls
  induction ls with
  | nil =>
    intro ln st P _ _ hb hk _ _
    right
    refine ⟨ln, st, rfl, ?_, rfl, by simpa using hb, by simpa using hk⟩
    intro r k
    simpa using not_extra_none true _
  | cons l rest ih =>
    intro ln st P hs hq hb hk hb0 hk0
    have hql : ch_quote ∉ line_chars l := hq _ (by simp)
    have hqr : NoQuotes (rest.map line_chars) := fun t ht => hq t (by simp [ht])
    unfold json_lines
    simp only [List.map_cons]
    rcases json_chars_scan ln (line_chars l) 0 none st P hs hql hb hk hb0 hk0 with
      ⟨k, d, h1, h2, h3, h4, h5, h6⟩ | ⟨st1, h1, h2, h3, h4, h5, h6, h7⟩
    · left
      rw [h1]
      refine ⟨0, k, d, rfl, (extra_row_zero _ _ _ _ _).mpr h2, ?_, by omega, by omega, by omega⟩
      intro r1 k1 he
      obtain ⟨rfl, hlt⟩ := earlier_zero r1 k1 k he
      rw [extra_row_zero]
      exact h3 k1 hlt
    · rw [h1]
      dsimp only
      rcases ih (ln + 1) st1 (P ++ line_chars l) h3 hqr h4 h5 h6 h7 with
        ⟨r, k, d, g1, g2, g3, g4, g5, g6⟩ | ⟨ln1, st2, g1, g2, g3, g4, g5⟩
      · left
        refine ⟨r + 1, k, d, g1, (extra_row_succ _ _ _ _ _ _).mpr g2, ?_, by omega, g5, g6⟩
        intro r1 k1 he
        cases r1 with
        | zero =>
          rw [extra_row_zero]
          exact h2 k1
        | succ r1 =>
          rw [extra_row_succ]
          apply g3
          unfold Earlier at he ⊢
          omega
      · right
        refine ⟨ln1, st2, g1, ?_, by simp only [List.length_cons]; omega, ?_, ?_⟩
        · intro r k
          cases r with
          | zero =>
            rw [extra_row_zero]
            exact h2 k
          | succ r =>
            rw [extra_row_succ]
            exact g2 r k
        · rw [g4, List.flatten_cons, List.append_assoc]
        · rw [g5, List.flatten_cons, List.append_assoc]

theorem balance_spec_of_first (json : Bool) (ts : List (List Char)) (d : SyntaxError)
    (r k : Nat) (hx : ExtraCloser json ts r k)
    (hfirst : ∀ r1 k1, Earlier r1 k1 r k → ¬ ExtraCloser json ts r1 k1)
    (hd : d.line = r + 1 ∧ d.col_start = k ∧ d.col_end = k + 1) :
    BalanceSpec json ts d := by
  constructor
  · intro r2 k2 h2
    have h3 : ¬ Earlier r2 k2 r k := fun he => hfirst r2 k2 he h2.1
    have h4 : ¬ Earlier r k r2 k2 := fun he => h2.2 r k he hx
    obtain ⟨rfl, rfl⟩ := earlier_total r2 k2 r k h3 h4
    exact hd
  · intro hno
    exact absurd hx (hno r k)

theorem check_json_spec (ls : List Line) (hq : NoQuotes (ls.map line_chars)) :
    BalanceSpec true (ls.map line_chars) (check_json ls) := by
  unfold check_json
  rcases json_lines_scan ls 1 { brace_count := 0, bracket_count := 0, in_string := false } []
      rfl hq (by simp [depth_nil]) (by simp [depth_nil]) (Int.le_refl 0) (Int.le_refl 0) with
    ⟨r, k, d, g1, g2, g3, g4, g5, g6⟩ | ⟨ln1, st1, g1, g2, g3, g4, g5⟩
  · rw [g1]
    dsimp only
    refine balance_spec_of_first true _ d r k ?_ ?_ ⟨by omega, g5, g6⟩
    · simpa [ExtraCloser] using g2
    · intro r1 k1 he
      simpa [ExtraCloser] using g3 r1 k1 he
  · rw [g1]
    dsimp only
    rw [List.nil_append] at g4 g5
    subst g3
    constructor
    · intro r k h
      exact absurd h.1 (by simpa [ExtraCloser] using g2 r k)
    · intro _
      refine ⟨?_, ?_, ?_⟩
      · intro hne
        rw [if_pos (by rw [g4]; exact hne), g4]
        simp
      · intro _ h0 hne
        rw [if_neg (by rw [g4]; simpa using h0), if_pos (by rw [g5]; exact hne), g5]
        simp
      · intro h0 h1
        rw [if_neg (by rw [g4]; simpa using h0),
          if_neg (by rw [g5]; simpa using h1 rfl)]

theorem brace_char_plain (ln i : Nat) (prev : Option Char) (c : Char) (ahead : Option Char)
    (st : BraceState) (hs : st.in_string = false) (hm : st.in_comment = false)
    (hc : c ≠ ch_quote)
    (m1 : ¬ (c = ch_slash ∧ ahead = some ch_slash))
    (m2 : ¬ (c = ch_slash ∧ ahead = some ch_star))
    (m3 : ¬ (c = ch_star ∧ ahead = some ch_slash)) :
    brace_char ln i prev c ahead st =
      if c = ch_rbrace ∧ st.brace_count - 1 < 0 then
        BraceStep.report
          { line := ln, col_start := i, col_end := i + 1
            msg := "Ortiqcha \x27\x7d\x27 - ochilmagan jingalak qavs" }
      else BraceStep.next
        { brace_count :=
            st.brace_count + (if c = ch_lbrace then 1 else 0) - (if c = ch_rbrace then 1 else 0)
          in_string := false
          in_comment := false } := by
  have h1 : ch_rbrace ≠ ch_lbrace := by decide
  unfold brace_char
  simp only [hc, false_and, if_false, hs, hm, m1, m2, m3]
  by_cases e1 : c = ch_rbrace
  · subst e1
    simp [h1]
  · by_cases e2 : c = ch_lbrace
    · subst e2
      simp [h1.symm]
    · simp [e1, e2]

theorem no_markers_cons (c : Char) (rest : List Char) (h : no_markers (c :: rest) = true) :
    ¬ (c = ch_slash ∧ rest.head? = some ch_slash) ∧
    ¬ (c = ch_slash ∧ rest.head? = some ch_star) ∧
    ¬ (c = ch_star ∧ rest.head? = some ch_slash) ∧
    no_markers rest = true := by
  unfold no_markers at h
  simp only [Bool.and_eq_true, Bool.not_eq_true', decide_eq_false_iff_not] at h
  exact ⟨h.1.1.1, h.1.1.2, h.1.2, h.2⟩

theorem brace_chars_scan (ln : Nat) :
    ∀ (cs : List Char) (i : Nat) (prev : Option Char) (st : BraceState) (P : List Char),
      st.in_string = false → st.in_comment = false → ch_quote ∉ cs → no_markers cs = true →
      st.brace_count = depth ch_lbrace ch_rbrace P → 0 ≤ st.brace_count →
      (∃ k d, brace_chars ln i prev cs st = Except.error d ∧
        IsExtra false (P ++ cs.take k) cs[k]? ∧
        (∀ k1, k1 < k → ¬ IsExtra false (P ++ cs.take k1) cs[k1]?) ∧
        d.line = ln ∧ d.col_start = i + k ∧ d.col_end = i + k + 1) ∨
      (∃ st1, brace_chars ln i prev cs st = Except.ok st1 ∧
        (∀ k, ¬ IsExtra false (P ++ cs.take k) cs[k]?) ∧
        st1.in_string = false ∧ st1.in_comment = false ∧
        st1.brace_count = depth ch_lbrace ch_rbrace (P ++ cs) ∧
        0 ≤ st1.brace_count) := by
  intro cs
  induction cs with
  | nil =>
    intro i prev st P hs hm _ _ hb hb0
    right
    refine ⟨st, rfl, ?_, hs, hm, by simpa using hb, hb0⟩
    intro k
    simpa using not_extra_none false _
  | cons c rest ih =>
    intro i prev st P hs hm hq hn hb hb0
    have hc : c ≠ ch_quote := fun h => hq (by simp [h])
    have hrest : ch_quote ∉ rest := fun h => hq (List.mem_cons_of_mem _ h)
    obtain ⟨m1, m2, m3, hn1⟩ := no_markers_cons c rest hn
    unfold brace_chars
    rw [brace_char_plain ln i prev c rest.head? st hs hm hc m1 m2 m3]
    by_cases eA : c = ch_rbrace ∧ st.brace_count - 1 < 0
    · rw [if_pos eA]
      left
      refine ⟨0, _, rfl, ?_, fun k1 h => absurd h (Nat.not_lt_zero k1), rfl, rfl, rfl⟩
      rw [is_extra_cons_zero]
      left
      exact ⟨by rw [eA.1], by omega⟩
    · rw [if_neg eA]
      dsimp only
      have hnot : ¬ IsExtra false P (some c) := by
        rintro (⟨h1, h2⟩ | ⟨h1, _, _⟩)
        · exact eA ⟨Option.some.inj h1, by omega⟩
        · cases h1
      have hb1 : st.brace_count + (if c = ch_lbrace then 1 else 0) -
          (if c = ch_rbrace then 1 else 0) = depth ch_lbrace ch_rbrace (P ++ [c]) := by
        rw [depth_snoc, hb]
      have hb2 : 0 ≤ st.brace_count + (if c = ch_lbrace then 1 else 0) -
          (if c = ch_rbrace then 1 else 0) := by
        by_cases e : c = ch_rbrace
        · have : ¬ (st.brace_count - 1 < 0) := fun h => eA ⟨e, h⟩
          split <;> simp [e] <;> omega
        · split <;> simp [e] <;> omega
      rcases ih (i + 1) (some c)
          { brace_count := st.brace_count + (if c = ch_lbrace then 1 else 0) -
              (if c = ch_rbrace then 1 else 0)
            in_string := false
            in_comment := false }
          (P ++ [c]) rfl rfl hrest hn1 hb1 hb2 with
        ⟨k, d, h1, h2, h3, h4, h5, h6⟩ | ⟨st1, h1, h2, h3, h4, h5, h6⟩
      · left
        refine ⟨k + 1, d, h1, (is_extra_cons_succ _ _ _ _ _).mpr h2, ?_, h4, by omega, by omega⟩
        intro k1 hk1lt
        cases k1 with
        | zero => rw [is_extra_cons_zero]; exact hnot
        | succ k1 =>
          rw [is_extra_cons_succ]
          exact h3 k1 (by omega)
      · right
        refine ⟨st1, h1, ?_, h3, h4, ?_, h6⟩
        · intro k
          cases k with
          | zero => rw [is_extra_cons_zero]; exact hnot
          | succ k =>
            rw [is_extra_cons_succ]
            exact h2 k
        · rw [h5, List.append_assoc]
          rfl

theorem brace_lines_scan :
    ∀ (ls : List Line) (ln : Nat) (st : BraceState) (P : List Char),
      st.in_string = false → st.in_comment = false →
      NoQuotes (ls.map line_chars) → NoCommentMarkers (ls.map line_chars) →
      st.brace_count = depth ch_lbrace ch_rbrace P → 0 ≤ st.brace_count →
      (∃ r k d, brace_lines ln ls st = Except.error d ∧
        IsExtra false (P ++ text_before (ls.map line_chars) r k)
          (((ls.map line_chars).getD r [])[k]?) ∧
        (∀ r1 k1, Earlier r1 k1 r k →
          ¬ IsExtra false (P ++ text_before (ls.map line_chars) r1 k1)
            (((ls.map line_chars).getD r1 [])[k1]?)) ∧
        d.line = ln + r ∧ d.col_start = k ∧ d.col_end = k + 1) ∨
      (∃ ln1 st1, brace_lines ln ls st = Except.ok (ln1, st1) ∧
        (∀ r k, ¬ IsExtra false (P ++ text_before (ls.map line_chars) r k)
          (((ls.map line_chars).getD r [])[k]?)) ∧
        ln1 = ln + ls.length ∧
        st1.brace_count = depth ch_lbrace ch_rbrace (P ++ (ls.map line_chars).flatten)) := by
  intro ls
  induction ls with
  | nil =>
    intro ln st P _ _ _ _ hb _
    right
    refine ⟨ln, st, rfl, ?_, rfl, by simpa using hb⟩
    intro r k
    simpa using not_extra_none false _
  | cons l rest ih =>
    intro ln st P hs hm hq hn hb hb0
    have hql : ch_quote ∉ line_chars l := hq _ (by simp)
    have hqr : NoQuotes (rest.map line_chars) := fun t ht => hq t (by simp [ht])
    have hnl : no_markers (line_chars l) = true := hn _ (by simp)
    have hnr : NoCommentMarkers (rest.map line_chars) := fun t ht => hn t (by simp [ht])
    unfold brace_lines
    simp only [List.map_cons]
    rcases brace_chars_scan ln (line_chars l) 0 none st P hs hm hql hnl hb hb0 with
      ⟨k, d, h1, h2, h3, h4, h5, h6⟩ | ⟨st1, h1, h2, h3, h4, h5, h6⟩
    · left
      rw [h1]
      refine ⟨0, k, d, rfl, (extra_row_zero _ _ _ _ _).mpr h2, ?_, by omega, by omega, by omega⟩
      intro r1 k1 he
      obtain ⟨rfl, hlt⟩ := earlier_zero r1 k1 k he
      rw [extra_row_zero]
      exact h3 k1 hlt
    · rw [h1]
      dsimp only
      rcases ih (ln + 1) st1 (P ++ line_chars l) h3 h4 hqr hnr h5 h6 with
        ⟨r, k, d, g1, g2, g3, g4, g5, g6⟩ | ⟨ln1, st2, g1, g2, g3, g4⟩
      · left
        refine ⟨r + 1, k, d, g1, (extra_row_succ _ _ _ _ _ _).mpr g2, ?_, by omega, g5, g6⟩
        intro r1 k1 he
        cases r1 with
        | zero =>
          rw [extra_row_zero]
          exact h2 k1
        | succ r1 =>
          rw [extra_row_succ]
          apply g3
          unfold Earlier at he ⊢
          omega
      · right
        refine ⟨ln1, st2, g1, ?_, by simp only [List.length_cons]; omega, ?_⟩
        · intro r k
          cases r with
          | zero =>
            rw [extra_row_zero]
            exact h2 k
          | succ r =>
            rw [extra_row_succ]
            exact g2 r k
        · rw [g4, List.flatten_cons, List.append_assoc]

theorem check_braces_spec (ls : List Line) (hq : NoQuotes (ls.map line_chars))
    (hn : NoCommentMarkers (ls.map line_chars)) :
    BalanceSpec false (ls.map line_chars) (check_braces ls) := by
  unfold check_braces
  rcases brace_lines_scan ls 1 { brace_count := 0, in_string := false, in_comment := false } []
      rfl rfl hq hn (by simp [depth_nil]) (Int.le_refl 0) with
    ⟨r, k, d, g1, g2, g3, g4, g5, g6⟩ | ⟨ln1, st1, g1, g2, g3, g4⟩
  · rw [g1]
    dsimp only
    refine balance_spec_of_first false _ d r k ?_ ?_ ⟨by omega, g5, g6⟩
    · simpa [ExtraCloser] using g2
    · intro r1 k1 he
      simpa [ExtraCloser] using g3 r1 k1 he
  · rw [g1]
    dsimp only
    rw [List.nil_append] at g4
    subst g3
    constructor
    · intro r k h
      exact absurd h.1 (by simpa [ExtraCloser] using g2 r k)
    · intro _
      refine ⟨?_, ?_, ?_⟩
      · intro hne
        rw [if_pos (by rw [g4]; exact hne), g4]
        simp
      · intro h
        cases h
      · intro h0 _
        rw [if_neg (by rw [g4]; simpa using h0)]

theorem line_chars_texts (ed : Editor) (h : LensOK ed) :
    ed.lines.map line_chars = texts ed := by
  unfold texts
  apply List.map_congr_left
  intro l hl
  unfold line_chars
  rw [h l hl, List.take_length]

theorem syntax_diagnostic_json (ed : Editor) (name : List Char)
    (hf : ed.filename = some name) (he : strrchr name ch_dot = some ".json".toList) :
    syntax_diagnostic ed = check_json ed.lines := by
  unfold syntax_diagnostic
  rw [hf]
  dsimp only
  rw [he]
  dsimp only
  rw [if_pos rfl]

theorem syntax_diagnostic_braces (ed : Editor) (name ext : List Char)
    (hf : ed.filename = some name) (he : strrchr name ch_dot = some ext)
    (hx : ext ∈ brace_extensions) :
    syntax_diagnostic ed = check_braces ed.lines := by
  have h1 : ext ≠ ".json".toList := by
    intro h; subst h; revert hx; decide
  have h2 : ¬ (ext = ".yml".toList ∨ ext = ".yaml".toList) := by
    rintro (h | h) <;> (subst h; revert hx; decide)
  have h3 : ext ≠ ".py".toList := by
    intro h; subst h; revert hx; decide
  have h4 : ¬ (ext = ".html".toList ∨ ext = ".xml".toList ∨ ext = ".htm".toList) := by
    rintro (h | h | h) <;> (subst h; revert hx; decide)
  unfold syntax_diagnostic
  rw [hf]
  dsimp only
  rw [he]
  dsimp only
  rw [if_neg h1, if_neg h2, if_neg h3, if_neg h4, if_pos hx]

theorem json_not_brace_extension : ".json".toList ∉ brace_extensions := by decide

theorem first_extra_closer_example :
    FirstExtraCloser false ["\x7b\x7d".toList, " \x7d".toList] 1 1 := by
  refine ⟨by decide, ?_⟩
  intro r1 c1 he
  rcases he with h | ⟨h, h1⟩
  · have hr : r1 = 0 := by omega
    subst hr
    match c1 with
    | 0 => decide
    | 1 => decide
    | c + 2 =>
      rintro (⟨h2, _⟩ | ⟨h2, _⟩)
      · simp [String.toList] at h2
      · cases h2
  · subst h
    have hc : c1 = 0 := by omega
    subst hc
    decide

@[simp] theorem scroll_up_fields (ed : Editor) :
    (scroll_up ed).lines = ed.lines ∧ (scroll_up ed).cursor_y = ed.cursor_y ∧
    (scroll_up ed).cursor_x = ed.cursor_x ∧ (scroll_up ed).current_line = ed.current_line ∧
    (scroll_up ed).preferred_x = ed.preferred_x ∧ (scroll_up ed).edit_height = ed.edit_height := by
  unfold scroll_up
  split <;> exact ⟨rfl, rfl, rfl, rfl, rfl, rfl⟩

theorem move_cursor_fields (ed : Editor) (dy dx : Int) :
    (move_cursor ed dy dx).lines = (move_right (move_left (move_vertical ed dy) dx) dx).lines ∧
    (move_cursor ed dy dx).cursor_y =
      (move_right (move_left (move_vertical ed dy) dx) dx).cursor_y ∧
    (move_cursor ed dy dx).cursor_x =
      (move_right (move_left (move_vertical ed dy) dx) dx).cursor_x ∧
    (move_cursor ed dy dx).current_line =
      (move_right (move_left (move_vertical ed dy) dx) dx).current_line ∧
    (move_cursor ed dy dx).preferred_x =
      (move_right (move_left (move_vertical ed dy) dx) dx).preferred_x := by
  unfold move_cursor scroll_down
  dsimp only
  have h := scroll_up_fields (move_right (move_left (move_vertical ed dy) dx) dx)
  exact ⟨h.1, h.2.1, h.2.2.1, h.2.2.2.1, h.2.2.2.2.1⟩

theorem move_left_zero (ed : Editor) : move_left ed 0 = ed := by
  unfold move_left
  simp

theorem move_right_zero (ed : Editor) : move_right ed 0 = ed := by
  unfold move_right
  simp

theorem move_vertical_zero (ed : Editor) : move_vertical ed 0 = ed := by
  unfold move_vertical
  simp

theorem move_vertical_lines (ed : Editor) (dy : Int) :
    (move_vertical ed dy).lines = ed.lines := by
  unfold move_vertical clamp_cursor_x
  split
  · rfl
  · split <;> rfl

theorem move_left_lines (ed : Editor) (dx : Int) : (move_left ed dx).lines = ed.lines := by
  unfold move_left
  split
  · rfl
  · split <;> rfl

theorem move_right_lines (ed : Editor) (dx : Int) : (move_right ed dx).lines = ed.lines := by
  unfold move_right
  split
  · rfl
  · split <;> rfl

theorem move_cursor_lines (ed : Editor) (dy dx : Int) :
    (move_cursor ed dy dx).lines = ed.lines := by
  rw [(move_cursor_fields ed dy dx).1, move_right_lines, move_left_lines, move_vertical_lines]

theorem move_down_step (ed : Editor) (hcur : ed.current_line = ed.cursor_y)
    (hnext : ed.cursor_y + 1 < ed.lines.length) :
    (move_cursor ed 1 0).cursor_y = ed.cursor_y + 1 ∧
    (move_cursor ed 1 0).current_line = ed.cursor_y + 1 ∧
    (move_cursor ed 1 0).cursor_x =
      min ed.preferred_x (deref ed.lines (ed.cursor_y + 1)).len ∧
    (move_cursor ed 1 0).preferred_x = ed.preferred_x ∧
    (move_cursor ed 1 0).lines = ed.lines := by
  obtain ⟨h1, h2, h3, h4, h5⟩ := move_cursor_fields ed 1 0
  rw [h1, h2, h3, h4, h5, move_left_zero, move_right_zero]
  unfold move_vertical clamp_cursor_x
  rw [if_neg (by omega), if_pos ⟨by decide, by rw [hcur]; exact hnext⟩]
  dsimp only
  rw [hcur]
  refine ⟨rfl, rfl, ?_, rfl, rfl⟩
  split
  · rw [Nat.min_eq_right (by omega)]
  · rw [Nat.min_eq_left (by omega)]

theorem move_up_step (ed : Editor) (hcur : ed.current_line = ed.cursor_y)
    (hprev : 0 < ed.cursor_y) :
    (move_cursor ed (-1) 0).cursor_y = ed.cursor_y - 1 ∧
    (move_cursor ed (-1) 0).current_line = ed.cursor_y - 1 ∧
    (move_cursor ed (-1) 0).cursor_x =
      min ed.preferred_x (deref ed.lines (ed.cursor_y - 1)).len ∧
    (move_cursor ed (-1) 0).preferred_x = ed.preferred_x ∧
    (move_cursor ed (-1) 0).lines = ed.lines := by
  obtain ⟨h1, h2, h3, h4, h5⟩ := move_cursor_fields ed (-1) 0
  rw [h1, h2, h3, h4, h5, move_left_zero, move_right_zero]
  unfold move_vertical clamp_cursor_x
  rw [if_pos ⟨by decide, hprev⟩]
  dsimp only
  rw [hcur]
  refine ⟨rfl, rfl, ?_, rfl, rfl⟩
  split
  · rw [Nat.min_eq_right (by omega)]
  · rw [Nat.min_eq_left (by omega)]

theorem move_vertical_stay (ed : Editor) (dy : Int)
    (h : (dy < 0 → ed.cursor_y = 0) ∧ (dy > 0 → ¬ ed.current_line + 1 < ed.lines.length)) :
    (move_cursor ed dy 0).cursor_y = ed.cursor_y ∧
    (move_cursor ed dy 0).current_line = ed.current_line ∧
    (move_cursor ed dy 0).cursor_x = ed.cursor_x ∧
    (move_cursor ed dy 0).preferred_x = ed.preferred_x ∧
    (move_cursor ed dy 0).lines = ed.lines := by
  obtain ⟨h1, h2, h3, h4, h5⟩ := move_cursor_fields ed dy 0
  rw [h1, h2, h3, h4, h5, move_left_zero, move_right_zero]
  have : move_vertical ed dy = ed := by
    unfold move_vertical
    rw [if_neg (fun hh => by have := h.1 hh.1; omega), if_neg (fun hh => h.2 hh.1 hh.2)]
  rw [this]
  exact ⟨rfl, rfl, rfl, rfl, rfl⟩

/-- C26: a vertical move by one row goes to the sibling line when it exists
and sets `cursor_x` to the minimum of `preferred_x` and the length of the
target line, leaving `preferred_x` as it was; without a sibling line the
cursor does not move. Moving down twice, over a line of any length on to a
line at least as long as the preferred column, ends in the preferred column,
which is the original column whenever the move starts from a column that is
the preferred column. -/
theorem vertical_move (ed : Editor) (hcur : ed.current_line = ed.cursor_y)
    (_hy : ed.cursor_y < ed.lines.length) :
    (0 < ed.cursor_y →
      (move_cursor ed (-1) 0).cursor_y = ed.cursor_y - 1 ∧
      (move_cursor ed (-1) 0).current_line = ed.cursor_y - 1 ∧
      (move_cursor ed (-1) 0).cursor_x =
        min ed.preferred_x (deref ed.lines (ed.cursor_y - 1)).len ∧
      (move_cursor ed (-1) 0).preferred_x = ed.preferred_x) ∧
    (ed.cursor_y = 0 →
      (move_cursor ed (-1) 0).cursor_y = ed.cursor_y ∧
      (move_cursor ed (-1) 0).current_line = ed.current_line ∧
      (move_cursor ed (-1) 0).cursor_x = ed.cursor_x ∧
      (move_cursor ed (-1) 0).preferred_x = ed.preferred_x) ∧
    (ed.cursor_y + 1 < ed.lines.length →
      (move_cursor ed 1 0).cursor_y = ed.cursor_y + 1 ∧
      (move_cursor ed 1 0).current_line = ed.cursor_y + 1 ∧
      (move_cursor ed 1 0).cursor_x =
        min ed.preferred_x (deref ed.lines (ed.cursor_y + 1)).len ∧
      (move_cursor ed 1 0).preferred_x = ed.preferred_x) ∧
    (ed.cursor_y + 1 = ed.lines.length →
      (move_cursor ed 1 0).cursor_y = ed.cursor_y ∧
      (move_cursor ed 1 0).current_line = ed.current_line ∧
      (move_cursor ed 1 0).cursor_x = ed.cursor_x ∧
      (move_cursor ed 1 0).preferred_x = ed.preferred_x) ∧
    (move_cursor ed (-1) 0).lines = ed.lines ∧
    (move_cursor ed 1 0).lines = ed.lines ∧
    (ed.cursor_y + 2 < ed.lines.length →
      ed.preferred_x ≤ (deref ed.lines (ed.cursor_y + 2)).len →
      (move_cursor (move_cursor ed 1 0) 1 0).cursor_y = ed.cursor_y + 2 ∧
      (move_cursor (move_cursor ed 1 0) 1 0).cursor_x = ed.preferred_x) ∧
    (ed.preferred_x = ed.cursor_x → ed.cursor_y + 2 < ed.lines.length →
      ed.cursor_x ≤ (deref ed.lines (ed.cursor_y + 2)).len →
      (move_cursor (move_cursor ed 1 0) 1 0).cursor_y = ed.cursor_y + 2 ∧
      (move_cursor (move_cursor ed 1 0) 1 0).cursor_x = ed.cursor_x) := by
  have hgen : ed.cursor_y + 2 < ed.lines.length →
      ed.preferred_x ≤ (deref ed.lines (ed.cursor_y + 2)).len →
      (move_cursor (move_cursor ed 1 0) 1 0).cursor_y = ed.cursor_y + 2 ∧
      (move_cursor (move_cursor ed 1 0) 1 0).cursor_x = ed.preferred_x := by
    intro h2 hlen
    obtain ⟨a1, a2, _, a4, a5⟩ := move_down_step ed hcur (by omega)
    obtain ⟨b1, _, b3, _, _⟩ :=
      move_down_step (move_cursor ed 1 0) (by rw [a1, a2]) (by rw [a1, a5]; omega)
    rw [b1, b3, a1, a4, a5]
    exact ⟨rfl, Nat.min_eq_left hlen⟩
  refine ⟨?_, ?_, ?_, ?_, move_cursor_lines ed (-1) 0, move_cursor_lines ed 1 0, hgen, ?_⟩
  · intro h
    obtain ⟨h1, h2, h3, h4, _⟩ := move_up_step ed hcur h
    exact ⟨h1, h2, h3, h4⟩
  · intro h
    obtain ⟨h1, h2, h3, h4, _⟩ :=
      move_vertical_stay ed (-1) ⟨fun _ => h, fun hh => absurd hh (by decide)⟩
    exact ⟨h1, h2, h3, h4⟩
  · intro h
    obtain ⟨h1, h2, h3, h4, _⟩ := move_down_step ed hcur h
    exact ⟨h1, h2, h3, h4⟩
  · intro h
    obtain ⟨h1, h2, h3, h4, _⟩ :=
      move_vertical_stay ed 1 ⟨fun hh => absurd hh (by decide), fun _ => by omega⟩
    exact ⟨h1, h2, h3, h4⟩
  · intro hp h2 hlen
    rw [← hp]
    exact hgen h2 (by rw [hp]; exact hlen)

theorem vertical_move_witness :
    (mk_editor ["abcdef".toList, "ab".toList, "abcdefgh".toList] 0 5).current_line =
      (mk_editor ["abcdef".toList, "ab".toList, "abcdefgh".toList] 0 5).cursor_y ∧
    (mk_editor ["abcdef".toList, "ab".toList, "abcdefgh".toList] 0 5).cursor_y <
      (mk_editor ["abcdef".toList, "ab".toList, "abcdefgh".toList] 0 5).lines.length ∧
    (move_cursor (mk_editor ["abcdef".toList, "ab".toList, "abcdefgh".toList] 0 5) 1 0).cursor_x
      = 2 ∧
    (move_cursor (move_cursor
      (mk_editor ["abcdef".toList, "ab".toList, "abcdefgh".toList] 0 5) 1 0) 1 0).cursor_y
      = 2 ∧
    (move_cursor (move_cursor
      (mk_editor ["abcdef".toList, "ab".toList, "abcdefgh".toList] 0 5) 1 0) 1 0).cursor_x
      = 5 :=
  ⟨rfl, by decide,
    ((vertical_move (mk_editor ["abcdef".toList, "ab".toList, "abcdefgh".toList] 0 5)
      rfl (by decide)).2.2.1 (by decide)).2.2.1,
    ((vertical_move (mk_editor ["abcdef".toList, "ab".toList, "abcdefgh".toList] 0 5)
      rfl (by decide)).2.2.2.2.2.2.2 rfl (by decide) (by decide)).1,
    ((vertical_move (mk_editor ["abcdef".toList, "ab".toList, "abcdefgh".toList] 0 5)
      rfl (by decide)).2.2.2.2.2.2.2 rfl (by decide) (by decide)).2⟩

theorem move_left_step (ed : Editor) (hcur : ed.current_line = ed.cursor_y) :
    (0 < ed.cursor_x →
      (move_cursor ed 0 (-1)).cursor_y = ed.cursor_y ∧
      (move_cursor ed 0 (-1)).current_line = ed.current_line ∧
      (move_cursor ed 0 (-1)).cursor_x = ed.cursor_x - 1 ∧
      (move_cursor ed 0 (-1)).preferred_x = ed.cursor_x - 1) ∧
    (ed.cursor_x = 0 → 0 < ed.cursor_y →
      (move_cursor ed 0 (-1)).cursor_y = ed.cursor_y - 1 ∧
      (move_cursor ed 0 (-1)).current_line = ed.cursor_y - 1 ∧
      (move_cursor ed 0 (-1)).cursor_x = (deref ed.lines (ed.cursor_y - 1)).len ∧
      (move_cursor ed 0 (-1)).preferred_x = (deref ed.lines (ed.cursor_y - 1)).len) ∧
    (ed.cursor_x = 0 → ed.cursor_y = 0 →
      (move_cursor ed 0 (-1)).cursor_y = ed.cursor_y ∧
      (move_cursor ed 0 (-1)).current_line = ed.current_line ∧
      (move_cursor ed 0 (-1)).cursor_x = ed.cursor_x ∧
      (move_cursor ed 0 (-1)).preferred_x = ed.preferred_x) := by
  obtain ⟨_, h2, h3, h4, h5⟩ := move_cursor_fields ed 0 (-1)
  rw [h2, h3, h4, h5, move_vertical_zero]
  have hr : ∀ e : Editor, move_right e (-1) = e := by
    intro e
    unfold move_right
    simp
  rw [hr]
  unfold move_left
  refine ⟨?_, ?_, ?_⟩
  · intro h
    rw [if_pos ⟨by decide, h⟩]
    exact ⟨rfl, rfl, rfl, rfl⟩
  · intro h0 hy
    rw [if_neg (by omega), if_pos ⟨by decide, hy⟩]
    dsimp only
    rw [hcur]
    exact ⟨rfl, rfl, rfl, rfl⟩
  · intro h0 hy
    rw [if_neg (by omega), if_neg (by omega)]
    exact ⟨rfl, rfl, rfl, rfl⟩

theorem move_right_step (ed : Editor) (hcur : ed.current_line = ed.cursor_y) :
    (ed.cursor_x < (deref ed.lines ed.cursor_y).len →
      (move_cursor ed 0 1).cursor_y = ed.cursor_y ∧
      (move_cursor ed 0 1).current_line = ed.current_line ∧
      (move_cursor ed 0 1).cursor_x = ed.cursor_x + 1 ∧
      (move_cursor ed 0 1).preferred_x = ed.cursor_x + 1) ∧
    ((deref ed.lines ed.cursor_y).len ≤ ed.cursor_x → ed.cursor_y + 1 < ed.lines.length →
      (move_cursor ed 0 1).cursor_y = ed.cursor_y + 1 ∧
      (move_cursor ed 0 1).current_line = ed.cursor_y + 1 ∧
      (move_cursor ed 0 1).cursor_x = 0 ∧
      (move_cursor ed 0 1).preferred_x = 0) ∧
    ((deref ed.lines ed.cursor_y).len ≤ ed.cursor_x → ed.lines.length ≤ ed.cursor_y + 1 →
      (move_cursor ed 0 1).cursor_y = ed.cursor_y ∧
      (move_cursor ed 0 1).current_line = ed.current_line ∧
      (move_cursor ed 0 1).cursor_x = ed.cursor_x ∧
      (move_cursor ed 0 1).preferred_x = ed.preferred_x) := by
  obtain ⟨_, h2, h3, h4, h5⟩ := move_cursor_fields ed 0 1
  rw [h2, h3, h4, h5, move_vertical_zero]
  have hl : ∀ e : Editor, move_left e 1 = e := by
    intro e
    unfold move_left
    simp
  rw [hl]
  unfold move_right
  rw [hcur]
  refine ⟨?_, ?_, ?_⟩
  · intro h
    rw [if_pos ⟨by decide, h⟩]
    exact ⟨rfl, rfl, rfl, rfl⟩
  · intro h0 hy
    rw [if_neg (by omega), if_pos ⟨by decide, hy⟩]
    exact ⟨rfl, rfl, rfl, rfl⟩
  · intro h0 hy
    rw [if_neg (by omega), if_neg (by omega)]
    exact ⟨rfl, hcur, rfl, rfl⟩

/-- C27: a horizontal move by one column moves inside the line and sets
`preferred_x` to the new column; at column 0 a left move goes to the end of
the previous line when there is one, at the end of a line a right move goes
to column 0 of the next line when there is one, and at the start and the end
of the document the cursor stays. From a cursor inside its line, a right
move followed by a left move gives back the cursor position unless the
cursor stood at the very end of the document. -/
theorem horizontal_move (ed : Editor) (hcur : ed.current_line = ed.cursor_y)
    (_hy : ed.cursor_y < ed.lines.length)
    (hx : ed.cursor_x ≤ (deref ed.lines ed.cursor_y).len) :
    (0 < ed.cursor_x →
      (move_cursor ed 0 (-1)).cursor_y = ed.cursor_y ∧
      (move_cursor ed 0 (-1)).cursor_x = ed.cursor_x - 1 ∧
      (move_cursor ed 0 (-1)).preferred_x = ed.cursor_x - 1) ∧
    (ed.cursor_x = 0 → 0 < ed.cursor_y →
      (move_cursor ed 0 (-1)).cursor_y = ed.cursor_y - 1 ∧
      (move_cursor ed 0 (-1)).cursor_x = (deref ed.lines (ed.cursor_y - 1)).len) ∧
    (ed.cursor_x = 0 → ed.cursor_y = 0 →
      (move_cursor ed 0 (-1)).cursor_y = ed.cursor_y ∧
      (move_cursor ed 0 (-1)).cursor_x = ed.cursor_x) ∧
    (ed.cursor_x < (deref ed.lines ed.cursor_y).len →
      (move_cursor ed 0 1).cursor_y = ed.cursor_y ∧
      (move_cursor ed 0 1).cursor_x = ed.cursor_x + 1 ∧
      (move_cursor ed 0 1).preferred_x = ed.cursor_x + 1) ∧
    (ed.cursor_x = (deref ed.lines ed.cursor_y).len → ed.cursor_y + 1 < ed.lines.length →
      (move_cursor ed 0 1).cursor_y = ed.cursor_y + 1 ∧
      (move_cursor ed 0 1).cursor_x = 0) ∧
    (ed.cursor_x = (deref ed.lines ed.cursor_y).len → ed.cursor_y + 1 = ed.lines.length →
      (move_cursor ed 0 1).cursor_y = ed.cursor_y ∧
      (move_cursor ed 0 1).cursor_x = ed.cursor_x) ∧
    (move_cursor ed 0 (-1)).lines = ed.lines ∧
    (move_cursor ed 0 1).lines = ed.lines ∧
    (¬ (ed.cursor_y + 1 = ed.lines.length ∧ ed.cursor_x = (deref ed.lines ed.cursor_y).len) →
      (move_cursor (move_cursor ed 0 1) 0 (-1)).cursor_y = ed.cursor_y ∧
      (move_cursor (move_cursor ed 0 1) 0 (-1)).cursor_x = ed.cursor_x ∧
      (move_cursor (move_cursor ed 0 1) 0 (-1)).current_line = ed.current_line) := by
  obtain ⟨l1, l2, l3⟩ := move_left_step ed hcur
  obtain ⟨r1, r2, r3⟩ := move_right_step ed hcur
  refine ⟨?_, ?_, ?_, ?_, ?_, ?_, move_cursor_lines ed 0 (-1), move_cursor_lines ed 0 1, ?_⟩
  · intro h
    exact ⟨(l1 h).1, (l1 h).2.2.1, (l1 h).2.2.2⟩
  · intro h0 h
    exact ⟨(l2 h0 h).1, (l2 h0 h).2.2.1⟩
  · intro h0 h
    exact ⟨(l3 h0 h).1, (l3 h0 h).2.2.1⟩
  · intro h
    exact ⟨(r1 h).1, (r1 h).2.2.1, (r1 h).2.2.2⟩
  · intro h0 h
    exact ⟨(r2 (by omega) h).1, (r2 (by omega) h).2.2.1⟩
  · intro h0 h
    exact ⟨(r3 (by omega) (by omega)).1, (r3 (by omega) (by omega)).2.2.1⟩
  · intro hne
    by_cases hlt : ed.cursor_x < (deref ed.lines ed.cursor_y).len
    · obtain ⟨a1, a2, a3, _⟩ := r1 hlt
      obtain ⟨b1, _, _⟩ := move_left_step (move_cursor ed 0 1) (by rw [a1, a2]; exact hcur)
      obtain ⟨c1, c2, c3, _⟩ := b1 (by rw [a3]; omega)
      rw [c1, c2, c3, a1, a2, a3]
      exact ⟨rfl, by omega, rfl⟩
    · have hxe : ed.cursor_x = (deref ed.lines ed.cursor_y).len := by omega
      have hnext : ed.cursor_y + 1 < ed.lines.length := by omega
      obtain ⟨a1, a2, a3, _⟩ := r2 (by omega) hnext
      obtain ⟨_, b2, _⟩ := move_left_step (move_cursor ed 0 1) (by rw [a1, a2])
      obtain ⟨c1, c2, c3, _⟩ := b2 a3 (by rw [a1]; omega)
      rw [c1, c2, c3, a1, move_cursor_lines]
      exact ⟨rfl, by rw [hxe]; rfl, by rw [hcur]; rfl⟩

theorem horizontal_move_witness :
    (mk_editor ["ab".toList, "cde".toList] 0 2).current_line =
      (mk_editor ["ab".toList, "cde".toList] 0 2).cursor_y ∧
    (mk_editor ["ab".toList, "cde".toList] 0 2).cursor_y <
      (mk_editor ["ab".toList, "cde".toList] 0 2).lines.length ∧
    (mk_editor ["ab".toList, "cde".toList] 0 2).cursor_x ≤
      (deref (mk_editor ["ab".toList, "cde".toList] 0 2).lines
        (mk_editor ["ab".toList, "cde".toList] 0 2).cursor_y).len ∧
    (move_cursor (mk_editor ["ab".toList, "cde".toList] 0 2) 0 1).cursor_y = 1 ∧
    (move_cursor (mk_editor ["ab".toList, "cde".toList] 0 2) 0 1).cursor_x = 0 ∧
    (move_cursor (move_cursor (mk_editor ["ab".toList, "cde".toList] 0 2) 0 1)
      0 (-1)).cursor_y = 0 ∧
    (move_cursor (move_cursor (mk_editor ["ab".toList, "cde".toList] 0 2) 0 1)
      0 (-1)).cursor_x = 2 :=
  ⟨rfl, by decide, by decide,
    ((horizontal_move (mk_editor ["ab".toList, "cde".toList] 0 2) rfl (by decide)
      (by decide)).2.2.2.2.1 (by decide) (by decide)).1,
    ((horizontal_move (mk_editor ["ab".toList, "cde".toList] 0 2) rfl (by decide)
      (by decide)).2.2.2.2.1 (by decide) (by decide)).2,
    ((horizontal_move (mk_editor ["ab".toList, "cde".toList] 0 2) rfl (by decide)
      (by decide)).2.2.2.2.2.2.2.2 (by decide)).1,
    ((horizontal_move (mk_editor ["ab".toList, "cde".toList] 0 2) rfl (by decide)
      (by decide)).2.2.2.2.2.2.2.2 (by decide)).2.1⟩

/-! ## The scroll window -/

theorem scroll_loop_spec :
    ∀ (fuel cursor_y edit_height offset_y : Nat), cursor_y + 1 ≤ fuel + offset_y →
      offset_y ≤ scroll_loop fuel cursor_y edit_height offset_y ∧
      cursor_y < scroll_loop fuel cursor_y edit_height offset_y + edit_height ∨
        (edit_height = 0 ∧ cursor_y < offset_y ∧
          scroll_loop fuel cursor_y edit_height offset_y = offset_y) := by
  intro fuel
  induction fuel with
  | zero =>
    intro cy h oy hf
    unfold scroll_loop
    by_cases hh : h = 0
    · right
      exact ⟨hh, by omega, rfl⟩
    · left
      exact ⟨Nat.le_refl _, by omega⟩
  | succ n ih =>
    intro cy h oy hf
    unfold scroll_loop
    by_cases hc : oy + h ≤ cy
    · rw [if_pos hc]
      rcases ih cy h (oy + 1) (by omega) with ⟨h1, h2⟩ | ⟨h1, h2, h3⟩
      · left
        exact ⟨by omega, h2⟩
      · left
        rw [h3]
        exact ⟨by omega, by omega⟩
    · rw [if_neg hc]
      left
      exact ⟨Nat.le_refl _, by omega⟩

theorem scroll_loop_le :
    ∀ (fuel cursor_y edit_height offset_y : Nat), 0 < edit_height → offset_y ≤ cursor_y →
      scroll_loop fuel cursor_y edit_height offset_y ≤ cursor_y := by
  intro fuel
  induction fuel with
  | zero =>
    intro cy h oy _ ho
    exact ho
  | succ n ih =>
    intro cy h oy hh ho
    unfold scroll_loop
    by_cases hc : oy + h ≤ cy
    · rw [if_pos hc]
      exact ih cy h (oy + 1) hh (by omega)
    · rw [if_neg hc]
      exact ho

theorem scroll_window (ed : Editor) (hh : 0 < ed.edit_height) :
    InWindow (scroll_down (scroll_up ed)) := by
  have hup : (scroll_up ed).offset_y ≤ ed.cursor_y := by
    unfold scroll_up
    split
    · exact Nat.le_refl _
    · omega
  obtain ⟨_, h2, _, _, _, h6⟩ := scroll_up_fields ed
  unfold InWindow scroll_down
  dsimp only
  rw [h2, h6]
  rcases scroll_loop_spec (ed.cursor_y + 1) ed.cursor_y ed.edit_height (scroll_up ed).offset_y
      (by omega) with ⟨_, h⟩ | ⟨h, _, _⟩
  · exact ⟨scroll_loop_le _ _ _ _ hh hup, h⟩
  · omega

theorem move_vertical_height (ed : Editor) (dy : Int) :
    (move_vertical ed dy).edit_height = ed.edit_height := by
  unfold move_vertical clamp_cursor_x
  split
  · rfl
  · split <;> rfl

theorem move_left_height (ed : Editor) (dx : Int) :
    (move_left ed dx).edit_height = ed.edit_height := by
  unfold move_left
  split
  · rfl
  · split <;> rfl

theorem move_right_height (ed : Editor) (dx : Int) :
    (move_right ed dx).edit_height = ed.edit_height := by
  unfold move_right
  split
  · rfl
  · split <;> rfl

theorem move_cursor_in_window (ed : Editor) (dy dx : Int) (hh : 0 < ed.edit_height) :
    InWindow (move_cursor ed dy dx) := by
  have h := scroll_window (move_right (move_left (move_vertical ed dy) dx) dx)
    (by rw [move_right_height, move_left_height, move_vertical_height]; exact hh)
  unfold move_cursor
  exact h

theorem page_up_loop_spec :
    ∀ (n : Nat) (ed : Editor), ed.current_line = ed.cursor_y →
      (page_up_loop n ed).cursor_y = ed.cursor_y - n ∧
      (page_up_loop n ed).current_line = ed.cursor_y - n ∧
      (page_up_loop n ed).offset_y = ed.offset_y ∧
      (page_up_loop n ed).edit_height = ed.edit_height ∧
      (page_up_loop n ed).lines = ed.lines := by
  intro n
  induction n with
  | zero =>
    intro ed hcur
    exact ⟨rfl, hcur, rfl, rfl, rfl⟩
  | succ n ih =>
    intro ed hcur
    unfold page_up_loop
    by_cases hy : ed.cursor_y > 0
    · rw [if_pos hy, if_pos (by omega)]
      obtain ⟨h1, h2, h3, h4, h5⟩ := ih
        { ed with current_line := ed.current_line - 1, cursor_y := ed.cursor_y - 1 }
        (by show ed.current_line - 1 = ed.cursor_y - 1; rw [hcur])
      rw [h1, h2, h3, h4, h5]
      exact ⟨by show ed.cursor_y - 1 - n = _; omega, by show ed.cursor_y - 1 - n = _; omega,
        rfl, rfl, rfl⟩
    · rw [if_neg hy]
      exact ⟨by omega, by omega, rfl, rfl, rfl⟩

theorem page_down_loop_spec :
    ∀ (n : Nat) (ed : Editor), ed.current_line = ed.cursor_y →
      ed.cursor_y < ed.lines.length →
      (page_down_loop n ed).cursor_y = min (ed.cursor_y + n) (ed.lines.length - 1) ∧
      (page_down_loop n ed).current_line = min (ed.cursor_y + n) (ed.lines.length - 1) ∧
      (page_down_loop n ed).offset_y = ed.offset_y ∧
      (page_down_loop n ed).edit_height = ed.edit_height ∧
      (page_down_loop n ed).lines = ed.lines := by
  intro n
  induction n with
  | zero =>
    intro ed hcur hy
    have : min (ed.cursor_y + 0) (ed.lines.length - 1) = ed.cursor_y := by
      rw [Nat.add_zero]
      exact Nat.min_eq_left (by omega)
    rw [this]
    exact ⟨rfl, hcur, rfl, rfl, rfl⟩
  | succ n ih =>
    intro ed hcur hy
    unfold page_down_loop
    by_cases hn : ed.current_line + 1 < ed.lines.length
    · rw [if_pos hn]
      obtain ⟨h1, h2, h3, h4, h5⟩ := ih
        { ed with current_line := ed.current_line + 1, cursor_y := ed.cursor_y + 1 }
        (by show ed.current_line + 1 = ed.cursor_y + 1; rw [hcur])
        (by show ed.cursor_y + 1 < ed.lines.length; omega)
      rw [h1, h2, h3, h4, h5]
      have : ed.cursor_y + 1 + n = ed.cursor_y + (n + 1) := by omega
      exact ⟨by show min (ed.cursor_y + 1 + n) _ = _; rw [this],
        by show min (ed.cursor_y + 1 + n) _ = _; rw [this], rfl, rfl, rfl⟩
    · rw [if_neg hn]
      have : min (ed.cursor_y + (n + 1)) (ed.lines.length - 1) = ed.cursor_y := by
        rw [Nat.min_eq_right (by omega)]
        omega
      rw [this]
      exact ⟨rfl, hcur, rfl, rfl, rfl⟩

theorem page_up_spec (ed : Editor) (hcur : ed.current_line = ed.cursor_y) :
    (page_up ed).cursor_y = ed.cursor_y - ed.edit_height ∧
    (0 < ed.edit_height → InWindow ed → InWindow (page_up ed)) := by
  obtain ⟨h1, _, h3, h4, _⟩ := page_up_loop_spec ed.edit_height ed hcur
  obtain ⟨_, g2, _, _, _, g6⟩ := scroll_up_fields (page_up_loop ed.edit_height ed)
  refine ⟨?_, ?_⟩
  · show (scroll_up (page_up_loop ed.edit_height ed)).cursor_y = _
    rw [g2, h1]
  · intro hh hw
    unfold InWindow at hw ⊢
    show (scroll_up (page_up_loop ed.edit_height ed)).offset_y ≤
        (scroll_up (page_up_loop ed.edit_height ed)).cursor_y ∧
      (scroll_up (page_up_loop ed.edit_height ed)).cursor_y <
        (scroll_up (page_up_loop ed.edit_height ed)).offset_y +
          (scroll_up (page_up_loop ed.edit_height ed)).edit_height
    rw [g2, g6, h1, h4]
    unfold scroll_up
    split
    · show (page_up_loop ed.edit_height ed).cursor_y ≤ ed.cursor_y - ed.edit_height ∧
        ed.cursor_y - ed.edit_height < (page_up_loop ed.edit_height ed).cursor_y + ed.edit_height
      rw [h1]
      omega
    · rw [h3]
      rename_i hlt
      rw [h1, h3] at hlt
      omega

theorem page_down_spec (ed : Editor) (hcur : ed.current_line = ed.cursor_y)
    (hy : ed.cursor_y < ed.lines.length) :
    (page_down ed).cursor_y = min (ed.cursor_y + ed.edit_height) (ed.lines.length - 1) ∧
    (0 < ed.edit_height → InWindow ed → InWindow (page_down ed)) := by
  obtain ⟨h1, _, h3, h4, _⟩ := page_down_loop_spec ed.edit_height ed hcur hy
  refine ⟨?_, ?_⟩
  · show (page_down_loop ed.edit_height ed).cursor_y = _
    rw [h1]
  · intro hh hw
    unfold InWindow at hw ⊢
    show scroll_loop ((page_down_loop ed.edit_height ed).cursor_y + 1)
          (page_down_loop ed.edit_height ed).cursor_y
          (page_down_loop ed.edit_height ed).edit_height
          (page_down_loop ed.edit_height ed).offset_y ≤
        (page_down_loop ed.edit_height ed).cursor_y ∧
      (page_down_loop ed.edit_height ed).cursor_y <
        scroll_loop ((page_down_loop ed.edit_height ed).cursor_y + 1)
          (page_down_loop ed.edit_height ed).cursor_y
          (page_down_loop ed.edit_height ed).edit_height
          (page_down_loop ed.edit_height ed).offset_y +
          (page_down_loop ed.edit_height ed).edit_height
    rw [h3, h4]
    have hle : ed.offset_y ≤ (page_down_loop ed.edit_height ed).cursor_y := by
      rw [h1]
      exact Nat.le_min.mpr ⟨by omega, by omega⟩
    refine ⟨scroll_loop_le _ _ _ _ hh hle, ?_⟩
    rcases scroll_loop_spec ((page_down_loop ed.edit_height ed).cursor_y + 1)
        (page_down_loop ed.edit_height ed).cursor_y ed.edit_height ed.offset_y
        (by omega) with ⟨_, h⟩ | ⟨h, _, _⟩
    · exact h
    · omega

/-- C25: `page_up` and `page_down` can leave the cursor's line outside the
scroll window. After five newlines typed into the empty document in a
viewport of height 2 the cursor is on row 5 with `offset_y = 0` (no edit
adjusts the scroll); `page_up` moves it to row 3 and leaves `offset_y = 0`.
After one newline, five moves down and an undo in a six-line document the
cursor is on row 0 with `offset_y = 5`; `page_down` moves it to row 2 and
leaves `offset_y = 5`. -/
theorem page_moves_leave_window :
    0 < small_view.edit_height ∧
    (newlines 5 small_view).cursor_y = 5 ∧
    (newlines 5 small_view).offset_y = 0 ∧
    (page_up (newlines 5 small_view)).cursor_y = 3 ∧
    (page_up (newlines 5 small_view)).offset_y = 0 ∧
    ¬ InWindow (page_up (newlines 5 small_view)) ∧
    0 < scrolled_then_undone.edit_height ∧
    scrolled_then_undone.cursor_y = 0 ∧
    scrolled_then_undone.offset_y = 5 ∧
    (page_down scrolled_then_undone).cursor_y = 2 ∧
    (page_down scrolled_then_undone).offset_y = 5 ∧
    ¬ InWindow (page_down scrolled_then_undone) := by
  decide

/-! ## The mouse state machine -/

theorem deref_data (ls : List Line) (y : Nat) :
    (deref ls y).data = (ls.map Line.data).getD y [] := by
  unfold deref
  rw [List.getD_eq_getElem?_getD, List.getD_eq_getElem?_getD, List.getElem?_map]
  cases ls[y]? <;> rfl

theorem copy_selection_span (ed : Editor) (hact : ed.sel_active = true)
    (hstart : ed.sel_start_y < ed.lines.length) (hend : ed.sel_end_y < ed.lines.length) :
    (copy_selection ed).clipboard =
      span_between (texts ed) ed.sel_start_y ed.sel_start_x ed.sel_end_y ed.sel_end_x := by
  have key : ∀ loy lox hiy hix,
      normalize ed.sel_start_y ed.sel_start_x ed.sel_end_y ed.sel_end_x =
        ((loy, lox), (hiy, hix)) →
      loy ≤ hiy → loy < ed.lines.length → hiy < ed.lines.length →
      (copy_selection ed).clipboard = span_text (texts ed) loy lox hiy hix := by
    intro loy lox hiy hix hn hord hloy hhiy
    have hclip := copy_selection_clipboard ed loy lox hiy hix hact hn
    have hdrop : ed.lines.drop loy = deref ed.lines loy :: ed.lines.drop (loy + 1) := by
      rw [deref_eq_getElem ed.lines loy hloy]
      exact List.drop_eq_getElem_cons hloy
    unfold span_text texts
    by_cases he : loy = hiy
    · subst he
      rw [if_pos rfl, hclip, hdrop]
      have h1 : loy - loy + 1 = 1 := by omega
      rw [h1, copy_loop_single, deref_data]
    · rw [if_neg he, hclip, hdrop]
      unfold copy_loop
      rw [if_pos (by omega)]
      have hfrag : copy_fragment loy lox hiy hix (hiy - loy + 1) 0 (deref ed.lines loy) =
          (deref ed.lines loy).data.drop lox := by
        unfold copy_fragment
        rw [if_neg he, if_pos rfl]
      rw [hfrag, copy_loop_tail loy lox hiy hix (hiy - loy + 1) he (hiy - loy - 1) (0 + 1)
        (ed.lines.drop (loy + 1)) (by omega) (by omega)
        (by simp only [List.length_drop]; omega)]
      rw [deref_drop]
      have h2 : loy + 1 + (hiy - loy - 1) = hiy := by omega
      rw [h2, deref_data, deref_data]
      simp [List.map_take, List.map_drop]
  unfold span_between
  rcases normalize_cases ed.sel_start_y ed.sel_start_x ed.sel_end_y ed.sel_end_x with
    ⟨h1, h2⟩ | ⟨h1, h2⟩
  · rw [if_pos h2]
    exact key _ _ _ _ h1 (by omega) hstart hend
  · rw [if_neg (by omega)]
    exact key _ _ _ _ h1 (by omega) hend hstart

theorem mouse_line_eq (ed : Editor) (event : MEVENT) (hl : LinesOK ed) :
    mouse_line ed event = cell_row ed event.y ∧ mouse_line ed event < ed.lines.length := by
  obtain ⟨hne, ht⟩ := hl
  have hpos : 0 < ed.lines.length := List.length_pos.mpr hne
  unfold mouse_line cell_row
  dsimp only
  rw [ht]
  split
  · rw [Nat.min_eq_right (by omega)]
    omega
  · rw [Nat.min_eq_left (by omega)]
    omega

theorem mouse_col_eq (event : MEVENT) (target : Line) :
    mouse_col event target = min (event.x - LINE_NUMBER_WIDTH) target.len := by
  unfold mouse_col
  dsimp only
  split
  · rw [Nat.min_eq_right (by omega)]
  · rw [Nat.min_eq_left (by omega)]

theorem get_line_at_row (ed : Editor) (y : Nat) (h : y < ed.lines.length) :
    get_line_at ed y = some (deref ed.lines y) := by
  unfold get_line_at
  rw [deref_eq_getElem ed.lines y h]
  exact List.getElem?_eq_getElem h

theorem handle_press (ed : Editor) (y x : Nat) (hl : LinesOK ed)
    (hs : ed.edit_height + 2 ≤ ed.screen_height) (hp : InTextArea ed y x) :
    handle_mouse ed (press_at y x) =
      { ed with
        current_line := cell_row ed y
        cursor_y := cell_row ed y
        cursor_x := cell_col ed y x
        preferred_x := cell_col ed y x
        mouse_pressed := true
        sel_start_y := cell_row ed y
        sel_start_x := cell_col ed y x
        sel_end_y := cell_row ed y
        sel_end_x := cell_col ed y x
        sel_active := false } := by
  obtain ⟨h1, h2⟩ := mouse_line_eq ed (press_at y x) hl
  unfold handle_mouse
  rw [if_neg (by
    rintro ⟨h, _⟩
    have : y + 2 = ed.screen_height := h
    have := hp.1
    omega)]
  rw [if_pos (show (press_at y x).y < ed.edit_height ∧ (press_at y x).x ≥ LINE_NUMBER_WIDTH from
    ⟨hp.1, hp.2⟩)]
  dsimp only
  rw [if_neg (show ¬ (press_at y x).button3_pressed = true by simp [press_at]),
    if_pos (show (press_at y x).button1_pressed = true from rfl),
    get_line_at_row ed _ h2]
  dsimp only
  rw [mouse_col_eq, h1]
  rfl

theorem handle_release (ed : Editor) (y x : Nat) (hl : LinesOK ed)
    (hp : InTextArea ed y x) (hm : ed.mouse_pressed = true) :
    handle_mouse ed (release_at y x) =
      if ed.sel_start_y ≠ cell_row ed y ∨ ed.sel_start_x ≠ cell_col ed y x then
        { set_message
            (copy_selection
              { ed with
                sel_end_y := cell_row ed y
                sel_end_x := cell_col ed y x
                sel_active := true })
            "Copied (mouse selection)" with mouse_pressed := false }
      else
        { ed with
          sel_end_y := cell_row ed y
          sel_end_x := cell_col ed y x
          sel_active := false
          mouse_pressed := false } := by
  obtain ⟨h1, h2⟩ := mouse_line_eq ed (release_at y x) hl
  unfold handle_mouse
  rw [if_neg (by
    rintro ⟨_, h⟩
    exact absurd h (by simp [release_at]))]
  rw [if_pos (show (release_at y x).y < ed.edit_height ∧
    (release_at y x).x ≥ LINE_NUMBER_WIDTH from ⟨hp.1, hp.2⟩)]
  dsimp only
  rw [if_neg (show ¬ (release_at y x).button3_pressed = true by simp [release_at]),
    if_neg (show ¬ (release_at y x).button1_pressed = true by simp [release_at]),
    if_pos (show (release_at y x).button1_released = true from rfl), if_pos hm,
    get_line_at_row ed _ h2]
  dsimp only
  have h1' : mouse_line ed (release_at y x) = cell_row ed y := h1
  have hcol : mouse_col (release_at y x) (deref ed.lines (cell_row ed y)) =
      cell_col ed y x := by
    rw [mouse_col_eq]
    rfl
  rw [h1', hcol]
  by_cases hc : ed.sel_start_y ≠ cell_row ed y ∨ ed.sel_start_x ≠ cell_col ed y x
  · simp only [if_pos hc]
  · simp only [if_neg hc]

theorem draw_screen_frame (ed : Editor) : MouseFrame (draw_screen ed) ed := by
  unfold draw_screen check_syntax_error
  dsimp only
  split <;> exact ⟨rfl, rfl, rfl, rfl, rfl, rfl, rfl, rfl, rfl, rfl, rfl⟩

theorem handle_drag_frame (ed : Editor) (event : MEVENT) (hd : IsDrag event) :
    MouseFrame (handle_mouse ed event) ed := by
  obtain ⟨d1, d2, d3, d4⟩ := hd
  have hrefl : MouseFrame ed ed := ⟨rfl, rfl, rfl, rfl, rfl, rfl, rfl, rfl, rfl, rfl, rfl⟩
  unfold handle_mouse
  rw [if_neg (by rw [d1]; simp)]
  split
  · dsimp only
    rw [if_neg (by rw [d3]; simp), if_neg (by rw [d1]; simp), if_neg (by rw [d2]; simp)]
    split
    · split
      · exact hrefl
      · exact draw_screen_frame _
    · exact hrefl
  · exact hrefl

theorem handle_drags_frame :
    ∀ (drags : List MEVENT) (ed : Editor), (∀ e ∈ drags, IsDrag e) →
      MouseFrame (handle_mouse_events ed drags) ed := by
  intro drags
  induction drags with
  | nil =>
    intro ed _
    exact ⟨rfl, rfl, rfl, rfl, rfl, rfl, rfl, rfl, rfl, rfl, rfl⟩
  | cons e rest ih =>
    intro ed hd
    unfold handle_mouse_events
    obtain ⟨a1, a2, a3, a4, a5, a6, a7, a8, a9, a10, a11⟩ :=
      ih (handle_mouse ed e) (fun x hx => hd x (List.mem_cons_of_mem _ hx))
    obtain ⟨b1, b2, b3, b4, b5, b6, b7, b8, b9, b10, b11⟩ :=
      handle_drag_frame ed e (hd e (List.mem_cons_self _ _))
    exact ⟨a1.trans b1, a2.trans b2, a3.trans b3, a4.trans b4, a5.trans b5, a6.trans b6,
      a7.trans b7, a8.trans b8, a9.trans b9, a10.trans b10, a11.trans b11⟩
theorem copy_selection_frame (e : Editor) (he : e.sel_active = true) :
    (copy_selection e).lines = e.lines ∧
    (copy_selection e).cursor_y = e.cursor_y ∧
    (copy_selection e).cursor_x = e.cursor_x ∧
    (copy_selection e).sel_active = true ∧
    (copy_selection e).sel_start_y = e.sel_start_y ∧
    (copy_selection e).sel_start_x = e.sel_start_x ∧
    (copy_selection e).sel_end_y = e.sel_end_y ∧
    (copy_selection e).sel_end_x = e.sel_end_x := by
  unfold copy_selection
  rw [if_neg (by simp [he])]
  exact ⟨rfl, rfl, rfl, he, rfl, rfl, rfl, rfl⟩

theorem cell_congr (a b : Editor) (y x : Nat) (hlines : a.lines = b.lines)
    (hoff : a.offset_y = b.offset_y) :
    cell_row a y = cell_row b y ∧ cell_col a y x = cell_col b y x := by
  unfold cell_col cell_row
  rw [hlines, hoff]
  exact ⟨rfl, rfl⟩

/-- C29: a motion report that resolves to the anchor itself activates the
selection. After a press at screen cell (0, 6) of the one-line document
"abc" the anchor is (0, 1); a motion report at the same cell keeps cursor
and anchor, sets the active point to (0, 1), and sets `sel_active`, although
the anchor equals the active point. The release branch tests that the two
points differ before it activates the selection. -/
theorem drag_to_anchor_activates_selection :
    IsDrag (drag_at 0 6) ∧
    (handle_mouse (mk_editor ["abc".toList] 0 0) (press_at 0 6)).mouse_pressed = true ∧
    (handle_mouse (handle_mouse (mk_editor ["abc".toList] 0 0) (press_at 0 6))
      (drag_at 0 6)).cursor_y = 0 ∧
    (handle_mouse (handle_mouse (mk_editor ["abc".toList] 0 0) (press_at 0 6))
      (drag_at 0 6)).cursor_x = 1 ∧
    selection (handle_mouse (handle_mouse (mk_editor ["abc".toList] 0 0) (press_at 0 6))
      (drag_at 0 6)) = (true, (0, 1), (0, 1)) ∧
    selection (handle_mouse (handle_mouse (handle_mouse (mk_editor ["abc".toList] 0 0)
      (press_at 0 6)) (drag_at 0 6)) (release_at 0 6)) = (false, (0, 1), (0, 1)) := by
  decide

/-- C30: a release outside the text area is ignored. After a press at
screen cell (0, 6) a release in the line-number gutter, at cell (0, 2), or
on the help line, at cell (23, 6), leaves `mouse_pressed` set; and a release
in the gutter received while idle leaves an active selection active. A
release inside the text area does clear `mouse_pressed`. -/
theorem release_outside_text_area_ignored :
    (handle_mouse (mk_editor ["abc".toList] 0 0) (press_at 0 6)).mouse_pressed = true ∧
    ¬ InTextArea (handle_mouse (mk_editor ["abc".toList] 0 0) (press_at 0 6)) 0 2 ∧
    (handle_mouse (handle_mouse (mk_editor ["abc".toList] 0 0) (press_at 0 6))
      (release_at 0 2)).mouse_pressed = true ∧
    ¬ InTextArea (handle_mouse (mk_editor ["abc".toList] 0 0) (press_at 0 6)) 23 6 ∧
    (handle_mouse (handle_mouse (mk_editor ["abc".toList] 0 0) (press_at 0 6))
      (release_at 23 6)).mouse_pressed = true ∧
    (handle_mouse (handle_mouse (mk_editor ["abc".toList] 0 0) (press_at 0 6))
      (release_at 0 7)).mouse_pressed = false ∧
    sample_selected.mouse_pressed = false ∧
    sample_selected.sel_active = true ∧
    (handle_mouse sample_selected (release_at 0 2)).sel_active = true ∧
    (handle_mouse sample_selected (release_at 0 7)).sel_active = false := by
  decide

/-- C24: the cell at which `draw_screen` places the cursor does not resolve
back to the cursor's position once a line wraps. In a viewport 10 columns
wide, with a first line of 15 characters taking two screen rows, the cursor
at (1, 1) is drawn at screen cell (2, 6) and a press there resolves to
(2, 1); the cursor at (0, 12) is drawn at screen cell (1, 7) and a press
there resolves to (1, 2). A position on the first screen row of the first
line does resolve back: the cursor at (0, 3) is drawn at cell (0, 8), and a
press there resolves to (0, 3). -/
theorem mouse_ignores_wrapped_rows :
    0 < (wrapped_view 1 1).edit_width ∧
    cursor_screen (wrapped_view 1 1) = some (2, 6) ∧
    InTextArea (wrapped_view 1 1) 2 6 ∧
    press_resolves (wrapped_view 1 1) 2 6 = (2, 1) ∧
    cursor_screen (wrapped_view 0 12) = some (1, 7) ∧
    InTextArea (wrapped_view 0 12) 1 7 ∧
    press_resolves (wrapped_view 0 12) 1 7 = (1, 2) ∧
    cursor_screen (wrapped_view 0 3) = some (0, 8) ∧
    press_resolves (wrapped_view 0 3) 0 8 = (0, 3) := by
  decide

/-! ## C21: comments in the C-like scan -/

/-- C21: a block comment that holds `//` is never closed by the scan. On
the one-line file `/* // */ }` the text after blanking the comment is nine
spaces and a closing brace, whose diagnostic is the extra brace at column 9,
but the scan of the file itself leaves the line at `//` and reports
nothing. On the two-line file `/* http://x */`, `{` the blanked text has an
unclosed brace on line 2, but the scan still considers itself inside the
comment on line 2 and reports nothing. -/
theorem block_comment_with_slashes_never_ends :
    spec_blank_lines false ["/* // */ \x7d".toList] = ["         \x7d".toList] ∧
    (check_syntax_error (mk_file "a.c" ["         \x7d"])).syntax_error =
      { line := 1, col_start := 9, col_end := 10
        msg := "Ortiqcha \x27\x7d\x27 - ochilmagan jingalak qavs" } ∧
    (check_syntax_error (mk_file "a.c" ["/* // */ \x7d"])).syntax_error = no_error ∧
    spec_blank_lines false ["/* http://x */".toList, "\x7b".toList] =
      ["              ".toList, "\x7b".toList] ∧
    (check_syntax_error (mk_file "a.c" ["              ", "\x7b"])).syntax_error =
      { line := 2, col_start := 0, col_end := 0
        msg := "Unclosed \x27\x7b\x27 - 1 open brace(s)" } ∧
    (check_syntax_error (mk_file "a.c" ["/* http://x */", "\x7b"])).syntax_error =
      no_error := by
  decide

/-! ## C22: the YAML block -/

theorem yaml_tab_none : ∀ (t : List Char) (i : Nat), yaml_tab i t = none → ch_tab ∉ t := by
  intro t
  induction t with
  | nil =>
    intro i _ h
    cases h
  | cons c rest ih =>
    intro i h hm
    unfold yaml_tab at h
    by_cases hc : c = ch_tab
    · rw [if_pos hc] at h
      cases h
    · rw [if_neg hc] at h
      rcases List.mem_cons.mp hm with h1 | h1
      · exact hc h1.symm
      · exact ih (i + 1) h h1

theorem yaml_tab_some : ∀ (t : List Char) (i j : Nat), yaml_tab i t = some j →
    ∃ c, j = i + c ∧ TabAt t c ∧ ∀ c1, c1 < c → ¬ TabAt t c1 := by
  intro t
  induction t with
  | nil =>
    intro i j h
    cases h
  | cons c rest ih =>
    intro i j h
    unfold yaml_tab at h
    by_cases hc : c = ch_tab
    · rw [if_pos hc] at h
      refine ⟨0, by injection h with h; omega, by unfold TabAt; simp [hc], ?_⟩
      intro c1 h1
      omega
    · rw [if_neg hc] at h
      obtain ⟨k, h1, h2, h3⟩ := ih (i + 1) j h
      refine ⟨k + 1, by omega, by unfold TabAt at h2 ⊢; simpa using h2, ?_⟩
      intro c1 hlt
      cases c1 with
      | zero =>
        unfold TabAt
        simp only [List.getElem?_cons_zero, Option.some.injEq]
        exact hc
      | succ c1 =>
        have := h3 c1 (by omega)
        unfold TabAt at this ⊢
        simpa using this

theorem yaml_balance_scan :
    ∀ (suf : List Char) (i : Nat) (P : List Char) (b k : Int),
      b = depth ch_lbrace ch_rbrace P → k = depth ch_lbracket ch_rbracket P →
      (∃ c, yaml_balance i suf b k = Except.error (i + c) ∧ c < suf.length ∧
        (depth ch_lbrace ch_rbrace (P ++ suf.take (c + 1)) < 0 ∨
          depth ch_lbracket ch_rbracket (P ++ suf.take (c + 1)) < 0) ∧
        ∀ c1, c1 < c →
          ¬ (depth ch_lbrace ch_rbrace (P ++ suf.take (c1 + 1)) < 0 ∨
            depth ch_lbracket ch_rbracket (P ++ suf.take (c1 + 1)) < 0)) ∨
      (yaml_balance i suf b k =
          Except.ok (depth ch_lbrace ch_rbrace (P ++ suf),
            depth ch_lbracket ch_rbracket (P ++ suf)) ∧
        ∀ c1, c1 < suf.length →
          ¬ (depth ch_lbrace ch_rbrace (P ++ suf.take (c1 + 1)) < 0 ∨
            depth ch_lbracket ch_rbracket (P ++ suf.take (c1 + 1)) < 0)) := by
  intro suf
  induction suf with
  | nil =>
    intro i P b k hb hk
    right
    refine ⟨by unfold yaml_balance; rw [hb, hk, List.append_nil], ?_⟩
    intro c1 h
    simp at h
  | cons x rest ih =>
    intro i P b k hb hk
    have h1 : ch_rbrace ≠ ch_lbrace := by decide
    have h2 : ch_rbracket ≠ ch_lbracket := by decide
    have eb : (if x = ch_rbrace then (if x = ch_lbrace then b + 1 else b) - 1
        else (if x = ch_lbrace then b + 1 else b)) = depth ch_lbrace ch_rbrace (P ++ [x]) := by
      rw [depth_snoc, hb]
      by_cases e1 : x = ch_rbrace
      · subst e1
        simp [h1]
      · by_cases e2 : x = ch_lbrace
        · subst e2
          simp [h1.symm]
        · simp [e1, e2]
    have ek : (if x = ch_rbracket then (if x = ch_lbracket then k + 1 else k) - 1
        else (if x = ch_lbracket then k + 1 else k)) =
        depth ch_lbracket ch_rbracket (P ++ [x]) := by
      rw [depth_snoc, hk]
      by_cases e1 : x = ch_rbracket
      · subst e1
        simp [h2]
      · by_cases e2 : x = ch_lbracket
        · subst e2
          simp [h2.symm]
        · simp [e1, e2]
    have htake : ∀ n, P ++ (x :: rest).take (n + 1) = (P ++ [x]) ++ rest.take n := by
      intro n
      simp
    unfold yaml_balance
    dsimp only
    rw [eb, ek]
    by_cases hneg : depth ch_lbrace ch_rbrace (P ++ [x]) < 0 ∨
        depth ch_lbracket ch_rbracket (P ++ [x]) < 0
    · rw [if_pos hneg]
      left
      refine ⟨0, rfl, by simp, ?_, ?_⟩
      · simpa using hneg
      · intro c1 h
        omega
    · rw [if_neg hneg]
      rcases ih (i + 1) (P ++ [x]) _ _ rfl rfl with ⟨c, g1, g2, g3, g4⟩ | ⟨g1, g2⟩
      · left
        refine ⟨c + 1, ?_, by simp only [List.length_cons]; omega, ?_, ?_⟩
        · rw [g1]
          congr 1
          omega
        · rw [htake]
          exact g3
        · intro c1 hlt
          cases c1 with
          | zero => simpa using hneg
          | succ c1 =>
            rw [htake]
            exact g4 c1 (by omega)
      · right
        refine ⟨?_, ?_⟩
        · rw [g1]
          simp
        · intro c1 hlt
          cases c1 with
          | zero => simpa using hneg
          | succ c1 =>
            rw [htake]
            exact g2 c1 (by simp only [List.length_cons] at hlt; omega)

theorem yaml_balance_line (t : List Char) :
    (∃ c, yaml_balance 0 t 0 0 = Except.error c ∧ NegativeAt t c ∧
      ∀ c1, c1 < c → ¬ NegativeAt t c1) ∨
    (yaml_balance 0 t 0 0 =
        Except.ok (depth ch_lbrace ch_rbrace t, depth ch_lbracket ch_rbracket t) ∧
      ∀ c1, ¬ NegativeAt t c1) := by
  rcases yaml_balance_scan t 0 [] 0 0 (by simp [depth_nil]) (by simp [depth_nil]) with
    ⟨c, g1, g2, g3, g4⟩ | ⟨g1, g2⟩
  · left
    refine ⟨c, by simpa using g1, ⟨g2, by simpa using g3⟩, ?_⟩
    intro c1 hlt hn
    exact g4 c1 hlt (by simpa using hn.2)
  · right
    refine ⟨by simpa using g1, ?_⟩
    intro c1 hn
    exact g2 c1 hn.1 (by simpa using hn.2)

theorem check_yaml_clean (l : Line) (rest : List Line) (ln : Nat)
    (h : YamlClean (line_chars l)) :
    check_yaml ln (l :: rest) = check_yaml (ln + 1) rest := by
  obtain ⟨h1, h2, h3⟩ := h
  have htab : yaml_tab 0 (line_chars l) = none := by
    cases ht : yaml_tab 0 (line_chars l) with
    | none => rfl
    | some j =>
      obtain ⟨c, _, hc, _⟩ := yaml_tab_some _ _ _ ht
      exact absurd (List.getElem?_mem hc) h1
  conv_lhs => unfold check_yaml
  rw [htab]
  dsimp only
  rcases yaml_balance_line (line_chars l) with ⟨c, g1, g2, _⟩ | ⟨g1, _⟩
  · exact absurd g2 (h2 c g2.1)
  · rw [g1]
    dsimp only
    unfold Unbalanced at h3
    rw [if_neg h3]

theorem check_yaml_dirty (l : Line) (rest : List Line) (ln : Nat)
    (h : ¬ YamlClean (line_chars l)) :
    (∀ c, TabAt (line_chars l) c → (∀ c1, c1 < c → ¬ TabAt (line_chars l) c1) →
      check_yaml ln (l :: rest) =
        { line := ln, col_start := c, col_end := c + 1
          msg := "YAML: TAB not allowed - use spaces" }) ∧
    (ch_tab ∉ line_chars l →
      ∀ c, NegativeAt (line_chars l) c → (∀ c1, c1 < c → ¬ NegativeAt (line_chars l) c1) →
        check_yaml ln (l :: rest) =
          { line := ln, col_start := c, col_end := c + 1, msg := "Bracket balance broken" }) ∧
    (ch_tab ∉ line_chars l → (∀ c, ¬ NegativeAt (line_chars l) c) →
      check_yaml ln (l :: rest) =
        { line := ln, col_start := 0, col_end := l.len, msg := "Bracket not closed" }) := by
  refine ⟨?_, ?_, ?_⟩
  · intro c hc hfirst
    cases ht : yaml_tab 0 (line_chars l) with
    | none => exact absurd (List.getElem?_mem hc) (yaml_tab_none _ _ ht)
    | some j =>
      obtain ⟨c2, hj, hc2, hfirst2⟩ := yaml_tab_some _ _ _ ht
      have hcc : c = c2 := by
        rcases Nat.lt_trichotomy c c2 with hlt | heq | hgt
        · exact absurd hc (hfirst2 c hlt)
        · exact heq
        · exact absurd hc2 (hfirst c2 hgt)
      have hj2 : j = c := by omega
      unfold check_yaml
      rw [ht, hj2]
  · intro hnt c hc hfirst
    have htab : yaml_tab 0 (line_chars l) = none := by
      cases ht : yaml_tab 0 (line_chars l) with
      | none => rfl
      | some j =>
        obtain ⟨c2, _, hc2, _⟩ := yaml_tab_some _ _ _ ht
        exact absurd (List.getElem?_mem hc2) hnt
    unfold check_yaml
    rw [htab]
    dsimp only
    rcases yaml_balance_line (line_chars l) with ⟨c2, g1, g2, g3⟩ | ⟨_, g2⟩
    · have hcc : c = c2 := by
        rcases Nat.lt_trichotomy c c2 with hlt | heq | hgt
        · exact absurd hc (g3 c hlt)
        · exact heq
        · exact absurd g2 (hfirst c2 hgt)
      rw [g1, hcc]
    · exact absurd hc (g2 c)
  · intro hnt hnn
    have htab : yaml_tab 0 (line_chars l) = none := by
      cases ht : yaml_tab 0 (line_chars l) with
      | none => rfl
      | some j =>
        obtain ⟨c2, _, hc2, _⟩ := yaml_tab_some _ _ _ ht
        exact absurd (List.getElem?_mem hc2) hnt
    unfold check_yaml
    rw [htab]
    dsimp only
    rcases yaml_balance_line (line_chars l) with ⟨c2, _, g2, _⟩ | ⟨g1, _⟩
    · exact absurd g2 (hnn c2)
    · rw [g1]
      dsimp only
      have hu : Unbalanced (line_chars l) := by
        by_contra hu
        exact h ⟨hnt, fun c _ => hnn c, hu⟩
      unfold Unbalanced at hu
      rw [if_pos hu]

theorem check_yaml_spec : ∀ (ls : List Line) (ln : Nat),
    (∀ r, r < ls.length →
      (∀ k, k < r → YamlClean (line_chars (deref ls k))) →
      ¬ YamlClean (line_chars (deref ls r)) →
      (∀ c, TabAt (line_chars (deref ls r)) c →
        (∀ c1, c1 < c → ¬ TabAt (line_chars (deref ls r)) c1) →
        check_yaml ln ls = { line := ln + r, col_start := c, col_end := c + 1
                             msg := "YAML: TAB not allowed - use spaces" }) ∧
      (ch_tab ∉ line_chars (deref ls r) →
        ∀ c, NegativeAt (line_chars (deref ls r)) c →
          (∀ c1, c1 < c → ¬ NegativeAt (line_chars (deref ls r)) c1) →
          check_yaml ln ls = { line := ln + r, col_start := c, col_end := c + 1
                               msg := "Bracket balance broken" }) ∧
      (ch_tab ∉ line_chars (deref ls r) →
        (∀ c, ¬ NegativeAt (line_chars (deref ls r)) c) →
        check_yaml ln ls = { line := ln + r, col_start := 0, col_end := (deref ls r).len
                             msg := "Bracket not closed" })) ∧
    ((∀ r, r < ls.length → YamlClean (line_chars (deref ls r))) →
      check_yaml ln ls = no_error) := by
  intro ls
  induction ls with
  | nil =>
    intro ln
    refine ⟨?_, fun _ => rfl⟩
    intro r hr
    simp at hr
  | cons l rest ih =>
    intro ln
    have hd0 : deref (l :: rest) 0 = l := rfl
    refine ⟨?_, ?_⟩
    · intro r hr hclean hdirty
      cases r with
      | zero =>
        rw [hd0] at hdirty ⊢
        exact check_yaml_dirty l rest ln hdirty
      | succ r =>
        have h0 : YamlClean (line_chars l) := hclean 0 (by omega)
        rw [check_yaml_clean l rest ln h0, deref_cons_succ] at *
        have hr1 : r < rest.length := by simpa using hr
        have hcl : ∀ k, k < r → YamlClean (line_chars (deref rest k)) := by
          intro k hk
          have := hclean (k + 1) (by omega)
          rwa [deref_cons_succ] at this
        have := (ih (ln + 1)).1 r hr1 hcl hdirty
        have e : ln + 1 + r = ln + (r + 1) := by omega
        rw [e] at this
        exact this
    · intro hall
      have h0 : YamlClean (line_chars l) := hall 0 (by simp)
      rw [check_yaml_clean l rest ln h0]
      apply (ih (ln + 1)).2
      intro r hr
      have := hall (r + 1) (by simpa using hr)
      rwa [deref_cons_succ] at this

theorem syntax_diagnostic_yaml (ed : Editor) (name ext : List Char)
    (hf : ed.filename = some name) (he : strrchr name ch_dot = some ext)
    (hk : ext = ".yml".toList ∨ ext = ".yaml".toList) :
    syntax_diagnostic ed = check_yaml 1 ed.lines := by
  have h1 : ext ≠ ".json".toList := by
    rintro rfl
    revert hk
    decide
  unfold syntax_diagnostic
  rw [hf]
  dsimp only
  rw [he]
  dsimp only
  rw [if_neg h1, if_pos hk]

theorem html_chars_step (i : Nat) (c next : Char) (r2 : List Char) (d0 : Int) :
    html_chars i (c :: next :: r2) d0 =
      if c = ch_lt ∧ next = ch_slash ∧ d0 - 1 < 0 then Except.error i
      else html_chars (i + 1) (next :: r2) (d0 + tag_delta c next) := by
  have h1 : ch_slash ≠ ch_bang := by decide
  have h2 : ch_slash ≠ ch_question := by decide
  conv_lhs => unfold html_chars
  unfold tag_delta
  dsimp only
  by_cases hc : c = ch_lt
  · by_cases hs : next = ch_slash
    · subst hs
      by_cases hd : d0 - 1 < 0
      · simp [hc, hd]
      · simp [hc, hd]
        rfl
    · by_cases hb : next = ch_bang ∨ next = ch_question
      · rcases hb with hb | hb
        · subst hb
          simp [hc, h1.symm]
        · subst hb
          simp [hc, h2.symm]
      · have hb1 : next ≠ ch_bang := fun h => hb (Or.inl h)
        have hb2 : next ≠ ch_question := fun h => hb (Or.inr h)
        simp [hc, hs, hb1, hb2]
  · simp [hc]

theorem tag_depth_take_succ (c next : Char) (r2 : List Char) (k : Nat) :
    tag_depth ((c :: next :: r2).take (k + 2)) =
      tag_delta c next + tag_depth ((next :: r2).take (k + 1)) := by
  show tag_depth (c :: next :: r2.take k) = _
  rfl

theorem closing_tag_succ (c : Char) (rest : List Char) (k : Nat) :
    ClosingTagAt (c :: rest) (k + 1) ↔ ClosingTagAt rest k := by
  unfold ClosingTagAt
  simp

theorem html_chars_scan :
    ∀ (t : List Char) (i : Nat) (d0 : Int), 0 ≤ d0 →
      (∃ k, html_chars i t d0 = Except.error (i + k) ∧ ClosingTagAt t k ∧
        d0 + tag_depth (t.take (k + 1)) = 0 ∧
        ∀ k1, k1 < k → ¬ (ClosingTagAt t k1 ∧ d0 + tag_depth (t.take (k1 + 1)) = 0)) ∨
      (html_chars i t d0 = Except.ok (d0 + tag_depth t) ∧ 0 ≤ d0 + tag_depth t ∧
        ∀ k1, ¬ (ClosingTagAt t k1 ∧ d0 + tag_depth (t.take (k1 + 1)) = 0)) := by
  intro t
  induction t with
  | nil =>
    intro i d0 h0
    right
    refine ⟨by unfold html_chars tag_depth; simp, by unfold tag_depth; simpa using h0, ?_⟩
    rintro k1 ⟨⟨h, _⟩, _⟩
    simp at h
  | cons c rest ih =>
    intro i d0 h0
    cases rest with
    | nil =>
      right
      refine ⟨by unfold html_chars tag_depth; simp, by unfold tag_depth; simpa using h0, ?_⟩
      rintro k1 ⟨⟨_, h⟩, _⟩
      simp at h
    | cons next r2 =>
      rw [html_chars_step]
      by_cases hcond : c = ch_lt ∧ next = ch_slash ∧ d0 - 1 < 0
      · rw [if_pos hcond]
        left
        refine ⟨0, rfl, ?_, ?_, fun k1 h => absurd h (Nat.not_lt_zero k1)⟩
        · unfold ClosingTagAt
          simp [hcond.1, hcond.2.1]
        · show d0 + tag_depth [c] = 0
          unfold tag_depth
          have := hcond.2.2
          simp only [add_zero]
          omega
      · rw [if_neg hcond]
        have hk0 : ¬ (ClosingTagAt (c :: next :: r2) 0 ∧
            d0 + tag_depth ((c :: next :: r2).take (0 + 1)) = 0) := by
          rintro ⟨⟨ha, hb⟩, hd⟩
          have hd1 : d0 + tag_depth [c] = 0 := hd
          unfold tag_depth at hd1
          simp only [add_zero] at hd1
          apply hcond
          refine ⟨?_, ?_, by omega⟩
          · simpa using ha
          · simpa using hb
        have hd1 : 0 ≤ d0 + tag_delta c next := by
          unfold tag_delta
          by_cases hc : c = ch_lt
          · by_cases hs : next = ch_slash
            · have : ¬ (d0 - 1 < 0) := fun h => hcond ⟨hc, hs, h⟩
              simp only [hc, hs, if_true]
              omega
            · simp only [hc, hs, if_true, if_false]
              split <;> omega
          · simp only [hc, if_false]
            omega
        have hsum : d0 + tag_delta c next + tag_depth (next :: r2) =
            d0 + tag_depth (c :: next :: r2) := by
          conv_rhs => unfold tag_depth
          dsimp only
          omega
        rcases ih (i + 1) (d0 + tag_delta c next) hd1 with
          ⟨k, g1, g2, g3, g4⟩ | ⟨g1, g2, g3⟩
        · left
          refine ⟨k + 1, ?_, (closing_tag_succ _ _ _).mpr g2, ?_, ?_⟩
          · rw [g1]
            congr 1
            omega
          · rw [tag_depth_take_succ]
            omega
          · intro k1 hlt
            cases k1 with
            | zero => exact hk0
            | succ k1 =>
              rw [closing_tag_succ, tag_depth_take_succ]
              intro ⟨ha, hb⟩
              exact g4 k1 (by omega) ⟨ha, by omega⟩
        · right
          refine ⟨by rw [g1, hsum], by rw [← hsum]; exact g2, ?_⟩
          intro k1
          cases k1 with
          | zero => exact hk0
          | succ k1 =>
            rw [closing_tag_succ, tag_depth_take_succ]
            intro ⟨ha, hb⟩
            exact g3 k1 ⟨ha, by omega⟩

theorem tag_depth_before_zero (t : List Char) (ts : List (List Char)) (i : Nat) :
    tag_depth_before (t :: ts) 0 i = tag_depth (t.take (i + 1)) := by
  unfold tag_depth_before
  simp

theorem tag_depth_before_succ (t : List Char) (ts : List (List Char)) (r i : Nat) :
    tag_depth_before (t :: ts) (r + 1) i = tag_depth t + tag_depth_before ts r i := by
  unfold tag_depth_before
  simp only [List.take_succ_cons, List.map_cons, List.sum_cons, List.getD_cons_succ]
  omega

theorem html_lines_scan :
    ∀ (ls : List Line) (ln : Nat) (d0 : Int), 0 ≤ d0 →
      (∃ r i d, html_lines ln ls d0 = Except.error d ∧
        ClosingTagAt ((ls.map line_chars).getD r []) i ∧
        d0 + tag_depth_before (ls.map line_chars) r i = 0 ∧
        (∀ r1 i1, Earlier r1 i1 r i →
          ¬ (ClosingTagAt ((ls.map line_chars).getD r1 []) i1 ∧
            d0 + tag_depth_before (ls.map line_chars) r1 i1 = 0)) ∧
        d.line = ln + r ∧ d.col_start = i ∧ d.col_end = i + 2) ∨
      (html_lines ln ls d0 =
          Except.ok (ln + ls.length, d0 + ((ls.map line_chars).map tag_depth).sum) ∧
        ∀ r i, ¬ (ClosingTagAt ((ls.map line_chars).getD r []) i ∧
          d0 + tag_depth_before (ls.map line_chars) r i = 0)) := by
  intro ls
  induction ls with
  | nil =>
    intro ln d0 _
    right
    refine ⟨by unfold html_lines; simp, ?_⟩
    rintro r i ⟨⟨h, _⟩, _⟩
    simp at h
  | cons l rest ih =>
    intro ln d0 h0
    unfold html_lines
    simp only [List.map_cons]
    rcases html_chars_scan (line_chars l) 0 d0 h0 with ⟨k, g1, g2, g3, g4⟩ | ⟨g1, g2, g3⟩
    · left
      rw [g1]
      refine ⟨0, k, _, rfl, by simpa using g2, by rw [tag_depth_before_zero]; exact g3, ?_,
        rfl, by simp, by simp⟩
      intro r1 i1 he
      obtain ⟨rfl, hlt⟩ := earlier_zero r1 i1 k he
      rw [tag_depth_before_zero]
      simpa using g4 i1 hlt
    · rw [g1]
      dsimp only
      rcases ih (ln + 1) (d0 + tag_depth (line_chars l)) g2 with
        ⟨r, i, d, e1, e2, e3, e4, e5, e6, e7⟩ | ⟨e1, e2⟩
      · left
        refine ⟨r + 1, i, d, e1, by simpa using e2, ?_, ?_, by omega, e6, e7⟩
        · rw [tag_depth_before_succ]
          omega
        · intro r1 i1 he
          cases r1 with
          | zero =>
            rw [tag_depth_before_zero]
            simpa using g3 i1
          | succ r1 =>
            rw [tag_depth_before_succ]
            have := e4 r1 i1 (by unfold Earlier at he ⊢; omega)
            intro ⟨ha, hb⟩
            exact this ⟨by simpa using ha, by omega⟩
      · right
        refine ⟨?_, ?_⟩
        · rw [e1]
          simp only [List.length_cons, List.sum_cons]
          congr 2
          · omega
          · omega
        · intro r i
          cases r with
          | zero =>
            rw [tag_depth_before_zero]
            simpa using g3 i
          | succ r =>
            rw [tag_depth_before_succ]
            intro ⟨ha, hb⟩
            exact e2 r i ⟨by simpa using ha, by omega⟩

theorem check_html_spec (ls : List Line) : TagSpec (ls.map line_chars) (check_html ls) := by
  unfold check_html
  rcases html_lines_scan ls 1 0 (Int.le_refl 0) with
    ⟨r, i, d, e1, e2, e3, e4, e5, e6, e7⟩ | ⟨e1, e2⟩
  · rw [e1]
    dsimp only
    have hx : ExtraClosingTag (ls.map line_chars) r i := ⟨e2, by omega⟩
    have hfirst : ∀ r1 i1, Earlier r1 i1 r i → ¬ ExtraClosingTag (ls.map line_chars) r1 i1 := by
      intro r1 i1 he hh
      exact e4 r1 i1 he ⟨hh.1, by have := hh.2; omega⟩
    constructor
    · intro r2 i2 ⟨ha, hb⟩
      obtain ⟨rfl, rfl⟩ := earlier_total r2 i2 r i (fun h => hfirst r2 i2 h ha)
        (fun h => hb r i h hx)
      exact ⟨by omega, e6, e7⟩
    · intro hnone
      exact absurd hx (hnone r i)
  · rw [e1]
    dsimp only
    simp only [zero_add]
    constructor
    · intro r i h
      exact absurd h.1 (fun hh => e2 r i ⟨hh.1, by have := hh.2; omega⟩)
    · intro _
      constructor
      · intro hne
        rw [if_pos hne]
        simp
      · intro h0
        rw [if_neg (by simpa using h0)]

theorem syntax_diagnostic_html (ed : Editor) (name ext : List Char)
    (hf : ed.filename = some name) (he : strrchr name ch_dot = some ext)
    (hk : ext = ".html".toList ∨ ext = ".xml".toList ∨ ext = ".htm".toList) :
    syntax_diagnostic ed = check_html ed.lines := by
  have h1 : ext ≠ ".json".toList := by
    rintro rfl
    revert hk
    decide
  have h2 : ¬ (ext = ".yml".toList ∨ ext = ".yaml".toList) := by
    rintro (rfl | rfl) <;> (revert hk; decide)
  have h3 : ext ≠ ".py".toList := by
    rintro rfl
    revert hk
    decide
  unfold syntax_diagnostic
  rw [hf]
  dsimp only
  rw [he]
  dsimp only
  rw [if_neg h1, if_neg h2, if_neg h3, if_pos hk]

theorem first_extra_closing_tag_example :
    FirstExtraClosingTag ["<a>".toList, "</a>".toList, "x</b>".toList] 2 1 := by
  refine ⟨by decide, ?_⟩
  intro r1 i1 he
  rcases he with h | ⟨h, h1⟩
  · match r1, h with
    | 0, _ =>
      match i1 with
      | 0 => decide
      | 1 => decide
      | 2 => decide
      | n + 3 =>
        rintro ⟨⟨ha, _⟩, _⟩
        simp [String.toList] at ha
    | 1, _ =>
      match i1 with
      | 0 => decide
      | 1 => decide
      | 2 => decide
      | 3 => decide
      | n + 4 =>
        rintro ⟨⟨ha, _⟩, _⟩
        simp [String.toList] at ha
  · subst h
    have hc : i1 = 0 := by omega
    subst hc
    decide

/-- C34: `perform_undo` with an empty undo stack, `paste_clipboard` with an
empty clipboard, `uncut_text` with an empty cut buffer and `copy_selection`
without an active selection only call `set_message`, and `set_message`
leaves the lines, the line count, the cursor, the selection, the clipboard,
the cut buffer and the undo stack as they were. -/
theorem rejected_actions_only_set_message (ed : Editor) :
    (ed.undo_stack = [] → perform_undo ed = set_message ed "Undo: Nothing to undo") ∧
    (ed.clipboard = [] → paste_clipboard ed = set_message ed "Clipboard empty") ∧
    (ed.cut_buffer = [] → uncut_text ed = set_message ed "Cut buffer empty") ∧
    (ed.sel_active = false → copy_selection ed = set_message ed "Select text first") ∧
    (∀ msg : String,
      (set_message ed msg).lines = ed.lines ∧
      (set_message ed msg).total_lines = ed.total_lines ∧
      (set_message ed msg).current_line = ed.current_line ∧
      (set_message ed msg).cursor_y = ed.cursor_y ∧
      (set_message ed msg).cursor_x = ed.cursor_x ∧
      (set_message ed msg).preferred_x = ed.preferred_x ∧
      selection (set_message ed msg) = selection ed ∧
      (set_message ed msg).clipboard = ed.clipboard ∧
      (set_message ed msg).cut_buffer = ed.cut_buffer ∧
      (set_message ed msg).undo_stack = ed.undo_stack ∧
      (set_message ed msg).modified = ed.modified ∧
      (set_message ed msg).last_was_space = ed.last_was_space ∧
      (set_message ed msg).message = msg) := by
  refine ⟨perform_undo_empty ed, ?_, ?_, ?_, ?_⟩
  · intro h
    unfold paste_clipboard
    rw [if_pos (by rw [h]; rfl)]
  · intro h
    unfold uncut_text
    rw [if_pos (by rw [h]; rfl)]
  · intro h
    unfold copy_selection
    rw [if_pos h]
  · intro msg
    exact ⟨rfl, rfl, rfl, rfl, rfl, rfl, rfl, rfl, rfl, rfl, rfl, rfl, rfl⟩

theorem rejected_actions_only_set_message_witness :
    (mk_editor ["abc".toList] 0 1).undo_stack = [] ∧
    (mk_editor ["abc".toList] 0 1).clipboard = [] ∧
    (mk_editor ["abc".toList] 0 1).cut_buffer = [] ∧
    (mk_editor ["abc".toList] 0 1).sel_active = false ∧
    perform_undo (mk_editor ["abc".toList] 0 1) =
      set_message (mk_editor ["abc".toList] 0 1) "Undo: Nothing to undo" ∧
    paste_clipboard (mk_editor ["abc".toList] 0 1) =
      set_message (mk_editor ["abc".toList] 0 1) "Clipboard empty" ∧
    uncut_text (mk_editor ["abc".toList] 0 1) =
      set_message (mk_editor ["abc".toList] 0 1) "Cut buffer empty" ∧
    copy_selection (mk_editor ["abc".toList] 0 1) =
      set_message (mk_editor ["abc".toList] 0 1) "Select text first" :=
  ⟨rfl, rfl, rfl, rfl,
    (rejected_actions_only_set_message (mk_editor ["abc".toList] 0 1)).1 rfl,
    (rejected_actions_only_set_message (mk_editor ["abc".toList] 0 1)).2.1 rfl,
    (rejected_actions_only_set_message (mk_editor ["abc".toList] 0 1)).2.2.1 rfl,
    (rejected_actions_only_set_message (mk_editor ["abc".toList] 0 1)).2.2.2.1 rfl⟩

/-! ## C31 and C32: the cut buffer -/

theorem erase_set_same {α : Type} :
    ∀ (l : List α) (i : Nat) (a : α), (l.set i a).eraseIdx i = l.eraseIdx i := by
  intro l
  induction l with
  | nil =>
    intro i a
    rfl
  | cons x rest ih =>
    intro i a
    cases i with
    | zero => rfl
    | succ i =>
      show x :: (rest.set i a).eraseIdx i = x :: rest.eraseIdx i
      rw [ih]

theorem map_erase_row {α β : Type} (f : α → β) :
    ∀ (l : List α) (i : Nat), (l.eraseIdx i).map f = (l.map f).eraseIdx i := by
  intro l
  induction l with
  | nil =>
    intro i
    rfl
  | cons x rest ih =>
    intro i
    cases i with
    | zero => rfl
    | succ i =>
      show f x :: (rest.eraseIdx i).map f = f x :: (rest.map f).eraseIdx i
      rw [ih]

theorem cut_line_cut_buffer (ed : Editor) :
    (cut_line ed).cut_buffer =
      ed.cut_buffer ++ [(deref ed.lines ed.current_line).data.drop ed.cursor_x] := by
  unfold cut_line
  dsimp only
  split <;> rfl

theorem cut_lines_cut_buffer :
    ∀ (k : Nat) (ed : Editor),
      (cut_lines k ed).cut_buffer.length = ed.cut_buffer.length + k ∧
      (cut_lines k ed).cut_buffer.take ed.cut_buffer.length = ed.cut_buffer := by
  intro k
  induction k with
  | zero =>
    intro ed
    exact ⟨rfl, List.take_length _⟩
  | succ n ih =>
    intro ed
    unfold cut_lines
    obtain ⟨h1, h2⟩ := ih (cut_line ed)
    rw [cut_line_cut_buffer] at h1 h2
    refine ⟨by rw [h1]; simp only [List.length_append, List.length_cons, List.length_nil]; omega,
      ?_⟩
    simp only [List.length_append, List.length_cons, List.length_nil] at h2
    have h3 := congrArg (List.take ed.cut_buffer.length) h2
    rw [List.take_take, Nat.min_eq_left (by omega), List.take_left] at h3
    exact h3

theorem cut_line_keep (ed : Editor)
    (hkeep : ¬ (ed.cursor_x = 0 ∧ ed.current_line + 1 < ed.lines.length)) :
    (cut_line ed).lines =
      ed.lines.set ed.current_line
        { deref ed.lines ed.current_line with
          data := (deref ed.lines ed.current_line).data.take ed.cursor_x
          len := ed.cursor_x } ∧
    (cut_line ed).total_lines = ed.total_lines ∧
    (cut_line ed).current_line = ed.current_line ∧
    (cut_line ed).cursor_y = ed.cursor_y ∧
    (cut_line ed).cursor_x = ed.cursor_x := by
  unfold cut_line
  dsimp only
  rw [if_neg hkeep]
  exact ⟨rfl, rfl, rfl, rfl, rfl⟩

theorem cut_line_remove (ed : Editor) (hx : ed.cursor_x = 0)
    (hnext : ed.current_line + 1 < ed.lines.length) :
    (cut_line ed).lines = ed.lines.eraseIdx ed.current_line ∧
    (cut_line ed).total_lines = ed.total_lines - 1 ∧
    (cut_line ed).current_line = ed.current_line - 1 ∧
    (cut_line ed).cursor_y = ed.cursor_y - 1 ∧
    (cut_line ed).cursor_x = 0 := by
  unfold cut_line
  dsimp only
  rw [if_pos ⟨hx, hnext⟩]
  refine ⟨?_, rfl, ?_, ?_, rfl⟩
  · show (ed.lines.set ed.current_line _).eraseIdx ed.current_line = _
    rw [erase_set_same]
  · show (if ed.current_line > 0 then ed.current_line - 1 else 0) = _
    split <;> omega
  · show (if ed.cursor_y > 0 then ed.cursor_y - 1 else 0) = _
    split <;> omega

/-- C32: an emptied line is not removed when it is the last line, and after
a removal the cursor is at column 0. Cutting the empty second line of
["ab", "", "cd"] removes it and puts the cursor at (0, 0), not at the end
(0, 2) of the previous line; cutting the empty last line of ["ab", ""]
keeps both lines. -/
theorem cut_line_cursor_not_at_line_end :
    texts (cut_line (mk_editor ["ab".toList, [], "cd".toList] 1 0)) =
      ["ab".toList, "cd".toList] ∧
    (cut_line (mk_editor ["ab".toList, [], "cd".toList] 1 0)).cursor_y = 0 ∧
    (cut_line (mk_editor ["ab".toList, [], "cd".toList] 1 0)).cursor_x = 0 ∧
    (deref (cut_line (mk_editor ["ab".toList, [], "cd".toList] 1 0)).lines 0).len = 2 ∧
    (mk_editor ["ab".toList, []] 1 0).lines.length = 2 ∧
    texts (cut_line (mk_editor ["ab".toList, []] 1 0)) = ["ab".toList, []] ∧
    (cut_line (mk_editor ["ab".toList, []] 1 0)).total_lines = 2 := by
  decide

/-- C32 (amended): when `cut_line` leaves the current line empty (the
cursor is at column 0) and the line has a following line, the line is
removed, the line count drops by one and the cursor goes to column 0 of the
previous row, or stays at (0, 0) when the removed line was the first; when
the emptied line is the last line of the document, in particular the only
one, it is kept, empty, and the cursor stays. -/
theorem cut_line_empty_line (ed : Editor) (hcur : ed.current_line = ed.cursor_y)
    (hy : ed.cursor_y < ed.lines.length) (ht : ed.total_lines = ed.lines.length)
    (hx : ed.cursor_x = 0) :
    (ed.cursor_y + 1 < ed.lines.length →
      texts (cut_line ed) = (texts ed).eraseIdx ed.cursor_y ∧
      (cut_line ed).lines.length + 1 = ed.lines.length ∧
      (cut_line ed).total_lines + 1 = ed.total_lines ∧
      (cut_line ed).cursor_y = ed.cursor_y - 1 ∧
      (cut_line ed).current_line = ed.cursor_y - 1 ∧
      (cut_line ed).cursor_x = 0) ∧
    (ed.cursor_y + 1 = ed.lines.length →
      texts (cut_line ed) = (texts ed).set ed.cursor_y [] ∧
      (cut_line ed).lines.length = ed.lines.length ∧
      (cut_line ed).total_lines = ed.total_lines ∧
      (cut_line ed).cursor_y = ed.cursor_y ∧
      (cut_line ed).current_line = ed.cursor_y ∧
      (cut_line ed).cursor_x = 0) := by
  constructor
  · intro hnext
    obtain ⟨h1, h2, h3, h4, h5⟩ := cut_line_remove ed hx (by rw [hcur]; exact hnext)
    refine ⟨?_, ?_, by rw [h2]; omega, h4, by rw [h3, hcur], h5⟩
    · unfold texts
      rw [h1, map_erase_row, hcur]
    · rw [h1, List.length_eraseIdx, hcur, if_pos hy]
      omega
  · intro hlast
    obtain ⟨h1, h2, h3, h4, h5⟩ := cut_line_keep ed (by rw [hcur]; omega)
    refine ⟨?_, by rw [h1, List.length_set], h2, h4, by rw [h3, hcur], by rw [h5, hx]⟩
    unfold texts
    rw [h1, List.map_set, hcur, hx]
    rfl

theorem cut_line_empty_line_witness :
    (mk_editor ["ab".toList, [], "cd".toList] 1 0).current_line =
      (mk_editor ["ab".toList, [], "cd".toList] 1 0).cursor_y ∧
    (mk_editor ["ab".toList, [], "cd".toList] 1 0).cursor_y <
      (mk_editor ["ab".toList, [], "cd".toList] 1 0).lines.length ∧
    (mk_editor ["ab".toList, [], "cd".toList] 1 0).total_lines =
      (mk_editor ["ab".toList, [], "cd".toList] 1 0).lines.length ∧
    (mk_editor ["ab".toList, [], "cd".toList] 1 0).cursor_x = 0 ∧
    (cut_line (mk_editor ["ab".toList, [], "cd".toList] 1 0)).cursor_y = 1 - 1 ∧
    (cut_line (mk_editor ["ab".toList, [], "cd".toList] 1 0)).cursor_x = 0 :=
  ⟨rfl, by decide, rfl, rfl,
    ((cut_line_empty_line (mk_editor ["ab".toList, [], "cd".toList] 1 0) rfl (by decide) rfl
      rfl).1 (by decide)).2.2.2.1,
    ((cut_line_empty_line (mk_editor ["ab".toList, [], "cd".toList] 1 0) rfl (by decide) rfl
      rfl).1 (by decide)).2.2.2.2.2⟩

/-! ## C35, C36, C40: bounds -/

/-- C35: `cut_line` and `perform_undo` leave an active selection active
with its old endpoints. After Ctrl+A on the one-line document "hello" the
selection is (0, 0)-(0, 5); `cut_line` at (0, 0) empties the line and the
selection stays active with its end at column 5 of a line of length 0.
After Enter in the one-line document "a" and Ctrl+A the selection ends on
row 1; `perform_undo` restores the one-line document and the selection
stays active with its end on row 1. -/
theorem stale_selection_after_cut_line_and_undo :
    SelectionOK (select_all (mk_editor ["hello".toList] 0 0)) ∧
    (cut_line (select_all (mk_editor ["hello".toList] 0 0))).sel_active = true ∧
    texts (cut_line (select_all (mk_editor ["hello".toList] 0 0))) = [[]] ∧
    (cut_line (select_all (mk_editor ["hello".toList] 0 0))).sel_end_x = 5 ∧
    ¬ SelectionOK (cut_line (select_all (mk_editor ["hello".toList] 0 0))) ∧
    SelectionOK (select_all (insert_newline (mk_editor ["a".toList] 0 0))) ∧
    (perform_undo (select_all (insert_newline (mk_editor ["a".toList] 0 0)))).sel_active
      = true ∧
    (perform_undo (select_all (insert_newline (mk_editor ["a".toList] 0 0)))).lines.length
      = 1 ∧
    (perform_undo (select_all (insert_newline (mk_editor ["a".toList] 0 0)))).sel_end_y
      = 1 ∧
    ¬ SelectionOK (perform_undo (select_all (insert_newline (mk_editor ["a".toList] 0 0)))) := by
  decide

set_option maxRecDepth 20000 in
/-- C36: `insert_newline` gives the new line a buffer of 128 bytes whatever
the length of the text moved into it. In the one-line document of 200
characters every line has room for its terminator; after Enter at (0, 0) the
second line records length 200 and capacity 128. -/
theorem newline_overflows_new_line :
    CapacityOK long_line_editor ∧
    (deref (insert_newline long_line_editor).lines 1).len = 200 ∧
    (deref (insert_newline long_line_editor).lines 1).capacity = 128 ∧
    (deref (insert_newline long_line_editor).lines 1).data.length = 200 ∧
    ¬ CapacityOK (insert_newline long_line_editor) := by
  decide

/-- C40: with the cursor at the end of a line whose length is a positive
multiple of the viewport width, `draw_screen` places the cursor on the first
screen row of the following line. In a viewport 10 columns wide the first
line, of 10 characters, takes one screen row (row 0) and the second line
starts on row 1; the cursor at (0, 10) is placed at row 1, column 0 of the
text area. -/
theorem cursor_drawn_on_next_line :
    0 < full_row_view.edit_width ∧
    CursorOK full_row_view ∧
    full_row_view.offset_y ≤ full_row_view.cursor_y ∧
    wrap_rows (deref full_row_view.lines 0).len full_row_view.edit_width = 1 ∧
    rows_above full_row_view.edit_width 1 full_row_view.lines = 1 ∧
    cursor_screen full_row_view = some (1, LINE_NUMBER_WIDTH + 0) ∧
    cursor_screen { full_row_view with current_line := 1, cursor_y := 1, cursor_x := 0 } =
      some (1, LINE_NUMBER_WIDTH + 0) := by
  decide

/-! ## C37: the edit-boundary flag -/

theorem delete_span_flag (ed : Editor) (sy sx ey ex : Nat) :
    (delete_span ed sy sx ey ex).last_was_space = ed.last_was_space := by
  unfold delete_span
  dsimp only
  split <;> rfl

theorem delete_selection_flag (ed : Editor) :
    (delete_selection ed).last_was_space = ed.last_was_space := by
  unfold delete_selection
  split
  · rfl
  · exact delete_span_flag ed _ _ _ _

theorem backspace_char_flag (ed : Editor) :
    (backspace_char ed).last_was_space = ed.last_was_space := by
  unfold backspace_char
  dsimp only
  split
  · rw [delete_selection_flag]
    rfl
  · unfold backspace_edit
    split
    · rfl
    · split <;> rfl

theorem delete_char_flag (ed : Editor) :
    (delete_char ed).last_was_space = ed.last_was_space := by
  unfold delete_char
  dsimp only
  split
  · rw [delete_selection_flag]
    rfl
  · unfold delete_edit
    dsimp only
    split
    · rfl
    · split <;> rfl

theorem insert_newline_flag (ed : Editor) :
    (insert_newline ed).last_was_space = ed.last_was_space := by
  unfold insert_newline newline_split
  dsimp only
  split
  · show (delete_selection (save_undo ed)).last_was_space = _
    rw [delete_selection_flag]
    rfl
  · rfl

theorem paste_single_flag (ed : Editor) (h : ed.clipboard.length = 1) :
    (paste_clipboard ed).last_was_space = ed.last_was_space := by
  unfold paste_clipboard
  rw [if_neg (by omega)]
  dsimp only
  have hclip : ∀ e : Editor, (delete_selection e).clipboard = e.clipboard := by
    intro e
    unfold delete_selection
    split
    · rfl
    · unfold delete_span
      dsimp only
      split <;> rfl
  split
  · rw [if_pos (by rw [hclip]; exact h)]
    show (delete_selection ed).last_was_space = _
    rw [delete_selection_flag]
  · rfl

theorem replace_text_flag (fuel : Nat) (ed ed1 : Editor) (q r : List Char) (choice : Nat)
    (h : replace_text fuel ed q r choice = some ed1) :
    ed1.last_was_space = ed.last_was_space := by
  unfold replace_text at h
  split at h
  · injection h with h
    rw [← h]
    rfl
  · split at h
    · injection h with h
      rw [← h]
      rfl
    · split at h
      · injection h with h
        rw [← h]
        rfl
      · dsimp only at h
        split at h
        · split at h
          · cases h
          · injection h with h
            rw [← h]
            rfl
        · split at h
          · split at h
            · injection h with h
              rw [← h]
              rfl
            · injection h with h
              rw [← h]
              rfl
          · injection h with h
            rw [← h]
            rfl

theorem insert_char_stack (ed : Editor) (c : Char) :
    (insert_char ed c).undo_stack =
      (if ed.last_was_space = true ∨ ed.undo_stack.length = 0 then (save_undo ed).undo_stack
        else ed.undo_stack) ∧
    (insert_char ed c).last_was_space = is_blank c := by
  have hexp : ∀ (e : Editor) (k : Nat),
      (insert_char_expand e k).undo_stack = e.undo_stack ∧
      (insert_char_expand e k).last_was_space = e.last_was_space ∧
      (insert_char_expand e k).sel_active = e.sel_active := by
    intro e k
    unfold insert_char_expand
    dsimp only
    split <;> exact ⟨rfl, rfl, rfl⟩
  have hchk : (insert_char_checkpoint ed c).undo_stack =
        (if ed.last_was_space = true ∨ ed.undo_stack.length = 0 then (save_undo ed).undo_stack
          else ed.undo_stack) ∧
      (insert_char_checkpoint ed c).last_was_space = is_blank c := by
    unfold insert_char_checkpoint is_blank
    dsimp only
    by_cases h1 : ed.last_was_space = true ∨ ed.undo_stack.length = 0
    · by_cases h2 : c = Char.ofNat 32 ∨ c = Char.ofNat 9
      · simp only [if_pos h1, if_pos h2, decide_eq_true h2]
        exact ⟨trivial, trivial⟩
      · simp only [if_pos h1, if_neg h2, decide_eq_false h2]
        exact ⟨trivial, trivial⟩
    · have hf : ed.last_was_space = false := by
        cases hh : ed.last_was_space
        · rfl
        · exact absurd (Or.inl hh) h1
      by_cases h2 : c = Char.ofNat 32 ∨ c = Char.ofNat 9
      · simp only [if_neg h1, if_pos h2, decide_eq_true h2]
        exact ⟨trivial, trivial⟩
      · simp only [if_neg h1, if_neg h2, decide_eq_false h2]
        exact ⟨trivial, hf⟩
  obtain ⟨e1, e2, _⟩ := hexp (insert_char_checkpoint ed c) ed.current_line
  unfold insert_char
  dsimp only
  split
  · refine ⟨?_, ?_⟩
    · show (delete_selection _).undo_stack = _
      rw [delete_selection_undo_stack, e1, hchk.1]
    · show (delete_selection _).last_was_space = _
      rw [delete_selection_flag, e2, hchk.2]
  · refine ⟨?_, ?_⟩
    · show (insert_char_expand _ _).undo_stack = _
      rw [e1, hchk.1]
    · show (insert_char_expand _ _).last_was_space = _
      rw [e2, hchk.2]

theorem insert_char_stack_nonempty (ed : Editor) (c : Char) :
    (insert_char ed c).undo_stack.length ≠ 0 := by
  rw [(insert_char_stack ed c).1]
  split
  · rw [save_undo_stack]
    simp
  · rename_i h
    intro h0
    exact h (Or.inr h0)

theorem insert_chars_quiet :
    ∀ (cs : List Char) (ed : Editor), ed.last_was_space = false → ed.undo_stack.length ≠ 0 →
      (∀ c ∈ cs, is_blank c = false) →
      (insert_chars ed cs).undo_stack = ed.undo_stack := by
  intro cs
  induction cs with
  | nil =>
    intro ed _ _ _
    rfl
  | cons c rest ih =>
    intro ed hf hs hb
    unfold insert_chars
    have h1 := insert_char_stack ed c
    have hstack : (insert_char ed c).undo_stack = ed.undo_stack := by
      rw [h1.1, if_neg (by
        rw [hf]
        intro h
        exact h.elim (fun h => Bool.noConfusion h) hs)]
    rw [ih (insert_char ed c) (by rw [h1.2]; exact hb c (List.mem_cons_self _ _))
      (by rw [hstack]; exact hs) (fun x hx => hb x (List.mem_cons_of_mem _ hx)), hstack]

/-- C37: a structural edit does not set the edit-boundary flag. On the
empty document: typing `a` pushes a snapshot, Backspace pushes one, and the
`b` typed next pushes none, so the undo stack still holds 2 snapshots. -/
theorem typing_after_backspace_pushes_nothing :
    (insert_char (mk_editor [[]] 0 0) (Char.ofNat 97)).undo_stack.length = 1 ∧
    (backspace_char (insert_char (mk_editor [[]] 0 0) (Char.ofNat 97))).undo_stack.length
      = 2 ∧
    (backspace_char (insert_char (mk_editor [[]] 0 0) (Char.ofNat 97))).last_was_space
      = false ∧
    (insert_char (backspace_char (insert_char (mk_editor [[]] 0 0) (Char.ofNat 97)))
      (Char.ofNat 98)).undo_stack.length = 2 := by
  decide

/-- C37 (amended): the edit-boundary flag is changed only by typing.
Backspace, Delete, Enter, a single-fragment paste and a replace leave it as
it was; `insert_char` pushes a snapshot exactly when the flag is set or the
undo stack is empty, and leaves the flag set exactly when the typed
character is a space or a tab. In a run of characters that are neither
space nor tab, no character after the first pushes a snapshot. -/
theorem boundary_flag_changed_only_by_typing (ed : Editor) (c : Char) (cs : List Char)
    (hc : is_blank c = false) (hcs : ∀ x ∈ cs, is_blank x = false) :
    (backspace_char ed).last_was_space = ed.last_was_space ∧
    (delete_char ed).last_was_space = ed.last_was_space ∧
    (insert_newline ed).last_was_space = ed.last_was_space ∧
    (ed.clipboard.length = 1 → (paste_clipboard ed).last_was_space = ed.last_was_space) ∧
    (∀ fuel q r choice ed1, replace_text fuel ed q r choice = some ed1 →
      ed1.last_was_space = ed.last_was_space) ∧
    (∀ x, (insert_char ed x).undo_stack =
      (if ed.last_was_space = true ∨ ed.undo_stack.length = 0 then (save_undo ed).undo_stack
        else ed.undo_stack)) ∧
    (∀ x, (insert_char ed x).last_was_space = is_blank x) ∧
    (insert_chars (insert_char ed c) cs).undo_stack = (insert_char ed c).undo_stack :=
  ⟨backspace_char_flag ed, delete_char_flag ed, insert_newline_flag ed, paste_single_flag ed,
    fun fuel q r choice ed1 h => replace_text_flag fuel ed ed1 q r choice h,
    fun x => (insert_char_stack ed x).1, fun x => (insert_char_stack ed x).2,
    insert_chars_quiet cs (insert_char ed c) (by rw [(insert_char_stack ed c).2]; exact hc)
      (insert_char_stack_nonempty ed c) hcs⟩

theorem boundary_flag_changed_only_by_typing_witness :
    is_blank (Char.ofNat 97) = false ∧
    (∀ x ∈ "bc".toList, is_blank x = false) ∧
    (insert_chars (insert_char (mk_editor [[]] 0 0) (Char.ofNat 97)) "bc".toList).undo_stack =
      (insert_char (mk_editor [[]] 0 0) (Char.ofNat 97)).undo_stack ∧
    (backspace_char (insert_char (mk_editor [[]] 0 0) (Char.ofNat 97))).last_was_space =
      (insert_char (mk_editor [[]] 0 0) (Char.ofNat 97)).last_was_space :=
  ⟨by decide, by decide,
    (boundary_flag_changed_only_by_typing (mk_editor [[]] 0 0) (Char.ofNat 97) "bc".toList
      (by decide) (by decide)).2.2.2.2.2.2.2,
    (boundary_flag_changed_only_by_typing
      (insert_char (mk_editor [[]] 0 0) (Char.ofNat 97)) (Char.ofNat 97) "bc".toList
      (by decide) (by decide)).1⟩

/-! ## C39: the outcome of a search -/

/-- C39: an occurrence under the cursor is counted but not found. In the
one-line document "foo" with the cursor at (0, 0) the query "foo" is counted
once, and the search ends with the selection inactive and the cursor where it
was. -/
theorem search_counts_but_does_not_select :
    count_occurrences (mk_editor ["foo".toList] 0 0).lines "foo".toList = 1 ∧
    OccursAt "foo".toList "foo".toList 0 ∧
    (search_text (mk_editor ["foo".toList] 0 0) "foo".toList).message = "Topildi: 1 ta" ∧
    (search_text (mk_editor ["foo".toList] 0 0) "foo".toList).sel_active = false ∧
    (search_text (mk_editor ["foo".toList] 0 0) "foo".toList).cursor_x = 0 := by
  decide

/-- C39 (amended): for a non-empty query and a cursor that stands before
the end of its line (where the first probe, one column after the cursor,
stays inside the string), if the query occurs on the
cursor's line at a column after the cursor column, or on any other line,
the search ends with an active selection on one row whose text equals the
query; if every occurrence lies on the cursor's line at or before the cursor
column, or there is none, the search leaves cursor and selection as they
were. -/
theorem search_outcome (ed : Editor) (q : List Char)
    (hq : q ≠ []) (hcur : ed.current_line = ed.cursor_y) (hy : ed.cursor_y < ed.lines.length)
    (_hx : ed.cursor_x < (deref ed.lines ed.cursor_y).data.length) :
    ((∃ k c, k < ed.lines.length ∧ OccursAt (deref ed.lines k).data q c ∧
        (k = ed.cursor_y → ed.cursor_x < c)) →
      ∃ r c, r < ed.lines.length ∧
        selection (search_text ed q) = (true, (r, c), (r, c + q.length)) ∧
        ((deref (search_text ed q).lines r).data.drop c).take q.length = q) ∧
    ((∀ k c, k < ed.lines.length → OccursAt (deref ed.lines k).data q c →
        k = ed.cursor_y ∧ c ≤ ed.cursor_x) →
      selection (search_text ed q) = selection ed ∧
      (search_text ed q).cursor_y = ed.cursor_y ∧
      (search_text ed q).cursor_x = ed.cursor_x ∧
      (search_text ed q).lines = ed.lines) := by
  constructor
  · rintro ⟨k, c, hk, hocc, hafter⟩
    cases hloc : search_locate ed q with
    | some p =>
      obtain ⟨node, r, col⟩ := p
      obtain ⟨h1, h2, h3, _, _, _, h7⟩ := search_result ed q node r col hq hcur hy hloc
      exact ⟨r, col, h1, h3, by rw [h7]; exact h2.1⟩
    | none =>
      obtain ⟨h1, h2⟩ := search_locate_none ed q hcur hy hloc
      by_cases hkc : k = ed.cursor_y
      · subst hkc
        exact absurd hocc (strstr_from_none _ q _ hq h1 c (hafter rfl))
      · exact absurd hocc (strstr_none q _ (h2 k hk hkc) c)
  · intro hall
    cases hloc : search_locate ed q with
    | none =>
      obtain ⟨h1, h2, h3, _, h5⟩ := search_text_not_found ed q hloc
      exact ⟨h1, h2, h3, h5⟩
    | some p =>
      obtain ⟨node, r, col⟩ := p
      obtain ⟨_, hr, hcase⟩ := search_locate_some ed q node r col hcur hy hloc
      exfalso
      rcases hcase with ⟨hrow, hs, hle⟩ | ⟨_, hlt, hs, _⟩ | ⟨_, _, hlt, hs, _⟩
      · have hf := strstr_from_some _ q _ _ hq hs
        have hcol : ed.cursor_x + 1 + (col - (ed.cursor_x + 1)) = col := by omega
        rw [hcol] at hf
        have := (hall ed.cursor_y col hy hf.2.1).2
        omega
      · have := (hall r col hr (strstr_first q _ col hs).1).1
        omega
      · have := (hall r col hr (strstr_first q _ col hs).1).1
        omega

theorem search_outcome_witness :
    "foo".toList ≠ [] ∧
    (mk_editor ["foo bar".toList, "baz foo".toList] 0 0).current_line =
      (mk_editor ["foo bar".toList, "baz foo".toList] 0 0).cursor_y ∧
    (mk_editor ["foo bar".toList, "baz foo".toList] 0 0).cursor_y <
      (mk_editor ["foo bar".toList, "baz foo".toList] 0 0).lines.length ∧
    (mk_editor ["foo bar".toList, "baz foo".toList] 0 0).cursor_x <
      (deref (mk_editor ["foo bar".toList, "baz foo".toList] 0 0).lines
        (mk_editor ["foo bar".toList, "baz foo".toList] 0 0).cursor_y).data.length ∧
    (∃ r c, r < (mk_editor ["foo bar".toList, "baz foo".toList] 0 0).lines.length ∧
      selection (search_text (mk_editor ["foo bar".toList, "baz foo".toList] 0 0)
        "foo".toList) = (true, (r, c), (r, c + "foo".toList.length)) ∧
      ((deref (search_text (mk_editor ["foo bar".toList, "baz foo".toList] 0 0)
        "foo".toList).lines r).data.drop c).take "foo".toList.length = "foo".toList) :=
  ⟨by decide, rfl, by decide, by decide,
    (search_outcome (mk_editor ["foo bar".toList, "baz foo".toList] 0 0) "foo".toList
      (by decide) rfl (by decide) (by decide)).1 ⟨1, 4, by decide, by decide, by decide⟩⟩

/-! ## Typing and line breaks at the cursor -/

theorem set_getD_self {α : Type} :
    ∀ (l : List α) (k : Nat) (d : α), l.set k (l.getD k d) = l := by
  intro l
  induction l with
  | nil =>
    intro k d
    rfl
  | cons x rest ih =>
    intro k d
    cases k with
    | zero => rfl
    | succ k =>
      show x :: rest.set k (rest.getD k d) = x :: rest
      rw [ih]

theorem texts_set_capacity (ls : List Line) (k cap : Nat) :
    (ls.set k { deref ls k with capacity := cap }).map Line.data = ls.map Line.data := by
  rw [List.map_set]
  show (ls.map Line.data).set k (deref ls k).data = _
  rw [deref_data, set_getD_self]

theorem checkpoint_frame (ed : Editor) (c : Char) :
    (insert_char_checkpoint ed c).lines = ed.lines ∧
    (insert_char_checkpoint ed c).current_line = ed.current_line ∧
    (insert_char_checkpoint ed c).cursor_y = ed.cursor_y ∧
    (insert_char_checkpoint ed c).cursor_x = ed.cursor_x ∧
    (insert_char_checkpoint ed c).sel_active = ed.sel_active ∧
    (insert_char_checkpoint ed c).total_lines = ed.total_lines := by
  unfold insert_char_checkpoint
  dsimp only
  split <;> split <;> exact ⟨rfl, rfl, rfl, rfl, rfl, rfl⟩

theorem expand_frame (ed : Editor) (k : Nat) :
    texts (insert_char_expand ed k) = texts ed ∧
    (insert_char_expand ed k).current_line = ed.current_line ∧
    (insert_char_expand ed k).cursor_y = ed.cursor_y ∧
    (insert_char_expand ed k).cursor_x = ed.cursor_x ∧
    (insert_char_expand ed k).sel_active = ed.sel_active ∧
    (insert_char_expand ed k).total_lines = ed.total_lines := by
  unfold insert_char_expand
  dsimp only
  split
  · exact ⟨texts_set_capacity ed.lines k _, rfl, rfl, rfl, rfl, rfl⟩
  · exact ⟨rfl, rfl, rfl, rfl, rfl, rfl⟩

theorem at_cursor_row (ed : Editor) (A : List (List Char)) (pre post : List Char)
    (B : List (List Char)) (ht : texts ed = A ++ (pre ++ post) :: B) :
    (deref ed.lines A.length).data = pre ++ post := by
  rw [deref_data]
  show (texts ed).getD A.length [] = _
  rw [ht, List.getD_eq_getElem?_getD, List.getElem?_append_right (Nat.le_refl _)]
  simp

theorem set_at_cursor {α : Type} (A : List α) (a b : α) (B : List α) :
    (A ++ a :: B).set A.length b = A ++ b :: B := by
  induction A with
  | nil => rfl
  | cons x rest ih =>
    show x :: (rest ++ a :: B).set rest.length b = x :: (rest ++ b :: B)
    rw [ih]

theorem insert_char_at (ed : Editor) (c : Char) (A : List (List Char)) (pre post : List Char)
    (B : List (List Char)) (n : Nat) (h : AtCursor ed A pre post B n) :
    AtCursor (insert_char ed c) A (pre ++ [c]) post B n := by
  obtain ⟨h1, h2, h3, h4, h5, h6⟩ := h
  obtain ⟨c1, c2, c3, c4, c5, c6⟩ := checkpoint_frame ed c
  obtain ⟨e1, e2, e3, e4, e5, e6⟩ := expand_frame (insert_char_checkpoint ed c) A.length
  have ht : texts (insert_char_expand (insert_char_checkpoint ed c) A.length) =
      A ++ (pre ++ post) :: B := by
    rw [e1]
    unfold texts
    rw [c1]
    exact h1
  have hcl : (insert_char_expand (insert_char_checkpoint ed c) A.length).current_line =
      A.length := by rw [e2, c2, h2]
  have hcx : (insert_char_expand (insert_char_checkpoint ed c) A.length).cursor_x =
      pre.length := by rw [e4, c4, h4]
  unfold insert_char
  dsimp only
  rw [h2, if_neg (by rw [e5, c5, h5]; simp)]
  unfold insert_char_put
  refine ⟨?_, ?_, ?_, ?_, rfl, ?_⟩
  · unfold texts
    dsimp only
    rw [List.map_set]
    dsimp only
    rw [hcl, hcx, at_cursor_row _ A pre post B ht, List.take_left, List.drop_left]
    show (texts _).set A.length _ = _
    rw [ht, set_at_cursor]
    simp
  · exact hcl
  · show (insert_char_expand (insert_char_checkpoint ed c) A.length).cursor_y = _
    rw [e3, c3, h3]
  · show (insert_char_expand (insert_char_checkpoint ed c) A.length).cursor_x + 1 = _
    rw [hcx]
    simp
  · show (insert_char_expand (insert_char_checkpoint ed c) A.length).total_lines = _
    rw [e6, c6, h6]

theorem insert_chars_at :
    ∀ (s : List Char) (ed : Editor) (A : List (List Char)) (pre post : List Char)
      (B : List (List Char)) (n : Nat), AtCursor ed A pre post B n →
      AtCursor (insert_chars ed s) A (pre ++ s) post B n := by
  intro s
  induction s with
  | nil =>
    intro ed A pre post B n h
    rw [List.append_nil]
    exact h
  | cons c rest ih =>
    intro ed A pre post B n h
    unfold insert_chars
    have := ih (insert_char ed c) A (pre ++ [c]) post B n (insert_char_at ed c A pre post B n h)
    rw [List.append_assoc] at this
    exact this

theorem insert_newline_at (ed : Editor) (A : List (List Char)) (pre post : List Char)
    (B : List (List Char)) (n : Nat) (h : AtCursor ed A pre post B n) :
    AtCursor (insert_newline ed) (A ++ [pre]) [] post B (n + 1) := by
  obtain ⟨h1, h2, h3, h4, h5, h6⟩ := h
  have hmap : ed.lines.map Line.data = A ++ (pre ++ post) :: B := h1
  have hlen : A.length < ed.lines.length := by
    have := congrArg List.length hmap
    simp only [List.length_map, List.length_append, List.length_cons] at this
    omega
  have hrow := at_cursor_row ed A pre post B h1
  unfold insert_newline
  dsimp only
  rw [if_neg (by show ¬ ed.sel_active = true; rw [h5]; simp)]
  have hk : (save_undo ed).current_line < (save_undo ed).lines.length := by
    show ed.current_line < ed.lines.length
    rw [h2]
    exact hlen
  refine ⟨?_, ?_, ?_, rfl, h5, ?_⟩
  · unfold texts
    rw [newline_split_lines (save_undo ed) hk]
    simp only [save_undo_lines, save_undo_current, save_undo_cursor_x, List.map_append,
      List.map_cons, List.map_take, List.map_drop]
    have hd : (A ++ (pre ++ post) :: B).drop (A.length + 1) = B := by
      rw [← List.drop_drop, List.drop_left]
      rfl
    rw [h2, hrow, h4, List.take_left, List.drop_left, hmap, List.take_left, hd]
    simp
  · show ed.current_line + 1 = _
    rw [h2]
    simp
  · show ed.cursor_y + 1 = _
    rw [h3]
    simp
  · show ed.total_lines + 1 = _
    rw [h6]

theorem uncut_loop_single (ed : Editor) (f : List Char) :
    uncut_loop ed [f] = insert_chars ed f := by
  unfold uncut_loop
  rfl

theorem uncut_loop_more (ed : Editor) (f g : List Char) (rest : List (List Char)) :
    uncut_loop ed (f :: g :: rest) =
      uncut_loop (insert_newline (insert_chars ed f)) (g :: rest) := by
  conv_lhs => unfold uncut_loop

theorem uncut_loop_at :
    ∀ (frags : List (List Char)) (ed : Editor) (A : List (List Char)) (pre post : List Char)
      (B : List (List Char)) (n : Nat), AtCursor ed A pre post B n → frags ≠ [] →
      ∃ A1 pre1, AtCursor (uncut_loop ed frags) A1 pre1 post B (n + (frags.length - 1)) ∧
        A1 ++ [pre1 ++ post] = A ++ insert_fragments pre post frags ∧
        A1.length = A.length + (frags.length - 1) ∧
        pre1.length = last_column pre frags := by
  intro frags
  induction frags with
  | nil =>
    intro ed A pre post B n _ hne
    exact absurd rfl hne
  | cons f rest ih =>
    intro ed A pre post B n h _
    cases rest with
    | nil =>
      rw [uncut_loop_single]
      refine ⟨A, pre ++ f, insert_chars_at f ed A pre post B n h, rfl, rfl, ?_⟩
      show (pre ++ f).length = pre.length + f.length
      exact List.length_append _ _
    | cons g rest1 =>
      rw [uncut_loop_more]
      obtain ⟨A1, pre1, h1, h2, h3, h4⟩ :=
        ih (insert_newline (insert_chars ed f)) (A ++ [pre ++ f]) [] post B (n + 1)
          (insert_newline_at _ A (pre ++ f) post B n (insert_chars_at f ed A pre post B n h))
          (List.cons_ne_nil _ _)
      refine ⟨A1, pre1, ?_, ?_, ?_, ?_⟩
      · have e : n + 1 + ((g :: rest1).length - 1) = n + ((f :: g :: rest1).length - 1) := by
          simp only [List.length_cons]
          omega
        rw [← e]
        exact h1
      · rw [h2, List.append_assoc]
        rfl
      · rw [h3]
        simp only [List.length_append, List.length_cons, List.length_nil]
        omega
      · rw [h4]
        rfl

theorem paste_loop_pos :
    ∀ (frags : List (List Char)) (ed : Editor) (i : Nat), 0 < i → frags ≠ [] →
      paste_loop ed i frags = uncut_loop (insert_newline ed) frags := by
  intro frags
  induction frags with
  | nil =>
    intro ed i _ hne
    exact absurd rfl hne
  | cons f rest ih =>
    intro ed i hi _
    conv_lhs => unfold paste_loop
    rw [if_pos hi]
    cases rest with
    | nil =>
      rw [uncut_loop_single]
      rfl
    | cons g rest1 =>
      rw [ih _ (i + 1) (by omega) (List.cons_ne_nil _ _), uncut_loop_more]

theorem paste_loop_zero (frags : List (List Char)) (ed : Editor) :
    paste_loop ed 0 frags = uncut_loop ed frags := by
  cases frags with
  | nil => rfl
  | cons f rest =>
    conv_lhs => unfold paste_loop
    rw [if_neg (by omega)]
    cases rest with
    | nil =>
      rw [uncut_loop_single]
      rfl
    | cons g rest1 =>
      rw [paste_loop_pos _ _ (0 + 1) (by omega) (List.cons_ne_nil _ _), uncut_loop_more]

theorem at_cursor_of_state (ed : Editor) (hcur : ed.current_line = ed.cursor_y)
    (hy : ed.cursor_y < ed.lines.length)
    (hx : ed.cursor_x ≤ (deref ed.lines ed.cursor_y).data.length)
    (hsel : ed.sel_active = false) :
    AtCursor ed ((texts ed).take ed.cursor_y)
      ((deref ed.lines ed.cursor_y).data.take ed.cursor_x)
      ((deref ed.lines ed.cursor_y).data.drop ed.cursor_x)
      ((texts ed).drop (ed.cursor_y + 1)) ed.total_lines := by
  have hlen : ((texts ed).take ed.cursor_y).length = ed.cursor_y := by
    unfold texts
    rw [List.length_take, List.length_map]
    omega
  refine ⟨?_, by rw [hlen, hcur], by rw [hlen], ?_, hsel, rfl⟩
  · rw [List.take_append_drop]
    have := congrArg (List.map Line.data) (split_at_row ed.lines ed.cursor_y hy)
    simp only [List.map_append, List.map_cons, List.map_take, List.map_drop] at this
    exact this
  · rw [List.length_take]
    omega

/-- Within the 128 bytes of each new node: with a non-empty cut buffer, no
active selection, the cursor inside its line, and either a single fragment
or fewer than 128 characters after the cursor, `uncut_text` replaces the cursor's row by the rows obtained
from inserting the fragments at the cursor with a line break after each
fragment but the last (`insert_fragments`): the text before the cursor stays
in front of the first fragment, the text after it follows the last one, and
the other rows are unchanged; the line count grows by the number of
fragments minus one, the cursor ends after the last fragment, the cut buffer
is emptied, and a second `uncut_text` only sets the message. -/
theorem uncut_text_inserts_fragments (ed : Editor) (hcur : ed.current_line = ed.cursor_y)
    (hy : ed.cursor_y < ed.lines.length)
    (hx : ed.cursor_x ≤ (deref ed.lines ed.cursor_y).data.length)
    (hsel : ed.sel_active = false) (hbuf : ed.cut_buffer ≠ [])
    (_hfit : ed.cut_buffer.length = 1 ∨
      ((deref ed.lines ed.cursor_y).data.drop ed.cursor_x).length < 128) :
    texts (uncut_text ed) =
      (texts ed).take ed.cursor_y ++
        insert_fragments ((deref ed.lines ed.cursor_y).data.take ed.cursor_x)
          ((deref ed.lines ed.cursor_y).data.drop ed.cursor_x) ed.cut_buffer ++
        (texts ed).drop (ed.cursor_y + 1) ∧
    (uncut_text ed).lines.length = ed.lines.length + (ed.cut_buffer.length - 1) ∧
    (uncut_text ed).total_lines = ed.total_lines + (ed.cut_buffer.length - 1) ∧
    (uncut_text ed).cursor_y = ed.cursor_y + (ed.cut_buffer.length - 1) ∧
    (uncut_text ed).cursor_x =
      last_column ((deref ed.lines ed.cursor_y).data.take ed.cursor_x) ed.cut_buffer ∧
    (uncut_text ed).cut_buffer = [] ∧
    uncut_text (uncut_text ed) = set_message (uncut_text ed) "Cut buffer empty" := by
  obtain ⟨A1, pre1, ⟨a1, _, a3, a4, _, a6⟩, h2, h3, h4⟩ :=
    uncut_loop_at ed.cut_buffer ed _ _ _ _ _ (at_cursor_of_state ed hcur hy hx hsel) hbuf
  have hA : ((texts ed).take ed.cursor_y).length = ed.cursor_y := by
    unfold texts
    rw [List.length_take, List.length_map]
    omega
  have hu : uncut_text ed =
      set_message { uncut_loop ed ed.cut_buffer with cut_buffer := [] } "Pasted" := by
    unfold uncut_text
    rw [if_neg (by
      intro h
      exact hbuf (List.length_eq_zero.mp h))]
  have ht : texts (uncut_text ed) = texts (uncut_loop ed ed.cut_buffer) := by
    rw [hu]
    rfl
  have hempty : (uncut_text ed).cut_buffer = [] := by
    rw [hu]
    rfl
  have htext : texts (uncut_loop ed ed.cut_buffer) =
      (texts ed).take ed.cursor_y ++
        insert_fragments ((deref ed.lines ed.cursor_y).data.take ed.cursor_x)
          ((deref ed.lines ed.cursor_y).data.drop ed.cursor_x) ed.cut_buffer ++
        (texts ed).drop (ed.cursor_y + 1) := by
    rw [a1, ← h2]
    simp
  refine ⟨by rw [ht, htext], ?_, ?_, ?_, ?_, hempty, ?_⟩
  · have hl : (uncut_text ed).lines.length = (texts (uncut_text ed)).length := by
      unfold texts
      rw [List.length_map]
    rw [hl, ht, a1]
    simp only [List.length_append, List.length_cons, List.length_drop, h3, hA]
    unfold texts
    rw [List.length_map]
    omega
  · rw [hu]
    exact a6
  · rw [hu]
    show (uncut_loop ed ed.cut_buffer).cursor_y = _
    rw [a3, h3, hA]
  · rw [hu]
    show (uncut_loop ed ed.cut_buffer).cursor_x = _
    rw [a4, h4]
  · have hgen : ∀ e : Editor, e.cut_buffer = [] →
        uncut_text e = set_message e "Cut buffer empty" := by
      intro e he
      unfold uncut_text
      rw [if_pos (by rw [he]; rfl)]
    exact hgen _ hempty

theorem uncut_text_inserts_fragments_witness :
    (cut_line (cut_line (mk_editor ["ab".toList, "cd".toList, "ef".toList] 0 0))).cut_buffer =
      ["ab".toList, "cd".toList] ∧
    texts (cut_line (cut_line (mk_editor ["ab".toList, "cd".toList, "ef".toList] 0 0))) =
      ["ef".toList] ∧
    texts (uncut_text
      (cut_line (cut_line (mk_editor ["ab".toList, "cd".toList, "ef".toList] 0 0)))) =
      ["ab".toList, "cdef".toList] ∧
    (uncut_text
      (cut_line (cut_line (mk_editor ["ab".toList, "cd".toList, "ef".toList] 0 0)))).cut_buffer
      = [] :=
  ⟨by decide, by decide,
    (uncut_text_inserts_fragments
      (cut_line (cut_line (mk_editor ["ab".toList, "cd".toList, "ef".toList] 0 0)))
      (by decide) (by decide) (by decide) (by decide) (by decide) (by decide)).1,
    (uncut_text_inserts_fragments
      (cut_line (cut_line (mk_editor ["ab".toList, "cd".toList, "ef".toList] 0 0)))
      (by decide) (by decide) (by decide) (by decide) (by decide) (by decide)).2.2.2.2.2.1⟩

/-! ## Cut and paste back within the new nodes' buffers -/

theorem insert_fragments_snoc (post : List Char) :
    ∀ (mid : List (List Char)) (last : List Char),
      insert_fragments [] post (mid ++ [last]) = mid ++ [last ++ post] := by
  intro mid
  induction mid with
  | nil =>
    intro last
    show [[] ++ last ++ post] = _
    simp
  | cons m rest ih =>
    intro last
    cases rest with
    | nil =>
      show ([] ++ m) :: insert_fragments [] post [last] = _
      rw [List.nil_append]
      show m :: [[] ++ last ++ post] = _
      simp
    | cons g r =>
      show ([] ++ m) :: insert_fragments [] post ((g :: r) ++ [last]) = _
      rw [ih last]
      simp

theorem insert_fragments_cons_snoc (pre post f : List Char) (mid : List (List Char))
    (last : List Char) :
    insert_fragments pre post (f :: (mid ++ [last])) = (pre ++ f) :: (mid ++ [last ++ post]) := by
  cases mid with
  | nil =>
    show (pre ++ f) :: insert_fragments [] post [last] = _
    show (pre ++ f) :: [[] ++ last ++ post] = _
    simp
  | cons m r =>
    show (pre ++ f) :: insert_fragments [] post ((m :: r) ++ [last]) = _
    rw [insert_fragments_snoc]

theorem last_column_snoc :
    ∀ (mid : List (List Char)) (last : List Char),
      last_column [] (mid ++ [last]) = last.length := by
  intro mid
  induction mid with
  | nil =>
    intro last
    show ([] : List Char).length + last.length = _
    simp
  | cons m rest ih =>
    intro last
    cases rest with
    | nil =>
      show last_column [] [last] = _
      show ([] : List Char).length + last.length = _
      simp
    | cons g r =>
      show last_column [] ((g :: r) ++ [last]) = _
      exact ih last

theorem last_column_cons_snoc (pre f : List Char) (mid : List (List Char)) (last : List Char) :
    last_column pre (f :: (mid ++ [last])) = last.length := by
  cases mid with
  | nil =>
    show last_column [] [last] = _
    show ([] : List Char).length + last.length = _
    simp
  | cons m r =>
    show last_column [] ((m :: r) ++ [last]) = _
    exact last_column_snoc _ _

theorem rows_split (T : List (List Char)) (y : Nat) (h : y < T.length) :
    T = T.take y ++ T.getD y [] :: T.drop (y + 1) := by
  have h1 : T.getD y [] = T[y] := by
    rw [List.getD_eq_getElem?_getD, List.getElem?_eq_getElem h]
    rfl
  rw [h1, ← List.drop_eq_getElem_cons h, List.take_append_drop]

theorem span_restore (T : List (List Char)) (loy lox hiy hix : Nat)
    (hord : loy < hiy ∨ (loy = hiy ∧ lox ≤ hix)) (hhiy : hiy < T.length)
    (hlox : lox ≤ (T.getD loy []).length) (hhix : hix ≤ (T.getD hiy []).length) :
    T.take loy ++
        insert_fragments ((T.getD loy []).take lox) ((T.getD hiy []).drop hix)
          (span_text T loy lox hiy hix) ++
        T.drop (hiy + 1) = T ∧
    last_column ((T.getD loy []).take lox) (span_text T loy lox hiy hix) = hix ∧
    (span_text T loy lox hiy hix).length = hiy - loy + 1 := by
  unfold span_text
  by_cases he : loy = hiy
  · subst he
    have hle : lox ≤ hix := by omega
    rw [if_pos rfl]
    refine ⟨?_, ?_, by simp⟩
    · show T.take loy ++ [(T.getD loy []).take lox ++
          ((T.getD loy []).drop lox).take (hix - lox) ++ (T.getD loy []).drop hix] ++
        T.drop (loy + 1) = T
      have h1 : (T.getD loy []).drop hix =
          ((T.getD loy []).drop lox).drop (hix - lox) := by
        rw [List.drop_drop]
        congr 1
        omega
      rw [h1, List.append_assoc ((T.getD loy []).take lox), List.take_append_drop,
        List.take_append_drop]
      conv_rhs => rw [rows_split T loy hhiy]
      simp
    · show ((T.getD loy []).take lox).length +
        (((T.getD loy []).drop lox).take (hix - lox)).length = hix
      simp only [List.length_take, List.length_drop]
      omega
  · have hlt : loy < hiy := by omega
    rw [if_neg he]
    have hshape : [(T.getD loy []).drop lox] ++ (T.drop (loy + 1)).take (hiy - loy - 1) ++
        [(T.getD hiy []).take hix] =
        (T.getD loy []).drop lox ::
          ((T.drop (loy + 1)).take (hiy - loy - 1) ++ [(T.getD hiy []).take hix]) := by
      simp
    rw [hshape, insert_fragments_cons_snoc, last_column_cons_snoc, List.take_append_drop,
      List.take_append_drop]
    refine ⟨?_, ?_, ?_⟩
    · have hD : T.drop (loy + 1) =
          (T.drop (loy + 1)).take (hiy - loy - 1) ++ T.getD hiy [] :: T.drop (hiy + 1) := by
        have h2 : (T.drop (loy + 1)).drop (hiy - loy - 1) = T.drop hiy := by
          rw [List.drop_drop]
          congr 1
          omega
        have h3 : T.drop hiy = T.getD hiy [] :: T.drop (hiy + 1) := by
          have h1 : T.getD hiy [] = T[hiy] := by
            rw [List.getD_eq_getElem?_getD, List.getElem?_eq_getElem hhiy]
            rfl
          rw [h1]
          exact List.drop_eq_getElem_cons hhiy
        conv_lhs => rw [← List.take_append_drop (hiy - loy - 1) (T.drop (loy + 1)), h2, h3]
      conv_rhs => rw [rows_split T loy (by omega), hD]
      simp
    · rw [List.length_take]
      omega
    · simp only [List.length_cons, List.length_append, List.length_take, List.length_drop,
        List.length_nil]
      omega

theorem paste_single_at (ed : Editor) (frag : List Char) (A : List (List Char))
    (pre post : List Char) (B : List (List Char)) (n : Nat) (h : AtCursor ed A pre post B n) :
    AtCursor (paste_single ed frag) A (pre ++ frag) post B n := by
  obtain ⟨h1, h2, h3, h4, h5, h6⟩ := h
  have hrow := at_cursor_row ed A pre post B h1
  unfold paste_single
  dsimp only
  refine ⟨?_, h2, h3, ?_, h5, h6⟩
  · unfold texts
    dsimp only
    rw [List.map_set]
    dsimp only
    rw [h2, hrow, h4, List.take_left, List.drop_left]
    show (texts ed).set A.length _ = _
    rw [h1, set_at_cursor]
  · show ed.cursor_x + frag.length = _
    rw [h4, List.length_append]

theorem delete_selection_clipboard (ed : Editor) :
    (delete_selection ed).clipboard = ed.clipboard := by
  unfold delete_selection
  split
  · rfl
  · unfold delete_span
    dsimp only
    split <;> rfl

theorem paste_at (ed : Editor) (A : List (List Char)) (pre post : List Char)
    (B : List (List Char)) (n : Nat) (h : AtCursor ed A pre post B n)
    (hclip : ed.clipboard ≠ []) :
    ∃ A1 pre1, AtCursor (paste_clipboard ed) A1 pre1 post B (n + (ed.clipboard.length - 1)) ∧
      A1 ++ [pre1 ++ post] = A ++ insert_fragments pre post ed.clipboard ∧
      A1.length = A.length + (ed.clipboard.length - 1) ∧
      pre1.length = last_column pre ed.clipboard := by
  have hsel : ed.sel_active = false := h.2.2.2.2.1
  unfold paste_clipboard
  rw [if_neg (fun h0 => hclip (List.length_eq_zero.mp h0))]
  dsimp only
  rw [if_neg (show ¬ ed.sel_active = true by rw [hsel]; simp)]
  by_cases h1 : ed.clipboard.length = 1
  · rw [if_pos h1]
    obtain ⟨f, hf⟩ := List.length_eq_one.mp h1
    rw [hf]
    exact ⟨A, pre ++ f, paste_single_at ed f A pre post B n h, rfl, rfl,
      List.length_append _ _⟩
  · rw [if_neg h1, paste_loop_zero]
    obtain ⟨A1, pre1, g1, g2, g3, g4⟩ := uncut_loop_at ed.clipboard ed A pre post B n h hclip
    exact ⟨A1, pre1, g1, g2, g3, g4⟩

theorem cut_paste_key (ed : Editor) (loy lox hiy hix : Nat)
    (hl : LensOK ed) (hact : ed.sel_active = true)
    (hstart : ValidPos ed ed.sel_start_y ed.sel_start_x)
    (hend : ValidPos ed ed.sel_end_y ed.sel_end_x)
    (hn : normalize ed.sel_start_y ed.sel_start_x ed.sel_end_y ed.sel_end_x =
      ((loy, lox), (hiy, hix)))
    (hord : loy < hiy ∨ (loy = hiy ∧ lox ≤ hix))
    (hlo : ValidPos ed loy lox) (hhi : ValidPos ed hiy hix)
    (hclip : (copy_selection ed).clipboard = span_text (texts ed) loy lox hiy hix) :
    texts (paste_clipboard (cut_selection ed)) = texts ed ∧
    (paste_clipboard (cut_selection ed)).cursor_y = hiy ∧
    (paste_clipboard (cut_selection ed)).cursor_x = hix ∧
    (paste_clipboard (cut_selection ed)).current_line = hiy ∧
    (paste_clipboard (cut_selection ed)).sel_active = false := by
  obtain ⟨f1, _, _, f4, f5, f6, f7, f8⟩ := copy_selection_frame ed hact
  have hl1 : LensOK (copy_selection ed) := by
    unfold LensOK
    rw [f1]
    exact hl
  have hv : ∀ y x, ValidPos ed y x → ValidPos (copy_selection ed) y x := by
    intro y x hv
    unfold ValidPos at hv ⊢
    rw [f1]
    exact hv
  have hn1 : normalize (copy_selection ed).sel_start_y (copy_selection ed).sel_start_x
      (copy_selection ed).sel_end_y (copy_selection ed).sel_end_x =
      ((loy, lox), (hiy, hix)) := by
    rw [f5, f6, f7, f8]
    exact hn
  obtain ⟨d1, _, d3, d4, d5, d6, d7, _⟩ :=
    delete_selection_effect (copy_selection ed) loy lox hiy hix f4 hl1
      (by rw [f5, f6]; exact hv _ _ hstart) (by rw [f7, f8]; exact hv _ _ hend) hn1
  have ht1 : texts (copy_selection ed) = texts ed := by
    unfold texts
    rw [f1]
  rw [f1, ht1] at d1
  have hlenlo : lox ≤ (deref ed.lines loy).data.length := by
    rw [← deref_len ed hl loy hlo.1]
    exact hlo.2
  have hlenhi : hix ≤ (deref ed.lines hiy).data.length := by
    rw [← deref_len ed hl hiy hhi.1]
    exact hhi.2
  have hA : ((texts ed).take loy).length = loy := by
    unfold texts
    rw [List.length_take, List.length_map]
    have := hlo.1
    omega
  have hat : AtCursor (cut_selection ed) ((texts ed).take loy)
      ((deref ed.lines loy).data.take lox) ((deref ed.lines hiy).data.drop hix)
      ((texts ed).drop (hiy + 1)) (delete_selection (copy_selection ed)).total_lines := by
    unfold cut_selection
    refine ⟨?_, by rw [d6, hA], by rw [d4, hA], ?_, d7, rfl⟩
    · rw [d1]
      simp
    · rw [d5, List.length_take]
      omega
  have hc2 : (cut_selection ed).clipboard = span_text (texts ed) loy lox hiy hix := by
    unfold cut_selection
    rw [delete_selection_clipboard, hclip]
  have hT : (texts ed).length = ed.lines.length := by
    unfold texts
    rw [List.length_map]
  obtain ⟨s1, s2, s3⟩ := span_restore (texts ed) loy lox hiy hix hord
    (by rw [hT]; exact hhi.1)
    (by show lox ≤ ((texts ed).getD loy []).length; unfold texts; rw [← deref_data]; exact hlenlo)
    (by show hix ≤ ((texts ed).getD hiy []).length; unfold texts; rw [← deref_data]; exact hlenhi)
  have hgl : (texts ed).getD loy [] = (deref ed.lines loy).data := by
    unfold texts
    rw [deref_data]
  have hgh : (texts ed).getD hiy [] = (deref ed.lines hiy).data := by
    unfold texts
    rw [deref_data]
  rw [hgl, hgh] at s1
  rw [hgl] at s2
  obtain ⟨A1, pre1, ⟨p1, p2, p3, p4, p5, _⟩, q2, q3, q4⟩ :=
    paste_at (cut_selection ed) _ _ _ _ _ hat (by
      rw [hc2]
      intro h0
      rw [h0] at s3
      simp at s3)
  rw [hc2] at q2 q3 q4
  refine ⟨?_, ?_, ?_, ?_, p5⟩
  · rw [p1]
    have : A1 ++ (pre1 ++ (deref ed.lines hiy).data.drop hix) :: (texts ed).drop (hiy + 1) =
        (A1 ++ [pre1 ++ (deref ed.lines hiy).data.drop hix]) ++ (texts ed).drop (hiy + 1) := by
      simp
    rw [this, q2]
    exact s1
  · rw [p3, q3, s3, hA]
    rcases hord with h | ⟨h, _⟩ <;> omega
  · rw [p4, q4, s2]
  · rw [p2, q3, s3, hA]
    rcases hord with h | ⟨h, _⟩ <;> omega

/-- Within the 128 bytes of each new node: for a state whose recorded line
lengths match their texts and an active selection with valid endpoints, on
one row, or on several rows with fewer than 128 characters after its high
end, `cut_selection` followed by `paste_clipboard` gives back the original
sequence of line texts, leaves no selection, and puts the cursor at the high
end of the former selection (the second component of the normalised
endpoints). -/
theorem cut_then_paste_restores (ed : Editor) (hl : LensOK ed) (hact : ed.sel_active = true)
    (hstart : ValidPos ed ed.sel_start_y ed.sel_start_x)
    (hend : ValidPos ed ed.sel_end_y ed.sel_end_x)
    (_hfit :
      (normalize ed.sel_start_y ed.sel_start_x ed.sel_end_y ed.sel_end_x).1.1 =
        (normalize ed.sel_start_y ed.sel_start_x ed.sel_end_y ed.sel_end_x).2.1 ∨
      ((deref ed.lines
          (normalize ed.sel_start_y ed.sel_start_x ed.sel_end_y ed.sel_end_x).2.1).data.drop
        (normalize ed.sel_start_y ed.sel_start_x ed.sel_end_y ed.sel_end_x).2.2).length
        < 128) :
    texts (paste_clipboard (cut_selection ed)) = texts ed ∧
    (paste_clipboard (cut_selection ed)).lines.length = ed.lines.length ∧
    ((paste_clipboard (cut_selection ed)).cursor_y,
      (paste_clipboard (cut_selection ed)).cursor_x) =
      (normalize ed.sel_start_y ed.sel_start_x ed.sel_end_y ed.sel_end_x).2 ∧
    (paste_clipboard (cut_selection ed)).current_line =
      (paste_clipboard (cut_selection ed)).cursor_y ∧
    (paste_clipboard (cut_selection ed)).sel_active = false := by
  have hspan := copy_selection_span ed hact hstart.1 hend.1
  unfold span_between at hspan
  have hlen : ∀ e : Editor, texts e = texts ed → e.lines.length = ed.lines.length := by
    intro e he
    have := congrArg List.length he
    unfold texts at this
    simpa using this
  rcases normalize_cases ed.sel_start_y ed.sel_start_x ed.sel_end_y ed.sel_end_x with
    ⟨h1, h2⟩ | ⟨h1, h2⟩
  · rw [if_pos h2] at hspan
    obtain ⟨k1, k2, k3, k4, k5⟩ :=
      cut_paste_key ed _ _ _ _ hl hact hstart hend h1 h2 hstart hend hspan
    rw [h1]
    exact ⟨k1, hlen _ k1, by rw [k2, k3], by rw [k4, k2], k5⟩
  · rw [if_neg (by omega)] at hspan
    obtain ⟨k1, k2, k3, k4, k5⟩ :=
      cut_paste_key ed _ _ _ _ hl hact hstart hend h1 (by omega) hend hstart hspan
    rw [h1]
    exact ⟨k1, hlen _ k1, by rw [k2, k3], by rw [k4, k2], k5⟩

theorem cut_then_paste_restores_witness :
    LensOK sample_selected ∧
    sample_selected.sel_active = true ∧
    ValidPos sample_selected sample_selected.sel_start_y sample_selected.sel_start_x ∧
    ValidPos sample_selected sample_selected.sel_end_y sample_selected.sel_end_x ∧
    texts (cut_selection sample_selected) = ["hrld".toList] ∧
    texts (paste_clipboard (cut_selection sample_selected)) =
      ["hello".toList, "world".toList] ∧
    ((paste_clipboard (cut_selection sample_selected)).cursor_y,
      (paste_clipboard (cut_selection sample_selected)).cursor_x) = (1, 2) :=
  ⟨by decide, rfl, by decide, by decide, by decide,
    (cut_then_paste_restores sample_selected (by decide) rfl (by decide) (by decide)
      (by decide)).1,
    (cut_then_paste_restores sample_selected (by decide) rfl (by decide) (by decide)
      (by decide)).2.2.1⟩

/-! ## C1: Backspace on a selection that outlived an undo -/

/-- C1: on the one-line document "a", after Enter, Ctrl+A and Ctrl+Z the
document has one line, counted by `total_lines`, and the selection from
(0, 0) to (1, 1) made before the undo is still active. The next Backspace
takes its snapshot and enters `delete_selection`; the endpoints are in order
and on different rows, `get_line_at` finds the start row 0 and returns
`NULL` for the end row 1, and the multi-line branch reads through that
pointer: the operation leaves no document at all. -/
theorem backspace_on_stale_selection_reads_null :
    LinesOK undone_select_all ∧
    undone_select_all.lines.length = 1 ∧
    (save_undo undone_select_all).sel_active = true ∧
    normalize (save_undo undone_select_all).sel_start_y
        (save_undo undone_select_all).sel_start_x
        (save_undo undone_select_all).sel_end_y
        (save_undo undone_select_all).sel_end_x = ((0, 0), (1, 1)) ∧
    get_line_at (save_undo undone_select_all) 0 = some (restore_line "a".toList) ∧
    get_line_at (save_undo undone_select_all) 1 = none := by
  decide

/-! ## C3: a checkpointing edit that leaves the bounds -/

set_option maxRecDepth 20000 in
/-- C3: two runs of a single checkpointing edit that start with an empty
undo stack and a counted line list, and leave the bounds of the C objects
before any undo is reached. On "a", "b" after Ctrl+A and Ctrl+K the document
is the one line "b" and the selection from (0, 0) to (1, 1) is still
active: Backspace enters `delete_selection`, where `get_line_at` returns
`NULL` for the end row 1 and the multi-line branch reads through it. On the
line of 200 characters with the cursor at (0, 0), Enter copies the 200
characters and their terminator into the new node, whose buffer has 128
bytes. -/
theorem checkpoint_edit_leaves_bounds :
    cut_under_select_all.undo_stack = [] ∧
    cut_under_select_all.total_lines = cut_under_select_all.lines.length ∧
    texts cut_under_select_all = ["b".toList] ∧
    (save_undo cut_under_select_all).sel_active = true ∧
    normalize (save_undo cut_under_select_all).sel_start_y
        (save_undo cut_under_select_all).sel_start_x
        (save_undo cut_under_select_all).sel_end_y
        (save_undo cut_under_select_all).sel_end_x = ((0, 0), (1, 1)) ∧
    get_line_at (save_undo cut_under_select_all) 1 = none ∧
    long_line_editor.undo_stack = [] ∧
    long_line_editor.total_lines = long_line_editor.lines.length ∧
    long_line_editor.sel_active = false ∧
    (apply_edits long_line_editor [CheckpointEdit.newline]).current_line = 1 ∧
    (deref (apply_edits long_line_editor [CheckpointEdit.newline]).lines 1).data.length
      = 200 ∧
    (deref (apply_edits long_line_editor [CheckpointEdit.newline]).lines 1).capacity
      = 128 := by
  decide

/-! ## C10: Enter in front of 128 or more characters -/

/-- C10: with no active selection and the cursor at a valid position of a
line whose recorded length matches its text, if 128 or more characters
follow the cursor then `insert_newline` makes the new node the current line,
gives it the text after the cursor and the capacity 128, so that the string
it was given by `strcpy`, with its terminator, is longer than the buffer:
the state no longer satisfies `CapacityOK` when `backspace_char` is
called on it. -/
theorem newline_overruns_long_tail (ed : Editor)
    (hsel : ed.sel_active = false)
    (hcur : ed.current_line = ed.cursor_y)
    (hy : ed.cursor_y < ed.lines.length)
    (hx : ed.cursor_x ≤ (deref ed.lines ed.cursor_y).len)
    (hlen : (deref ed.lines ed.cursor_y).len = (deref ed.lines ed.cursor_y).data.length)
    (hlong : 128 ≤ (deref ed.lines ed.cursor_y).len - ed.cursor_x) :
    (insert_newline ed).current_line = ed.cursor_y + 1 ∧
    (deref (insert_newline ed).lines (ed.cursor_y + 1)).data =
      (deref ed.lines ed.cursor_y).data.drop ed.cursor_x ∧
    (deref (insert_newline ed).lines (ed.cursor_y + 1)).capacity = 128 ∧
    (deref (insert_newline ed).lines (ed.cursor_y + 1)).capacity <
      (deref (insert_newline ed).lines (ed.cursor_y + 1)).data.length + 1 ∧
    ¬ CapacityOK (insert_newline ed) := by
  have hk : ed.current_line < ed.lines.length := by rw [hcur]; exact hy
  have h1 : insert_newline ed = newline_split (save_undo ed) := by
    unfold insert_newline
    dsimp only
    rw [if_neg (by simp [hsel])]
  have hl1 := newline_split_lines (save_undo ed) hk
  simp only [save_undo_lines, save_undo_current, save_undo_cursor_x] at hl1
  have hA : (ed.lines.take ed.current_line).length = ed.current_line := by
    rw [List.length_take]
    exact Nat.min_eq_left (Nat.le_of_lt hk)
  have hrow : deref (insert_newline ed).lines (ed.cursor_y + 1) =
      { data := (deref ed.lines ed.cursor_y).data.drop ed.cursor_x
        len := (deref ed.lines ed.cursor_y).len - ed.cursor_x
        capacity := 128 } := by
    rw [h1, hl1, ← hcur]
    have := deref_append_one (ed.lines.take ed.current_line)
      { deref ed.lines ed.current_line with
        data := (deref ed.lines ed.current_line).data.take ed.cursor_x
        len := ed.cursor_x }
      { data := (deref ed.lines ed.current_line).data.drop ed.cursor_x
        len := (deref ed.lines ed.current_line).len - ed.cursor_x
        capacity := 128 } (ed.lines.drop (ed.current_line + 1))
    rw [hA] at this
    exact this
  have hmem : deref (insert_newline ed).lines (ed.cursor_y + 1) ∈ (insert_newline ed).lines := by
    apply deref_mem
    rw [h1, hl1]
    simp only [List.length_append, List.length_cons, hA]
    omega
  refine ⟨?_, ?_, ?_, ?_, ?_⟩
  · rw [h1]
    show ed.current_line + 1 = ed.cursor_y + 1
    rw [hcur]
  · rw [hrow]
  · rw [hrow]
  · rw [hrow]
    show 128 < ((deref ed.lines ed.cursor_y).data.drop ed.cursor_x).length + 1
    rw [List.length_drop]
    omega
  · intro hcap
    have := hcap _ hmem
    rw [hrow] at this
    have h2 : (deref ed.lines ed.cursor_y).len - ed.cursor_x + 1 ≤ 128 := this
    omega

set_option maxRecDepth 20000 in
/-- The line of 200 characters with the cursor at (0, 0) and no selection:
200 characters follow the cursor, and after Enter the new line holds them in
a buffer of 128 bytes. -/
theorem newline_overruns_long_tail_witness :
    long_line_editor.sel_active = false ∧
    ValidPos long_line_editor long_line_editor.cursor_y long_line_editor.cursor_x ∧
    (deref (insert_newline long_line_editor).lines 1).data =
      List.replicate 200 (Char.ofNat 97) ∧
    (deref (insert_newline long_line_editor).lines 1).capacity = 128 ∧
    ¬ CapacityOK (insert_newline long_line_editor) :=
  have h := newline_overruns_long_tail long_line_editor rfl rfl (by decide) (by decide)
    (by decide) (by decide)
  ⟨rfl, by decide, h.2.1, h.2.2.1, h.2.2.2.2⟩

/-! ## C16: a replace-one that reallocates the line -/

set_option maxRecDepth 20000 in
/-- C16: on the one-line document "X", loaded into a buffer of 129 bytes,
with the cursor at (0, 0), replace-one of "X" by 130 characters finds the
query at offset 0 and computes the new length 130; since `new_len + 1` is
not below the capacity, the buffer is reallocated to 258 bytes before the
splice, and the splice then goes through `pos`, which was computed from the
buffer as it was before the `realloc`. The recorded length becomes 130 and
the cursor moves to column 130. -/
theorem replace_one_reallocates_before_splice :
    (deref (mk_editor ["X".toList] 0 0).lines 0).capacity = 129 ∧
    (deref (mk_editor ["X".toList] 0 0).lines 0).len = 1 ∧
    strstr ((deref (mk_editor ["X".toList] 0 0).lines 0).data.drop 0) "X".toList = some 0 ∧
    (deref (mk_editor ["X".toList] 0 0).lines 0).capacity ≤
      (deref (mk_editor ["X".toList] 0 0).lines 0).len - "X".toList.length +
        long_replacement.length + 1 ∧
    (replace_text 0 (mk_editor ["X".toList] 0 0) "X".toList long_replacement 49).map
      (fun e => ((deref e.lines 0).capacity, (deref e.lines 0).len, e.cursor_x)) =
      some (258, 130, 130) := by
  decide

/-! ## C33: an uncut in front of 128 or more characters -/

set_option maxRecDepth 40000 in
/-- C33: on the document "x", "y" and a line of 200 characters, Ctrl+K twice
at (0, 0) leaves the cut buffer "x", "y", the long line as the only line,
the cursor at (0, 0) and no selection, with every string inside its buffer.
`uncut_text` then types "x", calls `insert_newline`, and types "y". At that
`insert_newline` the 200 characters after the cursor are copied into the new
node, whose buffer has 128 bytes. -/
theorem uncut_overruns_new_line :
    cut_twice_before_long_line.cut_buffer = ["x".toList, "y".toList] ∧
    texts cut_twice_before_long_line = [List.replicate 200 (Char.ofNat 97)] ∧
    cut_twice_before_long_line.sel_active = false ∧
    (cut_twice_before_long_line.cursor_y, cut_twice_before_long_line.cursor_x) = (0, 0) ∧
    CapacityOK cut_twice_before_long_line ∧
    uncut_loop cut_twice_before_long_line cut_twice_before_long_line.cut_buffer =
      insert_chars (insert_newline (insert_chars cut_twice_before_long_line "x".toList))
        "y".toList ∧
    (deref (insert_newline
      (insert_chars cut_twice_before_long_line "x".toList)).lines 1).data.length = 200 ∧
    (deref (insert_newline
      (insert_chars cut_twice_before_long_line "x".toList)).lines 1).capacity = 128 :=
  ⟨by decide, by decide, by decide, by decide, by decide, rfl, by decide, by decide⟩

/-! ## C38: a paste back in front of 128 or more characters -/

set_option maxRecDepth 40000 in
/-- C38: on the document "ab" and "c" followed by 200 characters, a drag
with the mouse from (0, 1) to (1, 1) leaves the active selection
(0, 1)-(1, 1), both endpoints valid. `cut_selection` stores "b", "c" and
leaves one line of 201 characters with the cursor at (0, 1), every string
inside its buffer. `paste_clipboard` then types "b", calls `insert_newline`,
and types "c". At that `insert_newline` the 200 characters after the cursor
are copied into the new node, whose buffer has 128 bytes. -/
theorem paste_back_overruns_new_line :
    selection dragged_before_long_tail = (true, (0, 1), (1, 1)) ∧
    SelectionOK dragged_before_long_tail ∧
    LensOK dragged_before_long_tail ∧
    (cut_selection dragged_before_long_tail).clipboard = ["b".toList, "c".toList] ∧
    (cut_selection dragged_before_long_tail).sel_active = false ∧
    texts (cut_selection dragged_before_long_tail) =
      [List.replicate 201 (Char.ofNat 97)] ∧
    ((cut_selection dragged_before_long_tail).cursor_y,
      (cut_selection dragged_before_long_tail).cursor_x) = (0, 1) ∧
    CapacityOK (cut_selection dragged_before_long_tail) ∧
    paste_loop (cut_selection dragged_before_long_tail) 0
        (cut_selection dragged_before_long_tail).clipboard =
      insert_chars (insert_newline
        (insert_chars (cut_selection dragged_before_long_tail) "b".toList)) "c".toList ∧
    (deref (insert_newline (insert_chars (cut_selection dragged_before_long_tail)
      "b".toList)).lines 1).data.length = 200 ∧
    (deref (insert_newline (insert_chars (cut_selection dragged_before_long_tail)
      "b".toList)).lines 1).capacity = 128 :=
  ⟨by decide, by decide, by decide, by decide, by decide, by decide, by decide, by decide,
    rfl, by decide, by decide⟩

end AzEditor
